import Mathlib

/-! # Verification of `advanced-vector/vector.h`

A shallow embedding of the two class templates of the repository, `RawMemory<T>`
and `Vector<T>`, followed by theorems about them.

Memory model:

* A block of raw storage is a list of `Slot`s.  A slot is either uninitialised
  (`Slot.raw`) or holds a live object (`Slot.obj x`).
* Pointers into a block are offsets (`Nat`) from `GetAddress()`; `begin()` is
  offset `0` and `end()` is offset `size_`.
* Every function that can hit an `assert` or run into undefined behaviour returns
  in `Except Fault`.  Reading or assigning a slot that holds no object, touching a
  slot outside the allocation, destroying a slot that holds no object and calling a
  standard algorithm on an invalid range are `Fault.undefined`.
* The element type `T` is a Lean type `α` together with a `Traits α` record: the
  two compile-time predicates the source branches on, the state a move leaves in
  its source, and the value of value-initialisation.
* The expression `T(args...)` is represented by the value `x : α` it constructs.  The
  functions named after the members describe the calls in which no operation raises.
  The functions with the suffix `_try` describe the calls in which the allocation, the
  constructor of the new element or a copy construction raises; they agree with the
  former when nothing raises.
* `size_t` values are natural numbers; `size_t` has 64 bits.  Two computations of the
  source can leave the range of `size_t`.  The difference `size_ - 1` with `size_ = 0`
  (line 155) is computed by `size_t_sub`, which wraps around by `2 ^ 64`.  The product
  `n * sizeof(T)` of line 60 is computed by `size_t_mul`, which wraps around by `2 ^ 64`:
  `operator new` is asked for the wrapped number of bytes, and the block it hands out has
  room for that many bytes only, while `capacity_` records `n`.  The size `sizeof(T)` of
  the element type is given by the class `ElemSize`.
* A block of storage is an object, so it has at most `PTRDIFF_MAX` bytes; the class
  invariant `Vector.WF` says so of the block of a `Vector`.  For such a `Vector` the
  product `size_ * 2` of lines 138 and 193 is below `2 ^ 64`; it is computed in `Nat`.
* The functions with the suffix `_at` describe the members on objects that lie in dynamic
  storage (`Heap`), where a `Vector` object holds the address of its block and two objects
  can hold the same address.
-/

namespace AdvancedVector

/-! ## Raw storage -/

/-- Contents of one element-sized slot of raw storage. -/
inductive Slot (α : Type) where
  | raw : Slot α
  | obj (x : α) : Slot α
  deriving DecidableEq, Repr

/-- Ways in which a call can go wrong without raising an exception. -/
inductive Fault where
  /-- An `assert` of the source is violated. -/
  | assertion : Fault
  /-- Undefined behaviour: access to a slot that holds no object or lies outside the
  allocation, or an invalid iterator range. -/
  | undefined : Fault
  deriving DecidableEq, Repr

/-- What the source needs to know about the element type `T`. -/
structure Traits (α : Type) where
  /-- The value of `std::is_nothrow_move_constructible_v<T>`. -/
  nothrow_move_constructible : Bool
  /-- The value of `std::is_copy_constructible_v<T>`. -/
  copy_constructible : Bool
  /-- State in which a move (construction or assignment) leaves its source. -/
  moved_from : α → α
  /-- The value-initialised element `T()`. -/
  value_init : α

/-- The move-safety test of lines 140, 195 and 255:
`is_nothrow_move_constructible_v<T> || !is_copy_constructible_v<T>`. -/
def Traits.move_if_safe {α : Type} (tr : Traits α) : Bool :=
  tr.nothrow_move_constructible || !tr.copy_constructible

/-- The largest value of `size_t` (64 bits). -/
def SIZE_MAX : Nat := 2 ^ 64 - 1

/-- The largest value of `ptrdiff_t` (64 bits), the largest size in bytes of an object. -/
def PTRDIFF_MAX : Nat := 2 ^ 63 - 1

/-- Subtraction `a - b` of two `size_t` values: the difference when `b ≤ a`, and the
difference wrapped around by `2 ^ 64` otherwise. -/
def size_t_sub (a b : Nat) : Nat := if b ≤ a then a - b else a + (SIZE_MAX + 1) - b

/-- Multiplication `a * b` of two `size_t` values: the product modulo `2 ^ 64`. -/
def size_t_mul (a b : Nat) : Nat := (a * b) % (SIZE_MAX + 1)

/-- The size `sizeof(T)` of the element type in bytes: at least one, and at most
`PTRDIFF_MAX` as the size of every object type. -/
class ElemSize (α : Type) where
  sizeof : Nat
  sizeof_pos : 0 < sizeof
  sizeof_le : sizeof ≤ PTRDIFF_MAX

/-- Read the object in slot `i`. -/
def load {α : Type} (buf : List (Slot α)) (i : Nat) : Except Fault α :=
  match buf[i]? with
  | some (Slot.obj x) => Except.ok x
  | _ => Except.error Fault.undefined

/-- Overwrite slot `i` of the block. -/
def store {α : Type} (buf : List (Slot α)) (i : Nat) (s : Slot α) :
    Except Fault (List (Slot α)) :=
  if i < buf.length then Except.ok (buf.set i s) else Except.error Fault.undefined

/-- Placement new: construct an object with value `x` in slot `i`. -/
def construct_at {α : Type} (buf : List (Slot α)) (i : Nat) (x : α) :
    Except Fault (List (Slot α)) :=
  store buf i (Slot.obj x)

/-- Run the destructor of the object in slot `i` (`std::destroy_at`). -/
def destroy_at {α : Type} (buf : List (Slot α)) (i : Nat) : Except Fault (List (Slot α)) := do
  let _ ← load buf i
  store buf i Slot.raw

/-- Move assignment inside one block: `buf[d] = std::move(buf[s])`. -/
def move_assign {α : Type} (tr : Traits α) (buf : List (Slot α)) (d s : Nat) :
    Except Fault (List (Slot α)) := do
  let x ← load buf s
  let _ ← load buf d
  let buf ← store buf d (Slot.obj x)
  store buf s (Slot.obj (tr.moved_from x))

/-- Move construction inside one block: `new (buf + d) T(std::move(buf[s]))`. -/
def move_construct {α : Type} (tr : Traits α) (buf : List (Slot α)) (d s : Nat) :
    Except Fault (List (Slot α)) := do
  let x ← load buf s
  let buf ← store buf d (Slot.obj x)
  store buf s (Slot.obj (tr.moved_from x))

/-- The algorithm `std::destroy_n(buf + first, n)`. -/
def destroy_n {α : Type} (buf : List (Slot α)) (first : Nat) : Nat → Except Fault (List (Slot α))
  | 0 => Except.ok buf
  | n + 1 => do
    let buf ← destroy_at buf first
    destroy_n buf (first + 1) n

/-- The algorithm `std::uninitialized_value_construct_n(buf + first, n)`. -/
def uninitialized_value_construct_n {α : Type} (tr : Traits α) (buf : List (Slot α))
    (first : Nat) : Nat → Except Fault (List (Slot α))
  | 0 => Except.ok buf
  | n + 1 => do
    let buf ← construct_at buf first tr.value_init
    uninitialized_value_construct_n tr buf (first + 1) n

/-- The algorithm `std::uninitialized_copy_n(src + first, n, dst + d_first)`; the result is
the destination block. -/
def uninitialized_copy_n {α : Type} (src : List (Slot α)) (first : Nat) :
    Nat → List (Slot α) → Nat → Except Fault (List (Slot α))
  | 0, dst, _ => Except.ok dst
  | n + 1, dst, d_first => do
    let x ← load src first
    let dst ← construct_at dst d_first x
    uninitialized_copy_n src (first + 1) n dst (d_first + 1)

/-- The algorithm `std::uninitialized_move_n(src + first, n, dst + d_first)`; the result is
the source block (its objects now moved from) and the destination block. -/
def uninitialized_move_n {α : Type} (tr : Traits α) :
    List (Slot α) → Nat → Nat → List (Slot α) → Nat →
      Except Fault (List (Slot α) × List (Slot α))
  | src, _, 0, dst, _ => Except.ok (src, dst)
  | src, first, n + 1, dst, d_first => do
    let x ← load src first
    let dst ← construct_at dst d_first x
    let src ← store src first (Slot.obj (tr.moved_from x))
    uninitialized_move_n tr src (first + 1) n dst (d_first + 1)

/-- The algorithm `std::copy_n(src + first, n, dst + d_first)`: copy assignment onto live
objects of the destination block. -/
def copy_n {α : Type} (src : List (Slot α)) (first : Nat) :
    Nat → List (Slot α) → Nat → Except Fault (List (Slot α))
  | 0, dst, _ => Except.ok dst
  | n + 1, dst, d_first => do
    let x ← load src first
    let _ ← load dst d_first
    let dst ← store dst d_first (Slot.obj x)
    copy_n src (first + 1) n dst (d_first + 1)

/-- Loop of `std::move(first, last, d_first)` with `n = last - first` steps left:
`*d_first++ = std::move(*first++)`. -/
def move_loop {α : Type} (tr : Traits α) :
    List (Slot α) → Nat → Nat → Nat → Except Fault (List (Slot α))
  | buf, _, 0, _ => Except.ok buf
  | buf, first, n + 1, d_first => do
    let buf ← move_assign tr buf d_first first
    move_loop tr buf (first + 1) n (d_first + 1)

/-- The algorithm `std::move(buf + first, buf + last, buf + d_first)`. -/
def move {α : Type} (tr : Traits α) (buf : List (Slot α)) (first last d_first : Nat) :
    Except Fault (List (Slot α)) :=
  if last < first then Except.error Fault.undefined
  else move_loop tr buf first (last - first) d_first

/-- Loop of `std::move_backward(first, last, d_last)` with `n = last - first` steps left:
`*--d_last = std::move(*--last)`. -/
def move_backward_loop {α : Type} (tr : Traits α) :
    List (Slot α) → Nat → Nat → Nat → Except Fault (List (Slot α))
  | buf, 0, _, _ => Except.ok buf
  | buf, n + 1, last, d_last =>
    if last = 0 ∨ d_last = 0 then Except.error Fault.undefined
    else do
      let buf ← move_assign tr buf (d_last - 1) (last - 1)
      move_backward_loop tr buf n (last - 1) (d_last - 1)

/-- The algorithm `std::move_backward(buf + first, buf + last, buf + d_last)`. -/
def move_backward {α : Type} (tr : Traits α) (buf : List (Slot α)) (first last d_last : Nat) :
    Except Fault (List (Slot α)) :=
  if last < first then Except.error Fault.undefined
  else move_backward_loop tr buf (last - first) last d_last

/-! ## `RawMemory<T>` -/

/-- The class `RawMemory<T>`: a block of storage and the number of slots it was allocated
with. -/
structure RawMemory (α : Type) where
  buffer_ : List (Slot α) := []
  capacity_ : Nat := 0
  deriving DecidableEq, Repr

/-- The static member `RawMemory::Allocate(n)`: the block that `operator new` hands out for
`n * sizeof(T)` bytes, the product computed in `size_t`; no block for `n = 0`.  The block has
as many uninitialised slots as fit into that number of bytes: `n` slots when the product
does not wrap, fewer when it does. -/
def RawMemory.Allocate {α : Type} [ElemSize α] (n : Nat) : List (Slot α) :=
  if n ≠ 0 then
    List.replicate (size_t_mul n (ElemSize.sizeof α) / ElemSize.sizeof α) Slot.raw
  else []

/-- The constructor `RawMemory(size_t capacity)`. -/
def RawMemory.ctor {α : Type} [ElemSize α] (capacity : Nat) : RawMemory α :=
  { buffer_ := RawMemory.Allocate capacity, capacity_ := capacity }

/-- The member `RawMemory::operator+(offset)`: the address of slot `offset`. -/
def RawMemory.add {α : Type} (self : RawMemory α) (offset : Nat) : Except Fault Nat :=
  if offset ≤ self.capacity_ then Except.ok offset else Except.error Fault.assertion

/-- The member `RawMemory::operator[](index)`: a reference to slot `index`. -/
def RawMemory.index {α : Type} (self : RawMemory α) (index : Nat) : Except Fault Nat :=
  if index < self.capacity_ then Except.ok index else Except.error Fault.assertion

/-- The member `RawMemory::Swap(other)`; the result is the pair (`*this`, `other`). -/
def RawMemory.Swap {α : Type} (self other : RawMemory α) : RawMemory α × RawMemory α :=
  ({ buffer_ := other.buffer_, capacity_ := other.capacity_ },
   { buffer_ := self.buffer_, capacity_ := self.capacity_ })

/-- The member `RawMemory::GetAddress()`: offset `0` of the block. -/
def RawMemory.GetAddress {α : Type} (_self : RawMemory α) : Nat := 0

/-- The member `RawMemory::Capacity()`. -/
def RawMemory.Capacity {α : Type} (self : RawMemory α) : Nat := self.capacity_

/-! ## `Vector<T>` -/

/-- The class `Vector<T>`. -/
structure Vector (α : Type) where
  data_ : RawMemory α := {}
  size_ : Nat := 0
  deriving DecidableEq, Repr

namespace Vector

variable {α : Type}

/-- The member `Vector::begin()`. -/
def begin (self : Vector α) : Nat := self.data_.GetAddress

/-- The member `Vector::end()`. -/
def end_ (self : Vector α) : Nat := self.data_.GetAddress + self.size_

/-- The member `Vector::cbegin()`. -/
def cbegin (self : Vector α) : Nat := self.begin

/-- The member `Vector::cend()`. -/
def cend (self : Vector α) : Nat := self.end_

/-- The member `Vector::Size()`. -/
def Size (self : Vector α) : Nat := self.size_

/-- The member `Vector::Capacity()`. -/
def Capacity (self : Vector α) : Nat := self.data_.Capacity

/-- The member `Vector::operator[](index)`: a reference to element `index`. -/
def index (self : Vector α) (index : Nat) : Except Fault Nat :=
  if index < self.size_ then self.data_.index index else Except.error Fault.assertion

/-- Value read through the reference `(*this)[index]`. -/
def get (self : Vector α) (i : Nat) : Except Fault α := do
  let r ← self.index i
  load self.data_.buffer_ r

/-- The default constructor `Vector()`. -/
def ctor_default : Vector α := {}

/-- The constructor `Vector(size_t size)`. -/
def ctor_size [ElemSize α] (tr : Traits α) (size : Nat) : Except Fault (Vector α) := do
  let data_ : RawMemory α := RawMemory.ctor size
  let buf ← uninitialized_value_construct_n tr data_.buffer_ data_.GetAddress size
  pure { data_ := { data_ with buffer_ := buf }, size_ := size }

/-- The copy constructor `Vector(const Vector& other)`. -/
def ctor_copy [ElemSize α] (other : Vector α) : Except Fault (Vector α) := do
  let data_ : RawMemory α := RawMemory.ctor other.size_
  let size_ := other.size_
  let buf ← uninitialized_copy_n other.data_.buffer_ other.data_.GetAddress size_
    data_.buffer_ data_.GetAddress
  pure { data_ := { data_ with buffer_ := buf }, size_ := size_ }

/-- The member `Vector::Swap(other)`; the result is the pair (`*this`, `other`). -/
def Swap (self other : Vector α) : Vector α × Vector α :=
  let d := self.data_.Swap other.data_
  ({ data_ := d.1, size_ := other.size_ }, { data_ := d.2, size_ := self.size_ })

/-- The move constructor `Vector(Vector&& other)`; the result is the pair
(new object, `other`). -/
def ctor_move (other : Vector α) : Vector α × Vector α :=
  Swap {} other

/-- The destructor `~Vector()`: destroys the `size_` live elements. -/
def dtor (self : Vector α) : Except Fault Unit := do
  let _ ← destroy_n self.data_.buffer_ self.data_.GetAddress self.size_
  pure ()

/-- The private member `Vector::Assign(rhs)`. -/
def Assign (self rhs : Vector α) : Except Fault (Vector α) := do
  let min_size := min self.size_ rhs.size_
  let buf ← copy_n rhs.data_.buffer_ rhs.data_.GetAddress min_size
    self.data_.buffer_ self.data_.GetAddress
  let buf ←
    if rhs.size_ < self.size_ then
      destroy_n buf (self.data_.GetAddress + rhs.size_) (self.size_ - rhs.size_)
    else
      uninitialized_copy_n rhs.data_.buffer_ (rhs.data_.GetAddress + self.size_)
        (rhs.size_ - self.size_) buf (self.data_.GetAddress + self.size_)
  pure { data_ := { self.data_ with buffer_ := buf }, size_ := rhs.size_ }

/-- Copy assignment `*this = rhs` for two distinct objects (`this != &rhs`); the result is
the new state of `*this`, `rhs` is a reference to const. -/
def assign_copy [ElemSize α] (self rhs : Vector α) : Except Fault (Vector α) :=
  if rhs.size_ > self.data_.Capacity then do
    let rhs_copy ← ctor_copy rhs
    let p := Swap self rhs_copy
    let _ ← dtor p.2
    pure p.1
  else
    Assign self rhs

/-- Copy assignment `v = v` of an object to itself (`this == &rhs`). -/
def assign_copy_self (self : Vector α) : Vector α := self

/-- Move assignment `*this = std::move(rhs)` for two distinct objects (`this != &rhs`);
the result is the pair (`*this`, `rhs`). -/
def assign_move (self rhs : Vector α) : Vector α × Vector α :=
  Swap self rhs

/-- Move assignment `v = std::move(v)` of an object to itself (`this == &rhs`). -/
def assign_move_self (self : Vector α) : Vector α := self

/-- The member `Vector::Reserve(new_capacity)`. -/
def Reserve [ElemSize α] (tr : Traits α) (self : Vector α) (new_capacity : Nat) :
    Except Fault (Vector α) :=
  if new_capacity ≤ self.data_.Capacity then pure self
  else do
    let new_data : RawMemory α := RawMemory.ctor new_capacity
    let p ←
      if tr.move_if_safe then
        uninitialized_move_n tr self.data_.buffer_ self.data_.GetAddress self.size_
          new_data.buffer_ new_data.GetAddress
      else do
        let nb ← uninitialized_copy_n self.data_.buffer_ self.data_.GetAddress self.size_
          new_data.buffer_ new_data.GetAddress
        pure (self.data_.buffer_, nb)
    let _ ← destroy_n p.1 self.data_.GetAddress self.size_
    pure { data_ := { buffer_ := p.2, capacity_ := new_data.capacity_ }, size_ := self.size_ }

/-- The member `Vector::Resize(new_size)`. -/
def Resize [ElemSize α] (tr : Traits α) (self : Vector α) (new_size : Nat) :
    Except Fault (Vector α) := do
  if new_size > self.size_ then
    let self ← Reserve tr self new_size
    let buf ← uninitialized_value_construct_n tr self.data_.buffer_
      (self.data_.GetAddress + self.size_) (new_size - self.size_)
    pure { data_ := { self.data_ with buffer_ := buf }, size_ := new_size }
  else
    let buf ← destroy_n self.data_.buffer_ (self.data_.GetAddress + new_size)
      (self.size_ - new_size)
    pure { data_ := { self.data_ with buffer_ := buf }, size_ := new_size }

/-- The member `Vector::EmplaceBack(args...)`, where `x` is the value `T(args...)`; the
result is the new state and the returned reference `data_[size_ - 1]`. -/
def EmplaceBack [ElemSize α] (tr : Traits α) (self : Vector α) (x : α) :
    Except Fault (Vector α × Nat) := do
  let self ←
    if self.data_.Capacity ≤ self.size_ then do
      let new_data : RawMemory α := RawMemory.ctor (if self.size_ = 0 then 1 else self.size_ * 2)
      let nb ← construct_at new_data.buffer_ (new_data.GetAddress + self.size_) x
      let p ←
        if tr.move_if_safe then
          uninitialized_move_n tr self.data_.buffer_ self.data_.GetAddress self.size_
            nb new_data.GetAddress
        else do
          let nb ← uninitialized_copy_n self.data_.buffer_ self.data_.GetAddress self.size_
            nb new_data.GetAddress
          pure (self.data_.buffer_, nb)
      let _ ← destroy_n p.1 self.data_.GetAddress self.size_
      pure ({ data_ := { buffer_ := p.2, capacity_ := new_data.capacity_ },
              size_ := self.size_ } : Vector α)
    else do
      let buf ← construct_at self.data_.buffer_ (self.data_.GetAddress + self.size_) x
      pure ({ data_ := { self.data_ with buffer_ := buf }, size_ := self.size_ } : Vector α)
  let self : Vector α := { self with size_ := self.size_ + 1 }
  let r ← self.data_.index (size_t_sub self.size_ 1)
  pure (self, r)

/-- The member `Vector::PushBack(value)`. -/
def PushBack [ElemSize α] (tr : Traits α) (self : Vector α) (value : α) :
    Except Fault (Vector α) := do
  let p ← EmplaceBack tr self value
  pure p.1

/-- The member `Vector::PopBack()`. -/
def PopBack (self : Vector α) : Except Fault (Vector α) :=
  if self.size_ > 0 then do
    let buf ← destroy_at self.data_.buffer_ (self.data_.GetAddress + self.size_ - 1)
    pure { data_ := { self.data_ with buffer_ := buf }, size_ := self.size_ - 1 }
  else pure self

/-- The member `Vector::Emplace(pos, args...)`, where `x` is the value `T(args...)`; the
result is the new state and the returned iterator. -/
def Emplace [ElemSize α] (tr : Traits α) (self : Vector α) (pos : Nat) (x : α) :
    Except Fault (Vector α × Nat) := do
  if ¬ (pos ≥ self.begin ∧ pos ≤ self.end_) then throw Fault.assertion
  let position := pos - self.cbegin
  let self ←
    if self.size_ = self.Capacity then do
      let new_data : RawMemory α := RawMemory.ctor (if self.size_ = 0 then 1 else self.size_ * 2)
      let nb ← construct_at new_data.buffer_ (new_data.GetAddress + position) x
      let p ←
        if tr.move_if_safe then do
          let p ← uninitialized_move_n tr self.data_.buffer_ self.data_.GetAddress position
            nb new_data.GetAddress
          uninitialized_move_n tr p.1 (self.data_.GetAddress + position) (self.size_ - position)
            p.2 (new_data.GetAddress + position + 1)
        else pure (self.data_.buffer_, nb)
      let _ ← destroy_n p.1 self.data_.GetAddress self.size_
      pure ({ data_ := { buffer_ := p.2, capacity_ := new_data.capacity_ },
              size_ := self.size_ } : Vector α)
    else do
      let value_to_insert := x
      let target := self.end_
      let last ← self.data_.index (size_t_sub self.size_ 1)
      let buf ← move_construct tr self.data_.buffer_ target last
      let buf ← move_backward tr buf (self.data_.GetAddress + position) (self.end_ - 1) self.end_
      let slot ← self.data_.index position
      let _ ← load buf slot
      let buf ← store buf slot (Slot.obj value_to_insert)
      pure ({ data_ := { self.data_ with buffer_ := buf }, size_ := self.size_ } : Vector α)
  let self : Vector α := { self with size_ := self.size_ + 1 }
  pure (self, self.begin + position)

/-- The members `Vector::Insert(pos, const T&)` and `Vector::Insert(pos, T&&)`. -/
def Insert [ElemSize α] (tr : Traits α) (self : Vector α) (pos : Nat) (value : α) :
    Except Fault (Vector α × Nat) :=
  Emplace tr self pos value

/-- The member `Vector::Erase(pos)`; the result is the new state and the returned
iterator. -/
def Erase (tr : Traits α) (self : Vector α) (pos : Nat) : Except Fault (Vector α × Nat) := do
  if ¬ (pos ≥ self.begin ∧ pos < self.end_) then throw Fault.assertion
  let position := pos - self.cbegin
  let it := self.begin + position
  let buf ← move tr self.data_.buffer_ (it + 1) self.end_ it
  let self ← PopBack { data_ := { self.data_ with buffer_ := buf }, size_ := self.size_ }
  pure (self, it)

end Vector

/-! ## Invariant and abstraction -/

instance instDecidableEqExcept {ε β : Type} [DecidableEq ε] [DecidableEq β] :
    DecidableEq (Except ε β)
  | Except.ok a, Except.ok b =>
    if h : a = b then isTrue (by rw [h]) else isFalse (fun h2 => h (Except.ok.inj h2))
  | Except.error a, Except.error b =>
    if h : a = b then isTrue (by rw [h]) else isFalse (fun h2 => h (Except.error.inj h2))
  | Except.ok _, Except.error _ => isFalse (fun h => Except.noConfusion h)
  | Except.error _, Except.ok _ => isFalse (fun h => Except.noConfusion h)

/-- The value held by a slot, if it holds an object. -/
def Slot.val? {α : Type} : Slot α → Option α
  | Slot.raw => none
  | Slot.obj x => some x

/-- The slot holds a live object. -/
def Slot.isObj {α : Type} : Slot α → Bool
  | Slot.raw => false
  | Slot.obj _ => true

namespace Vector

variable {α : Type}

/-- The class invariant of `Vector<T>`: the block has `capacity_` slots, `size_` does not
exceed the capacity, slots `[0, size_)` hold live objects, slots `[size_, capacity_)`
are uninitialised, and the block, an object of `capacity_ * sizeof(T)` bytes, has at most
`PTRDIFF_MAX` bytes. -/
def WF [ElemSize α] (v : Vector α) : Prop :=
  v.data_.buffer_.length = v.data_.capacity_ ∧ v.size_ ≤ v.data_.capacity_ ∧
    (v.data_.buffer_.take v.size_).all Slot.isObj = true ∧
    (v.data_.buffer_.drop v.size_).all (fun s => !s.isObj) = true ∧
    v.data_.capacity_ * ElemSize.sizeof α ≤ PTRDIFF_MAX

instance [ElemSize α] (v : Vector α) : Decidable v.WF := by
  unfold WF; infer_instance

/-- The sequence of element values in slots `[0, size_)`. -/
def toList (v : Vector α) : List α :=
  (v.data_.buffer_.take v.size_).filterMap Slot.val?

/-- The vector of capacity `c` whose live elements are `xs`. -/
def canon (xs : List α) (c : Nat) : Vector α :=
  { data_ := { buffer_ := xs.map Slot.obj ++ List.replicate (c - xs.length) Slot.raw,
               capacity_ := c },
    size_ := xs.length }

/-- Calling `PushBack` with each element of `xs` in order. -/
def PushBackAll [ElemSize α] (tr : Traits α) (self : Vector α) (xs : List α) :
    Except Fault (Vector α) :=
  xs.foldlM (PushBack tr) self

end Vector

/-! ## Concrete element types -/

/-- The size of `int`: 4 bytes. -/
instance instElemSizeInt : ElemSize Int :=
  { sizeof := 4, sizeof_pos := by decide, sizeof_le := by decide }

/-- The size of `std::string`: 32 bytes. -/
instance instElemSizeString : ElemSize String :=
  { sizeof := 32, sizeof_pos := by decide, sizeof_le := by decide }

/-- The element type `int`: copyable, its move constructor cannot raise, and a move leaves
the source value as it was. -/
def intTraits : Traits Int :=
  { nothrow_move_constructible := true, copy_constructible := true,
    moved_from := id, value_init := 0 }

/-- An integer-valued element type that is copy constructible and whose move constructor
is not `noexcept`, so that the move-safety test fails and migration copies. -/
def throwingMoveTraits : Traits Int :=
  { nothrow_move_constructible := false, copy_constructible := true,
    moved_from := id, value_init := 0 }

/-- The element type `std::string`: its move constructor cannot raise, and a move leaves
the source empty. -/
def stringTraits : Traits String :=
  { nothrow_move_constructible := true, copy_constructible := true,
    moved_from := fun _ => "", value_init := "" }

/-! ## Writing through `operator[]` -/

/-- The statement `(*this)[index] = value`: assignment to the object behind the reference
that `operator[]` returns. -/
def Vector.write {α : Type} (self : Vector α) (index : Nat) (value : α) :
    Except Fault (Vector α) := do
  let r ← self.index index
  let _ ← load self.data_.buffer_ r
  let buf ← store self.data_.buffer_ r (Slot.obj value)
  pure { data_ := { self.data_ with buffer_ := buf }, size_ := self.size_ }

/-! ## Exceptions

The functions above describe the calls in which no operation raises.  The functions of this
section, named with the suffix `_try`, describe the same members when `operator new`, the
constructor `T(args...)` of a new element or a copy construction of an element raises; the
other element operations (move, assignment, value-initialisation, destruction) do not raise
here.  A call then ends in an `Outcome`: it returns, or an exception leaves it, or it runs
into a `Fault`. -/

/-- Exceptions that can leave a call. -/
inductive Exn where
  /-- The exception `std::bad_alloc` of `operator new`. -/
  | bad_alloc : Exn
  /-- An exception raised by an operation of the element type. -/
  | element : Exn
  deriving DecidableEq, Repr

/-- The operations that raise during a call. -/
structure Raises where
  /-- Calling `operator new` raises `std::bad_alloc`. -/
  alloc : Bool
  /-- The constructor `T(args...)` of the new element raises. -/
  ctor : Bool
  /-- Copy construction from the object in slot `i` of the source block raises. -/
  copy : Nat → Bool

/-- No operation raises. -/
def Raises.never : Raises := { alloc := false, ctor := false, copy := fun _ => false }

/-- Outcome of a call: the value it returns, or the exception that leaves it together with
the state `c` it leaves behind, or a fault. -/
inductive Outcome (γ β : Type) where
  | returned (b : β) : Outcome γ β
  | raised (e : Exn) (c : γ) : Outcome γ β
  | fault (f : Fault) : Outcome γ β

/-- Sequencing: an exception or a fault of the first step ends the call. -/
def Outcome.bind {γ β δ : Type} (x : Outcome γ β) (f : β → Outcome γ δ) : Outcome γ δ :=
  match x with
  | Outcome.returned b => f b
  | Outcome.raised e c => Outcome.raised e c
  | Outcome.fault g => Outcome.fault g

instance instMonadOutcome {γ : Type} : Monad (Outcome γ) where
  pure := Outcome.returned
  bind := Outcome.bind

/-- A step in which nothing raises. -/
def Outcome.lift {γ β : Type} (x : Except Fault β) : Outcome γ β :=
  match x with
  | Except.ok b => Outcome.returned b
  | Except.error f => Outcome.fault f

/-- Stack unwinding: when an exception leaves the step, `h` gives the state that the enclosing
scope leaves behind once its handlers and the destructors of its local objects have run. -/
def Outcome.unwind {γ γ2 β : Type} (x : Outcome γ β) (h : γ → γ2) : Outcome γ2 β :=
  match x with
  | Outcome.returned b => Outcome.returned b
  | Outcome.raised e c => Outcome.raised e (h c)
  | Outcome.fault f => Outcome.fault f

/-- What an exception that leaves a member of `Vector` leaves behind: the state of `*this`,
and the objects that were alive in storage released during unwinding, so that their
destructors never run. -/
structure Unwound (α : Type) where
  self : Vector α
  leaked : List α

/-- The destructor `~RawMemory()`: the storage is released and no destructor of an element is
run; the result lists the objects that were still alive in it. -/
def RawMemory.dtor {α : Type} (self : RawMemory α) : List α :=
  self.buffer_.filterMap Slot.val?

/-- The static member `RawMemory::Allocate(n)` when `operator new` may raise. -/
def RawMemory.Allocate_try {α : Type} [ElemSize α] (r : Raises) (n : Nat) :
    Outcome Unit (List (Slot α)) :=
  if n ≠ 0 then
    if r.alloc then Outcome.raised Exn.bad_alloc ()
    else Outcome.returned
      (List.replicate (size_t_mul n (ElemSize.sizeof α) / ElemSize.sizeof α) Slot.raw)
  else Outcome.returned []

/-- The constructor `RawMemory(size_t capacity)` when `operator new` may raise. -/
def RawMemory.ctor_try {α : Type} [ElemSize α] (r : Raises) (capacity : Nat) :
    Outcome Unit (RawMemory α) := do
  let buffer_ ← RawMemory.Allocate_try r capacity
  pure { buffer_ := buffer_, capacity_ := capacity }

/-- Placement new `new (buf + i) T(args...)` when the constructor may raise; an exception
leaves the block as it was. -/
def construct_at_try {α : Type} (r : Raises) (buf : List (Slot α)) (i : Nat) (x : α) :
    Outcome (List (Slot α)) (List (Slot α)) :=
  if i < buf.length then
    if r.ctor then Outcome.raised Exn.element buf else Outcome.returned (buf.set i (Slot.obj x))
  else Outcome.fault Fault.undefined

/-- The algorithm `std::uninitialized_copy_n(src + first, n, dst + d_first)` when copy
construction may raise: the objects constructed so far, `[d_first, current)`, are destroyed
and the exception is raised again. -/
def uninitialized_copy_n_try {α : Type} (r : Raises) (src : List (Slot α)) (d_first : Nat) :
    Nat → Nat → List (Slot α) → Nat → Outcome (List (Slot α)) (List (Slot α))
  | _, 0, dst, _ => Outcome.returned dst
  | first, n + 1, dst, current =>
    match load src first with
    | Except.error f => Outcome.fault f
    | Except.ok x =>
      if r.copy first then
        match destroy_n dst d_first (current - d_first) with
        | Except.error f => Outcome.fault f
        | Except.ok dst => Outcome.raised Exn.element dst
      else
        match construct_at dst current x with
        | Except.error f => Outcome.fault f
        | Except.ok dst => uninitialized_copy_n_try r src d_first (first + 1) n dst (current + 1)

namespace Vector

variable {α : Type}

/-- The copy constructor `Vector(const Vector& other)` when operations may raise; an
exception leaves no object behind, only what leaked. -/
def ctor_copy_try [ElemSize α] (r : Raises) (other : Vector α) :
    Outcome (List α) (Vector α) := do
  let data_ ← (RawMemory.ctor_try r other.size_).unwind (fun _ => [])
  let size_ := other.size_
  let buf ← (uninitialized_copy_n_try r other.data_.buffer_ data_.GetAddress
      other.data_.GetAddress size_ data_.buffer_ data_.GetAddress).unwind
    (fun b => RawMemory.dtor { data_ with buffer_ := b })
  pure { data_ := { data_ with buffer_ := buf }, size_ := size_ }

/-- The private member `Vector::Assign(rhs)` when operations may raise. -/
def Assign_try (r : Raises) (self rhs : Vector α) : Outcome (Unwound α) (Vector α) := do
  let min_size := min self.size_ rhs.size_
  let buf ← Outcome.lift (copy_n rhs.data_.buffer_ rhs.data_.GetAddress min_size
    self.data_.buffer_ self.data_.GetAddress)
  let buf ←
    if rhs.size_ < self.size_ then
      Outcome.lift (destroy_n buf (self.data_.GetAddress + rhs.size_) (self.size_ - rhs.size_))
    else
      (uninitialized_copy_n_try r rhs.data_.buffer_ (self.data_.GetAddress + self.size_)
        (rhs.data_.GetAddress + self.size_) (rhs.size_ - self.size_) buf
        (self.data_.GetAddress + self.size_)).unwind
        (fun b => { self := { data_ := { self.data_ with buffer_ := b }, size_ := self.size_ },
                    leaked := [] })
  pure { data_ := { self.data_ with buffer_ := buf }, size_ := rhs.size_ }

/-- Copy assignment `*this = rhs` for two distinct objects when operations may raise. -/
def assign_copy_try [ElemSize α] (r : Raises) (self rhs : Vector α) :
    Outcome (Unwound α) (Vector α) :=
  if rhs.size_ > self.data_.Capacity then do
    let rhs_copy ← (ctor_copy_try r rhs).unwind (fun l => { self := self, leaked := l })
    let p := Swap self rhs_copy
    let _ ← Outcome.lift (dtor p.2)
    pure p.1
  else
    Assign_try r self rhs

/-- The member `Vector::Reserve(new_capacity)` when operations may raise. -/
def Reserve_try [ElemSize α] (r : Raises) (tr : Traits α) (self : Vector α) (new_capacity : Nat) :
    Outcome (Unwound α) (Vector α) :=
  if new_capacity ≤ self.data_.Capacity then pure self
  else do
    let new_data ← (RawMemory.ctor_try r new_capacity).unwind
      (fun _ => { self := self, leaked := [] })
    let p ←
      if tr.move_if_safe then
        Outcome.lift (uninitialized_move_n tr self.data_.buffer_ self.data_.GetAddress self.size_
          new_data.buffer_ new_data.GetAddress)
      else do
        let nb ← (uninitialized_copy_n_try r self.data_.buffer_ new_data.GetAddress
            self.data_.GetAddress self.size_ new_data.buffer_ new_data.GetAddress).unwind
          (fun b => { self := self, leaked := RawMemory.dtor { new_data with buffer_ := b } })
        pure (self.data_.buffer_, nb)
    let _ ← Outcome.lift (destroy_n p.1 self.data_.GetAddress self.size_)
    pure { data_ := { buffer_ := p.2, capacity_ := new_data.capacity_ }, size_ := self.size_ }

/-- The member `Vector::Resize(new_size)` when operations may raise. -/
def Resize_try [ElemSize α] (r : Raises) (tr : Traits α) (self : Vector α) (new_size : Nat) :
    Outcome (Unwound α) (Vector α) := do
  if new_size > self.size_ then
    let self ← Reserve_try r tr self new_size
    let buf ← Outcome.lift (uninitialized_value_construct_n tr self.data_.buffer_
      (self.data_.GetAddress + self.size_) (new_size - self.size_))
    pure { data_ := { self.data_ with buffer_ := buf }, size_ := new_size }
  else
    let buf ← Outcome.lift (destroy_n self.data_.buffer_ (self.data_.GetAddress + new_size)
      (self.size_ - new_size))
    pure { data_ := { self.data_ with buffer_ := buf }, size_ := new_size }

/-- The member `Vector::EmplaceBack(args...)` when operations may raise.  The function has no
handler: an exception unwinds through the destructor of `new_data` only. -/
def EmplaceBack_try [ElemSize α] (r : Raises) (tr : Traits α) (self : Vector α) (x : α) :
    Outcome (Unwound α) (Vector α × Nat) := do
  let self ←
    if self.data_.Capacity ≤ self.size_ then do
      let new_data ← (RawMemory.ctor_try r (if self.size_ = 0 then 1 else self.size_ * 2)).unwind
        (fun _ => { self := self, leaked := [] })
      let nb ← (construct_at_try r new_data.buffer_ (new_data.GetAddress + self.size_) x).unwind
        (fun b => { self := self, leaked := RawMemory.dtor { new_data with buffer_ := b } })
      let p ←
        if tr.move_if_safe then
          Outcome.lift (uninitialized_move_n tr self.data_.buffer_ self.data_.GetAddress
            self.size_ nb new_data.GetAddress)
        else do
          let nb ← (uninitialized_copy_n_try r self.data_.buffer_ new_data.GetAddress
              self.data_.GetAddress self.size_ nb new_data.GetAddress).unwind
            (fun b => { self := self, leaked := RawMemory.dtor { new_data with buffer_ := b } })
          pure (self.data_.buffer_, nb)
      let _ ← Outcome.lift (destroy_n p.1 self.data_.GetAddress self.size_)
      pure ({ data_ := { buffer_ := p.2, capacity_ := new_data.capacity_ },
              size_ := self.size_ } : Vector α)
    else do
      let buf ← (construct_at_try r self.data_.buffer_ (self.data_.GetAddress + self.size_)
        x).unwind (fun _ => { self := self, leaked := [] })
      pure ({ data_ := { self.data_ with buffer_ := buf }, size_ := self.size_ } : Vector α)
  let self : Vector α := { self with size_ := self.size_ + 1 }
  let ref ← Outcome.lift (self.data_.index (size_t_sub self.size_ 1))
  pure (self, ref)

/-- The member `Vector::PushBack(value)` when operations may raise. -/
def PushBack_try [ElemSize α] (r : Raises) (tr : Traits α) (self : Vector α) (value : α) :
    Outcome (Unwound α) (Vector α) := do
  let p ← EmplaceBack_try r tr self value
  pure p.1

/-- The member `Vector::Emplace(pos, args...)` when operations may raise. -/
def Emplace_try [ElemSize α] (r : Raises) (tr : Traits α) (self : Vector α) (pos : Nat) (x : α) :
    Outcome (Unwound α) (Vector α × Nat) := do
  if ¬ (pos ≥ self.begin ∧ pos ≤ self.end_) then Outcome.fault Fault.assertion
  let position := pos - self.cbegin
  let self ←
    if self.size_ = self.Capacity then do
      let new_data ← (RawMemory.ctor_try r (if self.size_ = 0 then 1 else self.size_ * 2)).unwind
        (fun _ => { self := self, leaked := [] })
      let nb ← (construct_at_try r new_data.buffer_ (new_data.GetAddress + position) x).unwind
        (fun b => { self := self, leaked := RawMemory.dtor { new_data with buffer_ := b } })
      let p ←
        if tr.move_if_safe then
          Outcome.lift (do
            let p ← uninitialized_move_n tr self.data_.buffer_ self.data_.GetAddress position
              nb new_data.GetAddress
            uninitialized_move_n tr p.1 (self.data_.GetAddress + position)
              (self.size_ - position) p.2 (new_data.GetAddress + position + 1))
        else pure (self.data_.buffer_, nb)
      let _ ← Outcome.lift (destroy_n p.1 self.data_.GetAddress self.size_)
      pure ({ data_ := { buffer_ := p.2, capacity_ := new_data.capacity_ },
              size_ := self.size_ } : Vector α)
    else do
      if r.ctor then Outcome.raised Exn.element { self := self, leaked := [] }
      let value_to_insert := x
      let target := self.end_
      let buf ← Outcome.lift (do
        let last ← self.data_.index (size_t_sub self.size_ 1)
        let buf ← move_construct tr self.data_.buffer_ target last
        let buf ← move_backward tr buf (self.data_.GetAddress + position) (self.end_ - 1)
          self.end_
        let slot ← self.data_.index position
        let _ ← load buf slot
        store buf slot (Slot.obj value_to_insert))
      pure ({ data_ := { self.data_ with buffer_ := buf }, size_ := self.size_ } : Vector α)
  let self : Vector α := { self with size_ := self.size_ + 1 }
  pure (self, self.begin + position)

/-- The members `Vector::Insert(pos, const T&)` and `Vector::Insert(pos, T&&)` when
operations may raise. -/
def Insert_try [ElemSize α] (r : Raises) (tr : Traits α) (self : Vector α) (pos : Nat) (value : α) :
    Outcome (Unwound α) (Vector α × Nat) :=
  Emplace_try r tr self pos value

end Vector

/-! ## Objects in dynamic storage

The functions above pass the state of a `Vector` by value: the contents of its block with
`capacity_` and `size_`.  The functions of this section, named with the suffix `_at`, describe
members on objects that lie in dynamic storage: the blocks are in a `Heap`, and a `Vector`
object holds the address of its block, as `buffer_` does in the source.  Two objects with the
same address share their block. -/

/-- Dynamic storage: the blocks that `operator new` has handed out so far, by address; a block
that `operator delete` has released is `none`. -/
abbrev Heap (α : Type) := List (Option (List (Slot α)))

/-- The block behind the pointer `buf`.  The pointer `nullptr` (`none`) addresses no slot; a
pointer to a released block, or to a block that was never handed out, is dangling. -/
def Heap.block {α : Type} (h : Heap α) (buf : Option Nat) : Except Fault (List (Slot α)) :=
  match buf with
  | none => Except.ok []
  | some a =>
    match h[a]? with
    | some (some b) => Except.ok b
    | _ => Except.error Fault.undefined

/-- The heap once the block behind the pointer `buf` holds the contents `b`. -/
def Heap.put {α : Type} (h : Heap α) (buf : Option Nat) (b : List (Slot α)) : Heap α :=
  match buf with
  | none => h
  | some a => h.set a (some b)

/-- The static member `RawMemory::Allocate(n)` in a heap: `nullptr` for `n = 0`, and otherwise
the address of the block that `operator new` hands out, which no block handed out before
has. -/
def RawMemory.Allocate_at {α : Type} [ElemSize α] (h : Heap α) (n : Nat) :
    Heap α × Option Nat :=
  if n ≠ 0 then (h ++ [some (RawMemory.Allocate n)], some h.length) else (h, none)

/-- The static member `RawMemory::Deallocate(buf)` in a heap: `operator delete(buf)`. -/
def RawMemory.Deallocate_at {α : Type} (h : Heap α) (buf : Option Nat) : Heap α :=
  match buf with
  | none => h
  | some a => h.set a none

/-- The object representation of a `Vector<T>`: the pointer `data_.buffer_` (the address of a
block, `none` for `nullptr`), `data_.capacity_` and `size_`. -/
structure VectorObject where
  buffer_ : Option Nat := none
  capacity_ : Nat := 0
  size_ : Nat := 0
  deriving DecidableEq, Repr

namespace Vector

variable {α : Type}

/-- The state of the object `self` in the heap `h`: the contents of the block behind its
pointer, with its `capacity_` and `size_`. -/
def state_at (h : Heap α) (self : VectorObject) : Except Fault (Vector α) := do
  let b ← Heap.block h self.buffer_
  pure { data_ := { buffer_ := b, capacity_ := self.capacity_ }, size_ := self.size_ }

/-- The copy constructor `Vector(const Vector& other)` in a heap; the result is the heap and
the new object. -/
def ctor_copy_at [ElemSize α] (h : Heap α) (other : VectorObject) :
    Except Fault (Heap α × VectorObject) := do
  let p := RawMemory.Allocate_at h other.size_
  let size_ := other.size_
  let src ← Heap.block p.1 other.buffer_
  let dst ← Heap.block p.1 p.2
  let dst ← uninitialized_copy_n src 0 size_ dst 0
  pure (Heap.put p.1 p.2 dst, { buffer_ := p.2, capacity_ := other.size_, size_ := size_ })

/-- The statement `(*this)[index] = value` in a heap. -/
def write_at (h : Heap α) (self : VectorObject) (index : Nat) (value : α) :
    Except Fault (Heap α) := do
  let r ←
    if index < self.size_ then
      if index < self.capacity_ then Except.ok index else Except.error Fault.assertion
    else Except.error Fault.assertion
  let b ← Heap.block h self.buffer_
  let _ ← load b r
  let b ← store b r (Slot.obj value)
  pure (Heap.put h self.buffer_ b)

/-- The member `Vector::PopBack()` in a heap. -/
def PopBack_at (h : Heap α) (self : VectorObject) : Except Fault (Heap α × VectorObject) :=
  if self.size_ > 0 then do
    let b ← Heap.block h self.buffer_
    let b ← destroy_at b (0 + self.size_ - 1)
    pure (Heap.put h self.buffer_ b, { self with size_ := self.size_ - 1 })
  else pure (h, self)

/-- The member `Vector::EmplaceBack(args...)` in a heap, where `x` is the value `T(args...)`.
On the reallocating path the destructor of `new_data`, which holds the old block after
`data_.Swap(new_data)`, releases that block. -/
def EmplaceBack_at [ElemSize α] (tr : Traits α) (h : Heap α) (self : VectorObject) (x : α) :
    Except Fault (Heap α × VectorObject × Nat) := do
  let p ←
    if self.capacity_ ≤ self.size_ then do
      let new_data := RawMemory.Allocate_at h (if self.size_ = 0 then 1 else self.size_ * 2)
      let nb ← Heap.block new_data.1 new_data.2
      let nb ← construct_at nb (0 + self.size_) x
      let old ← Heap.block new_data.1 self.buffer_
      let q ←
        if tr.move_if_safe then
          uninitialized_move_n tr old 0 self.size_ nb 0
        else do
          let nb ← uninitialized_copy_n old 0 self.size_ nb 0
          pure (old, nb)
      let old ← destroy_n q.1 0 self.size_
      let h := Heap.put (Heap.put new_data.1 self.buffer_ old) new_data.2 q.2
      pure (RawMemory.Deallocate_at h self.buffer_,
        ({ buffer_ := new_data.2, capacity_ := if self.size_ = 0 then 1 else self.size_ * 2,
           size_ := self.size_ } : VectorObject))
    else do
      let b ← Heap.block h self.buffer_
      let b ← construct_at b (0 + self.size_) x
      pure (Heap.put h self.buffer_ b, self)
  let self : VectorObject := { p.2 with size_ := p.2.size_ + 1 }
  let r ←
    if size_t_sub self.size_ 1 < self.capacity_ then Except.ok (size_t_sub self.size_ 1)
    else Except.error Fault.assertion
  pure (p.1, self, r)

/-- The member `Vector::PushBack(value)` in a heap. -/
def PushBack_at [ElemSize α] (tr : Traits α) (h : Heap α) (self : VectorObject) (value : α) :
    Except Fault (Heap α × VectorObject) := do
  let p ← EmplaceBack_at tr h self value
  pure (p.1, p.2.1)

end Vector

/-! # Theorems -/

variable {α : Type}

/-! ## Slot-level lemmas: the effect of each primitive and algorithm on a block -/

theorem load_mid (A B : List (Slot α)) (x : α) (i : Nat) (h : i = A.length) :
    load (A ++ Slot.obj x :: B) i = Except.ok x := by
  subst h
  have e : (A ++ Slot.obj x :: B)[A.length]? = some (Slot.obj x) := by
    rw [List.getElem?_append_right (Nat.le_refl _)]
    simp
  simp only [load, e]

theorem store_mid (A B : List (Slot α)) (s t : Slot α) (i : Nat) (h : i = A.length) :
    store (A ++ s :: B) i t = Except.ok (A ++ t :: B) := by
  subst h
  simp [store]

theorem construct_at_mid (A B : List (Slot α)) (s : Slot α) (x : α) (i : Nat)
    (h : i = A.length) :
    construct_at (A ++ s :: B) i x = Except.ok (A ++ Slot.obj x :: B) :=
  store_mid A B s _ i h

theorem destroy_at_mid (A B : List (Slot α)) (x : α) (i : Nat) (h : i = A.length) :
    destroy_at (A ++ Slot.obj x :: B) i = Except.ok (A ++ Slot.raw :: B) := by
  simp [destroy_at, load_mid A B x i h, store_mid A B _ _ i h, bind, Except.bind]

theorem destroy_n_mid (ys : List α) : ∀ (A B : List (Slot α)) (first n : Nat),
    first = A.length → n = ys.length →
    destroy_n (A ++ ys.map Slot.obj ++ B) first n
      = Except.ok (A ++ List.replicate ys.length Slot.raw ++ B) := by
  induction ys with
  | nil => intro A B first n _ hn; subst hn; simp [destroy_n]
  | cons y ys ih =>
    intro A B first n hf hn
    subst hn
    have h1 : A ++ List.map Slot.obj (y :: ys) ++ B
        = A ++ Slot.obj y :: (ys.map Slot.obj ++ B) := by simp
    rw [h1]
    simp only [List.length_cons, destroy_n, destroy_at_mid A _ y first hf, bind, Except.bind]
    have h2 : A ++ Slot.raw :: (ys.map Slot.obj ++ B)
        = (A ++ [Slot.raw]) ++ ys.map Slot.obj ++ B := by simp
    rw [h2, ih (A ++ [Slot.raw]) B (first + 1) ys.length (by simp [hf]) rfl]
    simp [List.replicate_succ]

theorem uninitialized_value_construct_n_mid (tr : Traits α) (R : List (Slot α)) :
    ∀ (A B : List (Slot α)) (first n : Nat), first = A.length → n = R.length →
    uninitialized_value_construct_n tr (A ++ R ++ B) first n
      = Except.ok (A ++ List.replicate R.length (Slot.obj tr.value_init) ++ B) := by
  induction R with
  | nil => intro A B first n _ hn; subst hn; simp [uninitialized_value_construct_n]
  | cons r R ih =>
    intro A B first n hf hn
    subst hn
    have h1 : A ++ (r :: R) ++ B = A ++ r :: (R ++ B) := by simp
    rw [h1]
    simp only [List.length_cons, uninitialized_value_construct_n,
      construct_at_mid A _ r _ first hf, bind, Except.bind]
    have h2 : A ++ Slot.obj tr.value_init :: (R ++ B)
        = (A ++ [Slot.obj tr.value_init]) ++ R ++ B := by simp
    rw [h2, ih (A ++ [Slot.obj tr.value_init]) B (first + 1) R.length (by simp [hf]) rfl]
    simp [List.replicate_succ]

theorem uninitialized_copy_n_mid (ys : List α) :
    ∀ (A B C D R : List (Slot α)) (first d n : Nat),
    first = A.length → d = C.length → n = ys.length → R.length = ys.length →
    uninitialized_copy_n (A ++ ys.map Slot.obj ++ B) first n (C ++ R ++ D) d
      = Except.ok (C ++ ys.map Slot.obj ++ D) := by
  induction ys with
  | nil =>
    intro A B C D R first d n _ _ hn hR
    subst hn
    have : R = [] := List.eq_nil_of_length_eq_zero hR
    subst this
    simp [uninitialized_copy_n]
  | cons y ys ih =>
    intro A B C D R first d n hf hd hn hR
    subst hn
    match R, hR with
    | r :: R, hR =>
      have h1 : A ++ List.map Slot.obj (y :: ys) ++ B
          = A ++ Slot.obj y :: (ys.map Slot.obj ++ B) := by simp
      have h2 : C ++ (r :: R) ++ D = C ++ r :: (R ++ D) := by simp
      simp only [List.length_cons, uninitialized_copy_n]
      rw [h1, load_mid A _ y first hf, h2]
      simp only [construct_at_mid C _ r y d hd, bind, Except.bind]
      have h3 : A ++ Slot.obj y :: (ys.map Slot.obj ++ B)
          = (A ++ [Slot.obj y]) ++ ys.map Slot.obj ++ B := by simp
      have h4 : C ++ Slot.obj y :: (R ++ D) = (C ++ [Slot.obj y]) ++ R ++ D := by simp
      rw [h3, h4, ih (A ++ [Slot.obj y]) B (C ++ [Slot.obj y]) D R (first + 1) (d + 1)
        ys.length (by simp [hf]) (by simp [hd]) rfl (by simpa using hR)]
      simp

theorem uninitialized_move_n_mid (tr : Traits α) (ys : List α) :
    ∀ (A B C D R : List (Slot α)) (first d n : Nat),
    first = A.length → d = C.length → n = ys.length → R.length = ys.length →
    uninitialized_move_n tr (A ++ ys.map Slot.obj ++ B) first n (C ++ R ++ D) d
      = Except.ok (A ++ (ys.map tr.moved_from).map Slot.obj ++ B,
          C ++ ys.map Slot.obj ++ D) := by
  induction ys with
  | nil =>
    intro A B C D R first d n _ _ hn hR
    subst hn
    have : R = [] := List.eq_nil_of_length_eq_zero hR
    subst this
    simp [uninitialized_move_n]
  | cons y ys ih =>
    intro A B C D R first d n hf hd hn hR
    subst hn
    match R, hR with
    | r :: R, hR =>
      have h1 : A ++ List.map Slot.obj (y :: ys) ++ B
          = A ++ Slot.obj y :: (ys.map Slot.obj ++ B) := by simp
      have h2 : C ++ (r :: R) ++ D = C ++ r :: (R ++ D) := by simp
      simp only [List.length_cons, uninitialized_move_n]
      rw [h1, load_mid A _ y first hf, h2]
      simp only [construct_at_mid C _ r y d hd, store_mid A _ _ _ first hf, bind, Except.bind]
      have h3 : A ++ Slot.obj (tr.moved_from y) :: (ys.map Slot.obj ++ B)
          = (A ++ [Slot.obj (tr.moved_from y)]) ++ ys.map Slot.obj ++ B := by simp
      have h4 : C ++ Slot.obj y :: (R ++ D) = (C ++ [Slot.obj y]) ++ R ++ D := by simp
      rw [h3, h4, ih (A ++ [Slot.obj (tr.moved_from y)]) B (C ++ [Slot.obj y]) D R (first + 1)
        (d + 1) ys.length (by simp [hf]) (by simp [hd]) rfl (by simpa using hR)]
      simp

theorem copy_n_mid (ys : List α) :
    ∀ (A B C D : List (Slot α)) (zs : List α) (first d n : Nat),
    first = A.length → d = C.length → n = ys.length → zs.length = ys.length →
    copy_n (A ++ ys.map Slot.obj ++ B) first n (C ++ zs.map Slot.obj ++ D) d
      = Except.ok (C ++ ys.map Slot.obj ++ D) := by
  induction ys with
  | nil =>
    intro A B C D zs first d n _ _ hn hR
    subst hn
    have : zs = [] := List.eq_nil_of_length_eq_zero hR
    subst this
    simp [copy_n]
  | cons y ys ih =>
    intro A B C D zs first d n hf hd hn hR
    subst hn
    match zs, hR with
    | z :: zs, hR =>
      have h1 : A ++ List.map Slot.obj (y :: ys) ++ B
          = A ++ Slot.obj y :: (ys.map Slot.obj ++ B) := by simp
      have h2 : C ++ List.map Slot.obj (z :: zs) ++ D
          = C ++ Slot.obj z :: (zs.map Slot.obj ++ D) := by simp
      simp only [List.length_cons, copy_n]
      rw [h1, load_mid A _ y first hf, h2]
      simp only [load_mid C _ z d hd, store_mid C _ _ _ d hd, bind, Except.bind]
      have h3 : A ++ Slot.obj y :: (ys.map Slot.obj ++ B)
          = (A ++ [Slot.obj y]) ++ ys.map Slot.obj ++ B := by simp
      have h4 : C ++ Slot.obj y :: (zs.map Slot.obj ++ D)
          = (C ++ [Slot.obj y]) ++ zs.map Slot.obj ++ D := by simp
      rw [h3, h4, ih (A ++ [Slot.obj y]) B (C ++ [Slot.obj y]) D zs (first + 1) (d + 1)
        ys.length (by simp [hf]) (by simp [hd]) rfl (by simpa using hR)]
      simp

theorem move_assign_prev (tr : Traits α) (A B : List (Slot α)) (t y : α) (d s : Nat)
    (hd : d = A.length) (hs : s = A.length + 1) :
    move_assign tr (A ++ Slot.obj t :: Slot.obj y :: B) d s
      = Except.ok (A ++ Slot.obj y :: Slot.obj (tr.moved_from y) :: B) := by
  have e1 : A ++ Slot.obj t :: Slot.obj y :: B = (A ++ [Slot.obj t]) ++ Slot.obj y :: B := by
    simp
  have e2 : A ++ Slot.obj y :: Slot.obj y :: B = (A ++ [Slot.obj y]) ++ Slot.obj y :: B := by
    simp
  simp only [move_assign, bind, Except.bind]
  rw [e1, load_mid (A ++ [Slot.obj t]) B y s (by simp [hs]), ← e1, load_mid A _ t d hd]
  simp only [store_mid A _ _ (Slot.obj y) d hd]
  rw [e2, store_mid (A ++ [Slot.obj y]) B _ _ s (by simp [hs])]
  simp

theorem move_assign_next (tr : Traits α) (A B : List (Slot α)) (t y : α) (d s : Nat)
    (hs : s = A.length) (hd : d = A.length + 1) :
    move_assign tr (A ++ Slot.obj y :: Slot.obj t :: B) d s
      = Except.ok (A ++ Slot.obj (tr.moved_from y) :: Slot.obj y :: B) := by
  have e1 : A ++ Slot.obj y :: Slot.obj t :: B = (A ++ [Slot.obj y]) ++ Slot.obj t :: B := by
    simp
  have e2 : (A ++ [Slot.obj y]) ++ Slot.obj y :: B = A ++ Slot.obj y :: Slot.obj y :: B := by
    simp
  simp only [move_assign, bind, Except.bind]
  rw [load_mid A _ y s hs, e1, load_mid (A ++ [Slot.obj y]) B t d (by simp [hd])]
  simp only [store_mid (A ++ [Slot.obj y]) B _ (Slot.obj y) d (by simp [hd])]
  rw [e2, store_mid A _ _ _ s hs]

theorem move_construct_next (tr : Traits α) (A B : List (Slot α)) (r : Slot α) (y : α)
    (d s : Nat) (hs : s = A.length) (hd : d = A.length + 1) :
    move_construct tr (A ++ Slot.obj y :: r :: B) d s
      = Except.ok (A ++ Slot.obj (tr.moved_from y) :: Slot.obj y :: B) := by
  have e1 : A ++ Slot.obj y :: r :: B = (A ++ [Slot.obj y]) ++ r :: B := by simp
  have e2 : (A ++ [Slot.obj y]) ++ Slot.obj y :: B = A ++ Slot.obj y :: Slot.obj y :: B := by
    simp
  simp only [move_construct, bind, Except.bind]
  rw [load_mid A _ y s hs, e1]
  simp only [store_mid (A ++ [Slot.obj y]) B _ (Slot.obj y) d (by simp [hd])]
  rw [e2, store_mid A _ _ _ s hs]

theorem move_loop_mid (tr : Traits α) (ys : List α) :
    ∀ (A B : List (Slot α)) (t : α) (first n d : Nat),
    d = A.length → first = A.length + 1 → n = ys.length →
    ∃ t2, move_loop tr (A ++ Slot.obj t :: (ys.map Slot.obj ++ B)) first n d
      = Except.ok (A ++ ys.map Slot.obj ++ Slot.obj t2 :: B) := by
  induction ys with
  | nil =>
    intro A B t first n d _ _ hn
    subst hn
    exact ⟨t, by simp [move_loop]⟩
  | cons y ys ih =>
    intro A B t first n d hd hf hn
    subst hn
    obtain ⟨t2, h⟩ := ih (A ++ [Slot.obj y]) B (tr.moved_from y) (first + 1) ys.length (d + 1)
      (by simp [hd]) (by simp [hf]) rfl
    refine ⟨t2, ?_⟩
    simp only [List.length_cons, move_loop, List.map_cons, List.cons_append, bind, Except.bind]
    rw [move_assign_prev tr A _ t y d first hd hf]
    simp only [List.append_assoc, List.singleton_append, List.cons_append] at h ⊢
    exact h

theorem move_backward_loop_mid (tr : Traits α) (ys : List α) :
    ∀ (A B : List (Slot α)) (t : α) (n last d_last : Nat),
    n = ys.length → last = A.length + ys.length → d_last = A.length + ys.length + 1 →
    ∃ t2, move_backward_loop tr (A ++ ys.map Slot.obj ++ Slot.obj t :: B) n last d_last
      = Except.ok (A ++ Slot.obj t2 :: (ys.map Slot.obj ++ B)) := by
  induction ys using List.reverseRecOn with
  | nil =>
    intro A B t n last d_last hn _ _
    subst hn
    exact ⟨t, by simp [move_backward_loop]⟩
  | append_singleton ys y ih =>
    intro A B t n last d_last hn hl hd
    subst hn
    obtain ⟨t2, h⟩ := ih A (Slot.obj y :: B) (tr.moved_from y) ys.length (last - 1)
      (d_last - 1) rfl (by simp [hl]) (by simp [hd]; omega)
    refine ⟨t2, ?_⟩
    have hl0 : ¬ (last = 0 ∨ d_last = 0) := by
      simp only [List.length_append, List.length_singleton] at hl hd
      omega
    simp only [List.length_append, List.length_singleton, move_backward_loop, hl0, if_false,
      bind, Except.bind]
    have e1 : A ++ List.map Slot.obj (ys ++ [y]) ++ Slot.obj t :: B
        = (A ++ ys.map Slot.obj) ++ Slot.obj y :: Slot.obj t :: B := by simp
    rw [e1, move_assign_next tr (A ++ ys.map Slot.obj) B t y (d_last - 1) (last - 1)
      (by simp [hl]) (by simp [hd]; omega)]
    simp only [h]
    simp

theorem map_obj_filterMap_val (l : List (Slot α)) (h : l.all Slot.isObj = true) :
    (l.filterMap Slot.val?).map Slot.obj = l := by
  induction l with
  | nil => rfl
  | cons s l ih =>
    cases s with
    | raw => simp [Slot.isObj] at h
    | obj x =>
      simp only [List.all_cons, Slot.isObj, Bool.true_and] at h
      simp [Slot.val?, ih h]

theorem eq_replicate_raw (l : List (Slot α)) (h : l.all (fun s => !s.isObj) = true) :
    l = List.replicate l.length Slot.raw := by
  induction l with
  | nil => rfl
  | cons s l ih =>
    cases s with
    | obj x => simp [Slot.isObj] at h
    | raw =>
      simp only [List.all_cons, Slot.isObj, Bool.not_false, Bool.true_and] at h
      simp only [List.length_cons, List.replicate_succ]
      rw [← ih h]

theorem filterMap_val_map_obj (xs : List α) :
    (xs.map Slot.obj).filterMap Slot.val? = xs := by
  induction xs with
  | nil => rfl
  | cons x xs ih => simp [Slot.val?, ih]

/-! ## Arithmetic of `size_t` -/

theorem SIZE_MAX_eq : SIZE_MAX = 18446744073709551615 := by decide

theorem PTRDIFF_MAX_eq : PTRDIFF_MAX = 9223372036854775807 := by decide

theorem size_t_mul_eq (a b : Nat) (h : a * b ≤ SIZE_MAX) : size_t_mul a b = a * b := by
  unfold size_t_mul
  exact Nat.mod_eq_of_lt (by omega)

/-- A request for one slot does not wrap. -/
theorem one_fits [ElemSize α] : 1 * ElemSize.sizeof α ≤ SIZE_MAX := by
  have h := ElemSize.sizeof_le (α := α)
  have e1 := SIZE_MAX_eq
  have e2 := PTRDIFF_MAX_eq
  omega

/-- A request for `n` slots does not wrap when a block of `n` slots is an object. -/
theorem fits_of_le [ElemSize α] (n : Nat) (h : n * ElemSize.sizeof α ≤ PTRDIFF_MAX) :
    n * ElemSize.sizeof α ≤ SIZE_MAX := by
  have e1 := SIZE_MAX_eq
  have e2 := PTRDIFF_MAX_eq
  omega

/-- The request of the doubling policy does not wrap when the block of `n` slots it starts
from is an object. -/
theorem grow_fits [ElemSize α] (n : Nat) (h : n * ElemSize.sizeof α ≤ PTRDIFF_MAX) :
    (if n = 0 then 1 else n * 2) * ElemSize.sizeof α ≤ SIZE_MAX := by
  have e1 := SIZE_MAX_eq
  have e2 := PTRDIFF_MAX_eq
  split
  · exact one_fits
  · rw [Nat.mul_comm n 2, Nat.mul_assoc]
    omega

/-- Fewer slots need fewer bytes. -/
theorem fits_mono [ElemSize α] {m n b : Nat} (hmn : m ≤ n) (h : n * ElemSize.sizeof α ≤ b) :
    m * ElemSize.sizeof α ≤ b :=
  Nat.le_trans (Nat.mul_le_mul_right _ hmn) h

namespace Vector

theorem toList_canon (xs : List α) (c : Nat) : (canon xs c).toList = xs := by
  have e : (xs.map Slot.obj ++ List.replicate (c - xs.length) Slot.raw).take xs.length
      = xs.map Slot.obj := List.take_left' (by simp)
  simp only [toList, canon, e, filterMap_val_map_obj]

theorem Size_canon (xs : List α) (c : Nat) : (canon xs c).Size = xs.length := rfl

theorem Capacity_canon (xs : List α) (c : Nat) : (canon xs c).Capacity = c := rfl

theorem WF_canon [ElemSize α] (xs : List α) (c : Nat) (h : xs.length ≤ c)
    (hfit : c * ElemSize.sizeof α ≤ PTRDIFF_MAX) : (canon xs c).WF := by
  refine ⟨?_, h, ?_, ?_, hfit⟩
  · simp [canon]; omega
  · simp [canon, Slot.isObj]
  · simp [canon, Slot.isObj]

theorem length_toList [ElemSize α] (v : Vector α) (h : v.WF) : v.toList.length = v.Size := by
  obtain ⟨h1, h2, h3, _⟩ := h
  have e := congrArg List.length (map_obj_filterMap_val _ h3)
  simp only [List.length_map, List.length_take] at e
  simp only [toList, Size, e]
  omega

theorem eq_canon [ElemSize α] (v : Vector α) (h : v.WF) : v = canon v.toList v.Capacity := by
  have hl := length_toList v h
  obtain ⟨h1, h2, h3, h4, _⟩ := h
  obtain ⟨⟨buf, cap⟩, sz⟩ := v
  simp only [toList, Size, Capacity, RawMemory.Capacity, canon] at *
  have e1 := map_obj_filterMap_val _ h3
  have e2 := eq_replicate_raw _ h4
  simp only [List.length_drop] at e2
  rw [hl, e1]
  subst h1
  rw [← e2, List.take_append_drop]

/-- The block of a `Vector` that satisfies the class invariant is an object. -/
theorem fits_of_WF [ElemSize α] (v : Vector α) (h : v.WF) :
    v.Capacity * ElemSize.sizeof α ≤ PTRDIFF_MAX := h.2.2.2.2

end Vector

/-- When `n * sizeof(T)` does not wrap, `Allocate(n)` is a block of `n` slots. -/
theorem Allocate_eq [ElemSize α] (n : Nat) (h : n * ElemSize.sizeof α ≤ SIZE_MAX) :
    (RawMemory.Allocate n : List (Slot α)) = List.replicate n Slot.raw := by
  unfold RawMemory.Allocate
  split
  · rw [size_t_mul_eq n _ h, Nat.mul_div_cancel _ ElemSize.sizeof_pos]
  · have : n = 0 := by omega
    subst this; rfl

theorem Allocate_split [ElemSize α] (n k m : Nat) (h : n = k + 1 + m)
    (hfit : n * ElemSize.sizeof α ≤ SIZE_MAX) :
    (RawMemory.Allocate n : List (Slot α))
      = List.replicate k Slot.raw ++ Slot.raw :: List.replicate m Slot.raw := by
  subst h
  rw [Allocate_eq _ hfit, Nat.add_assoc, List.replicate_add, Nat.add_comm 1 m,
    List.replicate_succ]

theorem size_t_sub_succ (n : Nat) : size_t_sub (n + 1) 1 = n := by
  simp [size_t_sub]

namespace Vector

theorem EmplaceBack_canon_full [ElemSize α] (tr : Traits α) (xs : List α) (x : α)
    (hfit : (if xs.length = 0 then 1 else xs.length * 2) * ElemSize.sizeof α ≤ SIZE_MAX) :
    EmplaceBack tr (canon xs xs.length) x
      = Except.ok (canon (xs ++ [x]) (if xs.length = 0 then 1 else xs.length * 2),
          xs.length) := by
  obtain ⟨m, hm⟩ : ∃ m, (if xs.length = 0 then 1 else xs.length * 2) = xs.length + 1 + m := by
    refine ⟨(if xs.length = 0 then 1 else xs.length * 2) - xs.length - 1, ?_⟩
    split <;> omega
  have hsrc : (canon xs xs.length).data_.buffer_ = [] ++ xs.map Slot.obj ++ [] := by
    simp [canon]
  have hdst : xs.length = (List.replicate xs.length (Slot.raw : Slot α)).length := by simp
  have hmv := uninitialized_move_n_mid tr xs [] [] [] (Slot.obj x :: List.replicate m Slot.raw)
    (List.replicate xs.length Slot.raw) 0 0 xs.length rfl rfl rfl (by simp)
  have hcp := uninitialized_copy_n_mid xs [] [] [] (Slot.obj x :: List.replicate m Slot.raw)
    (List.replicate xs.length Slot.raw) 0 0 xs.length rfl rfl rfl (by simp)
  have hd1 := destroy_n_mid (xs.map tr.moved_from) [] [] 0 xs.length rfl (by simp)
  have hd2 := destroy_n_mid xs [] [] 0 xs.length rfl rfl
  simp only [List.nil_append, List.append_nil] at hmv hcp hd1 hd2 hsrc
  rw [hm] at hfit ⊢
  simp only [EmplaceBack, RawMemory.Capacity, RawMemory.GetAddress, RawMemory.ctor,
    Nat.zero_add, hsrc]
  simp only [canon, Nat.le_refl, if_true, bind, Except.bind]
  rw [hm]
  simp only [Allocate_split _ xs.length m rfl hfit, construct_at_mid _ _ _ x xs.length hdst]
  have hlt : xs.length < xs.length + 1 + m := by omega
  cases tr.move_if_safe
  · simp only [hcp, hd2, Bool.false_eq_true, if_false, RawMemory.index, size_t_sub_succ, pure,
      Except.pure, bind, Except.bind, hlt, if_true]
    simp
  · simp only [hmv, hd1, if_true, RawMemory.index, size_t_sub_succ, pure,
      Except.pure, hlt]
    simp

theorem EmplaceBack_canon_spare [ElemSize α] (tr : Traits α) (xs : List α) (c : Nat) (x : α)
    (h : xs.length < c) :
    EmplaceBack tr (canon xs c) x = Except.ok (canon (xs ++ [x]) c, xs.length) := by
  obtain ⟨m, hm⟩ : ∃ m, c = xs.length + 1 + m := ⟨c - xs.length - 1, by omega⟩
  subst hm
  have hb : (canon xs (xs.length + 1 + m)).data_.buffer_
      = xs.map Slot.obj ++ Slot.raw :: List.replicate m Slot.raw := by
    simp [canon, Nat.add_assoc, Nat.add_comm 1 m, List.replicate_succ]
  have hlen : xs.length = (xs.map Slot.obj).length := by simp
  have hlt : xs.length < xs.length + 1 + m := by omega
  have hnle : ¬ (xs.length + 1 + m ≤ xs.length) := by omega
  simp only [EmplaceBack, RawMemory.Capacity, RawMemory.GetAddress, Nat.zero_add, hb]
  simp only [canon, hnle, if_false, construct_at_mid _ _ _ x xs.length hlen, bind, Except.bind,
    RawMemory.index, size_t_sub_succ, pure, Except.pure, hlt, if_true]
  simp

theorem EmplaceBack_canon [ElemSize α] (tr : Traits α) (xs : List α) (c : Nat) (x : α)
    (h : xs.length ≤ c)
    (hfit : (if xs.length = 0 then 1 else xs.length * 2) * ElemSize.sizeof α ≤ SIZE_MAX) :
    EmplaceBack tr (canon xs c) x
      = Except.ok (canon (xs ++ [x])
          (if c ≤ xs.length then (if xs.length = 0 then 1 else xs.length * 2) else c),
          xs.length) := by
  by_cases hc : c ≤ xs.length
  · have : c = xs.length := by omega
    subst this
    simp only [Nat.le_refl, if_true]
    exact EmplaceBack_canon_full tr xs x hfit
  · simp only [hc, if_false]
    exact EmplaceBack_canon_spare tr xs c x (by omega)

theorem PushBack_canon [ElemSize α] (tr : Traits α) (xs : List α) (c : Nat) (x : α)
    (h : xs.length ≤ c)
    (hfit : (if xs.length = 0 then 1 else xs.length * 2) * ElemSize.sizeof α ≤ SIZE_MAX) :
    PushBack tr (canon xs c) x
      = Except.ok (canon (xs ++ [x])
          (if c ≤ xs.length then (if xs.length = 0 then 1 else xs.length * 2) else c)) := by
  simp only [PushBack, EmplaceBack_canon tr xs c x h hfit, bind, Except.bind, pure, Except.pure]

theorem get_canon (xs : List α) (c i : Nat) (hi : i < xs.length) (hc : xs.length ≤ c) :
    (canon xs c).get i = Except.ok (xs.get ⟨i, hi⟩) := by
  have hic : i < c := by omega
  have e : (xs.map Slot.obj ++ List.replicate (c - xs.length) Slot.raw)[i]?
      = some (Slot.obj (xs.get ⟨i, hi⟩)) := by
    rw [List.getElem?_append_left (by simpa using hi)]
    simp [List.getElem?_eq_getElem hi]
  simp only [get, index, RawMemory.index, canon, hi, hic, if_true, bind, Except.bind, load, e]

theorem PushBackAll_snoc [ElemSize α] (tr : Traits α) (v : Vector α) (xs : List α) (x : α) :
    PushBackAll tr v (xs ++ [x]) = (PushBackAll tr v xs).bind (fun w => PushBack tr w x) := by
  simp only [PushBackAll, List.foldlM_append, List.foldlM, bind]
  congr 1
  funext w
  cases PushBack tr w x <;> rfl

theorem PushBackAll_schedule [ElemSize α] (tr : Traits α) (xs : List α)
    (hfit : 2 * xs.length * ElemSize.sizeof α ≤ PTRDIFF_MAX) :
    ∃ c, PushBackAll tr ctor_default xs = Except.ok (canon xs c) ∧ xs.length ≤ c ∧
      (xs = [] → c = 0) ∧
      (xs ≠ [] → ∃ k, c = 2 ^ k ∧ (k = 0 ∨ 2 ^ (k - 1) < xs.length)) ∧
      c * ElemSize.sizeof α ≤ PTRDIFF_MAX := by
  induction xs using List.reverseRecOn with
  | nil =>
    exact ⟨0, rfl, Nat.le_refl _, fun _ => rfl, fun h => absurd rfl h,
      by rw [Nat.zero_mul]; exact Nat.zero_le _⟩
  | append_singleton xs x ih =>
    simp only [List.length_append, List.length_singleton] at hfit
    have hgrow : (if xs.length = 0 then 1 else xs.length * 2) * ElemSize.sizeof α
        ≤ PTRDIFF_MAX :=
      fits_mono (by split <;> omega) hfit
    obtain ⟨c, h1, h2, h3, h4, h5⟩ := ih (fits_mono (by omega) hfit)
    refine ⟨if c ≤ xs.length then (if xs.length = 0 then 1 else xs.length * 2) else c, ?_, ?_,
      ?_, ?_, ?_⟩
    · rw [PushBackAll_snoc, h1]
      exact PushBack_canon tr xs c x h2 (fits_of_le _ hgrow)
    · simp only [List.length_append, List.length_singleton]
      split
      · split <;> omega
      · omega
    · intro h
      simp at h
    · intro _
      by_cases hx : xs = []
      · subst hx
        have := h3 rfl
        subst this
        exact ⟨0, by simp, Or.inl rfl⟩
      · obtain ⟨k, hk, hk2⟩ := h4 hx
        have hpos : 0 < xs.length := List.length_pos.mpr hx
        by_cases hc : c ≤ xs.length
        · refine ⟨k + 1, ?_, Or.inr ?_⟩
          · have hl : xs.length = 2 ^ k := by omega
            have hne : xs.length ≠ 0 := by omega
            rw [if_pos hc, if_neg hne, hl, pow_succ]
          · simp only [Nat.add_sub_cancel, List.length_append, List.length_singleton]
            omega
        · refine ⟨k, by rw [if_neg hc, hk], ?_⟩
          rcases hk2 with hk2 | hk2
          · exact Or.inl hk2
          · right
            simp only [List.length_append, List.length_singleton]
            omega
    · split
      · exact hgrow
      · exact h5

theorem Reserve_noop [ElemSize α] (tr : Traits α) (v : Vector α) (k : Nat) (hk : k ≤ v.Capacity) :
    Reserve tr v k = Except.ok v := by
  simp only [Capacity] at hk
  simp only [Reserve, hk, if_true, pure, Except.pure]

theorem Reserve_canon_grow [ElemSize α]
    (tr : Traits α) (xs : List α) (c k : Nat) (h : xs.length ≤ c)
    (hk : c < k) (hfit : k * ElemSize.sizeof α ≤ SIZE_MAX) :
    Reserve tr (canon xs c) k = Except.ok (canon xs k) := by
  have hnle : ¬ (k ≤ c) := by omega
  have hal : (RawMemory.Allocate k : List (Slot α))
      = List.replicate xs.length Slot.raw ++ List.replicate (k - xs.length) Slot.raw := by
    rw [Allocate_eq _ hfit, ← List.replicate_add]
    congr 1
    omega
  have hmv := uninitialized_move_n_mid tr xs [] (List.replicate (c - xs.length) Slot.raw) []
    (List.replicate (k - xs.length) Slot.raw) (List.replicate xs.length Slot.raw) 0 0 xs.length
    rfl rfl rfl (by simp)
  have hcp := uninitialized_copy_n_mid xs [] (List.replicate (c - xs.length) Slot.raw) []
    (List.replicate (k - xs.length) Slot.raw) (List.replicate xs.length Slot.raw) 0 0 xs.length
    rfl rfl rfl (by simp)
  have hd1 := destroy_n_mid (xs.map tr.moved_from) []
    (List.replicate (c - xs.length) Slot.raw) 0 xs.length rfl (by simp)
  have hd2 := destroy_n_mid xs [] (List.replicate (c - xs.length) Slot.raw) 0 xs.length rfl rfl
  simp only [List.nil_append] at hmv hcp hd1 hd2
  simp only [Reserve, canon, RawMemory.Capacity, RawMemory.GetAddress, RawMemory.ctor, hnle,
    if_false, hal, bind, Except.bind]
  cases tr.move_if_safe
  · simp only [hcp, hd2, Bool.false_eq_true, if_false, pure, Except.pure]
  · simp only [hmv, hd1, if_true, pure, Except.pure]

theorem get_canon_eq (xs : List α) (c k i : Nat) (hc : xs.length ≤ c) (hk : xs.length ≤ k) :
    (canon xs k).get i = (canon xs c).get i := by
  by_cases hi : i < xs.length
  · rw [get_canon xs k i hi hk, get_canon xs c i hi hc]
  · simp only [get, index, canon, hi, if_false, bind, Except.bind]

theorem PopBack_canon (xs : List α) (t : α) (c : Nat) (h : (xs ++ [t]).length ≤ c) :
    PopBack (canon (xs ++ [t]) c) = Except.ok (canon xs c) := by
  have hpos : (xs ++ [t]).length > 0 := by simp
  have hb : (canon (xs ++ [t]) c).data_.buffer_
      = xs.map Slot.obj ++ Slot.obj t :: List.replicate (c - (xs ++ [t]).length) Slot.raw := by
    simp [canon]
  have hidx : 0 + (xs ++ [t]).length - 1 = (xs.map Slot.obj).length := by simp
  simp only [List.length_append, List.length_singleton] at h
  have hr : Slot.raw :: List.replicate (c - (xs ++ [t]).length) (Slot.raw : Slot α)
      = List.replicate (c - xs.length) Slot.raw := by
    rw [← List.replicate_succ]
    congr 1
    simp only [List.length_append, List.length_singleton]
    omega
  simp only [PopBack, RawMemory.GetAddress, hb]
  simp only [canon, hpos, if_true, destroy_at_mid _ _ t _ hidx, bind, Except.bind, pure,
    Except.pure, hr]
  simp

theorem Erase_canon (tr : Traits α) (A ys : List α) (t : α) (c : Nat)
    (h : (A ++ t :: ys).length ≤ c) :
    Erase tr (canon (A ++ t :: ys) c) A.length
      = Except.ok (canon (A ++ ys) c, A.length) := by
  simp only [List.length_append, List.length_cons] at h
  have hassert : A.length < A.length + (ys.length + 1) := by omega
  have hrange : ¬ (A.length + (ys.length + 1) < A.length + 1) := by omega
  have hn : A.length + (ys.length + 1) - (A.length + 1) = ys.length := by omega
  obtain ⟨t2, hmv⟩ := move_loop_mid tr ys (A.map Slot.obj)
    (List.replicate (c - (A.length + (ys.length + 1))) Slot.raw) t (A.length + 1) ys.length
    A.length (by simp) (by simp) rfl
  have hpop := PopBack_canon (A ++ ys) t2 c (by
    simp only [List.length_append, List.length_cons, List.length_singleton, List.length_nil]
    omega)
  have hpb : (Vector.mk (RawMemory.mk (A.map Slot.obj ++ ys.map Slot.obj ++ Slot.obj t2 ::
      List.replicate (c - (A.length + (ys.length + 1))) Slot.raw) c) (A.length + (ys.length + 1))
        : Vector α)
      = canon (A ++ ys ++ [t2]) c := by
    simp [canon, Nat.add_assoc]
  simp only [Erase, begin, end_, cbegin, RawMemory.GetAddress, move, canon, Nat.zero_add,
    Nat.sub_zero, List.length_append, List.length_cons, List.map_append, List.map_cons,
    List.append_assoc, List.cons_append, ge_iff_le, Nat.zero_le, true_and, hassert,
    not_true_eq_false, if_false, hrange, hn, bind, Except.bind, pure, Except.pure]
  rw [hmv]
  simp only [hpb, hpop]
  simp [canon]

theorem Emplace_canon_spare [ElemSize α] (tr : Traits α) (A M : List α) (z x : α) (m : Nat) :
    Emplace tr (canon (A ++ M ++ [z]) (A.length + M.length + 2 + m)) A.length x
      = Except.ok (canon (A ++ x :: M ++ [z]) (A.length + M.length + 2 + m), A.length) := by
  have hassert : A.length ≤ A.length + (M.length + 1) := by omega
  have hfull : ¬ (A.length + (M.length + 1) = A.length + M.length + 2 + m) := by omega
  have hsub : size_t_sub (A.length + (M.length + 1)) 1 = A.length + M.length := by
    simp only [size_t_sub]
    split <;> omega
  have hidx : A.length + M.length < A.length + M.length + 2 + m := by omega
  have hidx2 : A.length < A.length + M.length + 2 + m := by omega
  have hrep : A.length + M.length + 2 + m - (A.length + (M.length + 1)) = m + 1 := by omega
  have hmc := move_construct_next tr (A.map Slot.obj ++ M.map Slot.obj)
    (List.replicate m Slot.raw) Slot.raw z (A.length + (M.length + 1)) (A.length + M.length)
    (by simp) (by simp; omega)
  obtain ⟨t2, hmb⟩ := move_backward_loop_mid tr M (A.map Slot.obj)
    (Slot.obj z :: List.replicate m Slot.raw) (tr.moved_from z) M.length
    (A.length + M.length) (A.length + (M.length + 1)) rfl (by simp) (by simp; omega)
  have hrange : ¬ (A.length + (M.length + 1) - 1 < A.length) := by omega
  have hn : A.length + (M.length + 1) - 1 - A.length = M.length := by omega
  have hl1 : A.length + (M.length + 1) - 1 = A.length + M.length := by omega
  simp only [Emplace, begin, end_, cbegin, Capacity, RawMemory.Capacity, RawMemory.GetAddress,
    move_backward, RawMemory.index, canon, Nat.zero_add,
    Nat.sub_zero, List.length_append, List.length_cons, List.length_nil, List.map_append,
    List.map_cons, List.map_nil,
    List.append_assoc, List.cons_append, List.nil_append, ge_iff_le, Nat.zero_le, true_and,
    hassert, not_true_eq_false, if_false, if_true, hfull, hsub, hidx, hidx2, hrep, hrange, hn,
    hl1, List.replicate_succ, bind, Except.bind, pure, Except.pure]
  simp only [List.append_assoc] at hmc hmb
  have hrange2 : ¬ (A.length + M.length < A.length) := by omega
  have hn2 : A.length + M.length - A.length = M.length := by omega
  have hrep2 : A.length + M.length + 2 + m - (A.length + (M.length + 1 + 1)) = m := by omega
  have hlen : A.length = (A.map Slot.obj).length := by simp
  rw [hmc]
  simp only [hrange2, if_false, hn2, hmb, load_mid _ _ t2 A.length hlen,
    store_mid _ _ _ (Slot.obj x) A.length hlen, hrep2]
  rw [Nat.add_assoc A.length (M.length + 1) 1]

theorem Emplace_canon_full_move [ElemSize α] (tr : Traits α) (A B : List α) (x : α)
    (hpol : tr.move_if_safe = true)
    (hfit : (if (A ++ B).length = 0 then 1 else (A ++ B).length * 2) * ElemSize.sizeof α
      ≤ SIZE_MAX) :
    Emplace tr (canon (A ++ B) (A ++ B).length) A.length x
      = Except.ok (canon (A ++ x :: B)
          (if (A ++ B).length = 0 then 1 else (A ++ B).length * 2), A.length) := by
  obtain ⟨m, hm⟩ : ∃ m, (if (A ++ B).length = 0 then 1 else (A ++ B).length * 2)
      = A.length + 1 + (B.length + m) := by
    refine ⟨(if (A ++ B).length = 0 then 1 else (A ++ B).length * 2) - (A ++ B).length - 1, ?_⟩
    simp only [List.length_append]
    split <;> omega
  rw [hm] at hfit ⊢
  simp only [List.length_append] at hm
  have hassert : A.length ≤ A.length + B.length := by omega
  have hcons := construct_at_mid (List.replicate A.length Slot.raw)
    (List.replicate (B.length + m) Slot.raw) Slot.raw x A.length (by simp)
  have hmv1 := uninitialized_move_n_mid tr A [] (B.map Slot.obj) []
    (Slot.obj x :: List.replicate (B.length + m) Slot.raw) (List.replicate A.length Slot.raw)
    0 0 A.length rfl rfl rfl (by simp)
  have hmv2 := uninitialized_move_n_mid tr B ((A.map tr.moved_from).map Slot.obj) []
    (A.map Slot.obj ++ [Slot.obj x]) (List.replicate m Slot.raw)
    (List.replicate B.length Slot.raw) A.length (A.length + 1) B.length (by simp) (by simp) rfl
    (by simp)
  have hd := destroy_n_mid (A.map tr.moved_from ++ B.map tr.moved_from) [] [] 0
    (A.length + B.length) rfl (by simp)
  have hsz : A.length + B.length - A.length = B.length := by omega
  simp only [List.nil_append, List.append_nil, List.map_append, List.append_assoc,
    List.singleton_append, List.cons_append, ← List.replicate_add] at hmv1 hmv2 hd
  simp only [Emplace, begin, end_, cbegin, Capacity, RawMemory.Capacity, RawMemory.GetAddress,
    RawMemory.ctor, canon, Nat.zero_add, Nat.sub_zero, List.length_append, List.map_append,
    List.append_assoc, ge_iff_le, Nat.zero_le, true_and, hassert, not_true_eq_false, if_false,
    if_true, Nat.sub_self, List.replicate_zero, List.append_nil, hpol, hsz, bind, Except.bind,
    pure, Except.pure]
  rw [hm, Allocate_split _ A.length (B.length + m) rfl hfit, hcons]
  have hrep : A.length + 1 + (B.length + m) - (A.length + (B.length + 1)) = m := by omega
  simp only [hmv1, hmv2, hd, List.map_cons, List.cons_append, List.length_cons, hrep]
  rw [Nat.add_assoc A.length B.length 1]

theorem Emplace_canon_full_copy [ElemSize α] (tr : Traits α) (A B : List α) (x : α)
    (hpol : tr.move_if_safe = false)
    (hfit : (if (A ++ B).length = 0 then 1 else (A ++ B).length * 2) * ElemSize.sizeof α
      ≤ SIZE_MAX) :
    ∃ m, (if (A ++ B).length = 0 then 1 else (A ++ B).length * 2)
        = A.length + 1 + (B.length + m) ∧
      Emplace tr (canon (A ++ B) (A ++ B).length) A.length x
        = Except.ok (Vector.mk (RawMemory.mk
            (List.replicate A.length Slot.raw ++
              Slot.obj x :: List.replicate (B.length + m) Slot.raw)
            (A.length + 1 + (B.length + m))) ((A ++ B).length + 1), A.length) := by
  obtain ⟨m, hm⟩ : ∃ m, (if (A ++ B).length = 0 then 1 else (A ++ B).length * 2)
      = A.length + 1 + (B.length + m) := by
    refine ⟨(if (A ++ B).length = 0 then 1 else (A ++ B).length * 2) - (A ++ B).length - 1, ?_⟩
    simp only [List.length_append]
    split <;> omega
  refine ⟨m, hm, ?_⟩
  rw [hm] at hfit
  simp only [List.length_append] at hm
  have hassert : A.length ≤ A.length + B.length := by omega
  have hcons := construct_at_mid (List.replicate A.length Slot.raw)
    (List.replicate (B.length + m) Slot.raw) Slot.raw x A.length (by simp)
  have hd := destroy_n_mid (A ++ B) [] [] 0 (A.length + B.length) rfl (by simp)
  simp only [List.nil_append, List.append_nil, List.map_append] at hd
  simp only [Emplace, begin, end_, cbegin, Capacity, RawMemory.Capacity, RawMemory.GetAddress,
    RawMemory.ctor, canon, Nat.zero_add, Nat.sub_zero, List.length_append, List.map_append,
    List.append_assoc, ge_iff_le, Nat.zero_le, true_and, hassert, not_true_eq_false, if_false,
    if_true, Nat.sub_self, List.replicate_zero, List.append_nil, hpol, Bool.false_eq_true,
    bind, Except.bind, pure, Except.pure]
  rw [hm, Allocate_split _ A.length (B.length + m) rfl hfit, hcons]
  simp only [hd]

theorem Swap_eq (a b : Vector α) : Swap a b = (b, a) := rfl

theorem ctor_copy_canon [ElemSize α] (xs : List α) (c : Nat)
    (hfit : xs.length * ElemSize.sizeof α ≤ SIZE_MAX) :
    ctor_copy (canon xs c) = Except.ok (canon xs xs.length) := by
  have hcp := uninitialized_copy_n_mid xs [] (List.replicate (c - xs.length) Slot.raw) [] []
    (List.replicate xs.length Slot.raw) 0 0 xs.length rfl rfl rfl (by simp)
  simp only [List.nil_append, List.append_nil] at hcp
  simp only [ctor_copy, canon, RawMemory.ctor, RawMemory.GetAddress, Allocate_eq _ hfit, hcp,
    bind, Except.bind, pure, Except.pure, Nat.sub_self, List.replicate_zero, List.append_nil]

theorem dtor_canon (xs : List α) (c : Nat) : dtor (canon xs c) = Except.ok () := by
  have hd := destroy_n_mid xs [] (List.replicate (c - xs.length) Slot.raw) 0 xs.length rfl rfl
  simp only [List.nil_append] at hd
  simp only [dtor, canon, RawMemory.GetAddress, hd, bind, Except.bind, pure, Except.pure]

theorem Assign_canon_shrink (X1 X2 ys : List α) (c d : Nat) (hlen : X1.length = ys.length)
    (hX2 : X2 ≠ []) (hc : (X1 ++ X2).length ≤ c) :
    Assign (canon (X1 ++ X2) c) (canon ys d) = Except.ok (canon ys c) := by
  simp only [List.length_append] at hc
  have hpos : 0 < X2.length := List.length_pos.mpr hX2
  have hmin : min (X1.length + X2.length) ys.length = ys.length := by omega
  have hlt : ys.length < X1.length + X2.length := by omega
  have hn : X1.length + X2.length - ys.length = X2.length := by omega
  have hcp := copy_n_mid ys [] (List.replicate (d - ys.length) Slot.raw) []
    (X2.map Slot.obj ++ List.replicate (c - (X1.length + X2.length)) Slot.raw) X1 0 0 ys.length
    rfl rfl rfl hlen
  have hd := destroy_n_mid X2 (ys.map Slot.obj)
    (List.replicate (c - (X1.length + X2.length)) Slot.raw) ys.length X2.length (by simp) rfl
  simp only [List.nil_append, List.append_assoc] at hcp hd
  simp only [Assign, canon, RawMemory.GetAddress, List.length_append, List.map_append,
    List.append_assoc, Nat.zero_add, hmin, hlt, if_true, hn, hcp, hd, bind, Except.bind, pure,
    Except.pure, ← List.replicate_add]
  have hr : X2.length + (c - (X1.length + X2.length)) = c - ys.length := by omega
  rw [hr]

theorem Assign_canon_grow (xs Y1 Y2 : List α) (c d : Nat) (hlen : Y1.length = xs.length)
    (hc : (Y1 ++ Y2).length ≤ c) :
    Assign (canon xs c) (canon (Y1 ++ Y2) d) = Except.ok (canon (Y1 ++ Y2) c) := by
  simp only [List.length_append] at hc
  have hmin : min xs.length (Y1.length + Y2.length) = Y1.length := by omega
  have hlt : ¬ (Y1.length + Y2.length < xs.length) := by omega
  have hn : Y1.length + Y2.length - xs.length = Y2.length := by omega
  have hcp := copy_n_mid Y1 []
    (Y2.map Slot.obj ++ List.replicate (d - (Y1.length + Y2.length)) Slot.raw) []
    (List.replicate (c - xs.length) Slot.raw) xs 0 0 Y1.length rfl rfl rfl hlen.symm
  have hsplit : List.replicate (c - xs.length) (Slot.raw : Slot α)
      = List.replicate Y2.length Slot.raw
        ++ List.replicate (c - (Y1.length + Y2.length)) Slot.raw := by
    rw [← List.replicate_add]
    congr 1
    omega
  have hun := uninitialized_copy_n_mid Y2 (Y1.map Slot.obj)
    (List.replicate (d - (Y1.length + Y2.length)) Slot.raw) (Y1.map Slot.obj)
    (List.replicate (c - (Y1.length + Y2.length)) Slot.raw) (List.replicate Y2.length Slot.raw)
    xs.length xs.length Y2.length (by simp [hlen]) (by simp [hlen]) rfl (by simp)
  simp only [List.nil_append, List.append_assoc] at hcp hun
  simp only [Assign, canon, RawMemory.GetAddress, List.length_append, List.map_append,
    List.append_assoc, Nat.zero_add, hmin, hlt, if_false, hn, hcp, bind, Except.bind, pure,
    Except.pure]
  rw [hsplit, hun]

theorem Assign_canon (xs ys : List α) (c d : Nat) (hx : xs.length ≤ c) (hc : ys.length ≤ c) :
    Assign (canon xs c) (canon ys d) = Except.ok (canon ys c) := by
  by_cases h : ys.length < xs.length
  · have e := List.take_append_drop ys.length xs
    rw [← e]
    exact Assign_canon_shrink _ _ ys c d (by simp; omega) (by
      intro h0
      have := congrArg List.length h0
      simp at this
      omega) (by rw [e]; exact hx)
  · have e := List.take_append_drop xs.length ys
    rw [← e]
    exact Assign_canon_grow xs _ _ c d (by simp; omega) (by rw [e]; exact hc)

theorem assign_copy_canon [ElemSize α] (xs ys : List α) (c d : Nat) (hx : xs.length ≤ c)
    (hfit : ys.length * ElemSize.sizeof α ≤ SIZE_MAX) :
    assign_copy (canon xs c) (canon ys d)
      = Except.ok (canon ys (if ys.length > c then ys.length else c)) := by
  by_cases h : ys.length > c
  · have h2 : (canon ys d).size_ > (canon xs c).data_.Capacity := h
    simp only [assign_copy, h2, h, if_true, ctor_copy_canon ys d hfit, Swap_eq, dtor_canon,
      bind, Except.bind, pure, Except.pure]
  · have h2 : ¬ ((canon ys d).size_ > (canon xs c).data_.Capacity) := h
    simp only [assign_copy, h2, h, if_false]
    exact Assign_canon xs ys c d hx (by omega)

/-! ## Appending: `PushBack`, `EmplaceBack` -/

/-- C1: calling `PushBack` with each element of a finite sequence `xs`, in order, on a
default-constructed `Vector` returns normally with a `Vector` that satisfies the class
invariant, whose `Size()` is the length of `xs` and whose elements, read as a sequence or
one by one through `operator[]`, are exactly `xs` in insertion order.  This holds for both
migration strategies of the element type.  The sequence is one that memory can hold: a
block of twice its length is an object (at most `PTRDIFF_MAX` bytes), so that no request of
the doubling policy wraps. -/
theorem PushBack_sequence [ElemSize α] (tr : Traits α) (xs : List α)
    (hfit : 2 * xs.length * ElemSize.sizeof α ≤ PTRDIFF_MAX) :
    ∃ v : Vector α, PushBackAll tr ctor_default xs = Except.ok v ∧ v.WF ∧
      v.Size = xs.length ∧ v.toList = xs ∧
      ∀ (i : Nat) (hi : i < xs.length), v.get i = Except.ok (xs.get ⟨i, hi⟩) := by
  obtain ⟨c, h1, h2, _, _, h5⟩ := PushBackAll_schedule tr xs hfit
  exact ⟨canon xs c, h1, WF_canon xs c h2 h5, Size_canon xs c, toList_canon xs c,
    fun i hi => get_canon xs c i hi h2⟩

/-- Witness of `PushBack_sequence`: pushing `1, 2, 3` onto an empty `Vector` of integers. -/
theorem PushBack_sequence_witness :
    2 * [(1 : Int), 2, 3].length * ElemSize.sizeof Int ≤ PTRDIFF_MAX ∧
    ∃ v : Vector Int, PushBackAll intTraits ctor_default [1, 2, 3] = Except.ok v ∧ v.WF ∧
      v.Size = [(1 : Int), 2, 3].length ∧ v.toList = [1, 2, 3] ∧
      ∀ (i : Nat) (hi : i < [(1 : Int), 2, 3].length),
        v.get i = Except.ok ([(1 : Int), 2, 3].get ⟨i, hi⟩) :=
  ⟨by decide, PushBack_sequence intTraits [1, 2, 3] (by decide)⟩

/-- C9: starting from a default-constructed `Vector` and applying only `PushBack`, let `v`
be the state after the pushes of `xs` and `w` the state after one more push, the push
number `n = xs.length + 1 ≥ 1`.  Then the capacity of `w` is the least power of two that is
at least `n`; the capacity did not decrease on that push; it changed on that push exactly
when `Size() == Capacity()` held before it; and in that case it became `1` if it was `0` and
doubled otherwise.  The `n` elements are a sequence that memory can hold: a block of `2 * n`
slots is an object (at most `PTRDIFF_MAX` bytes), so that no request of the doubling policy
wraps. -/
theorem PushBack_capacity [ElemSize α] (tr : Traits α) (xs : List α) (x : α)
    (hfit : 2 * (xs.length + 1) * ElemSize.sizeof α ≤ PTRDIFF_MAX) :
    ∃ v w : Vector α,
      PushBackAll tr ctor_default xs = Except.ok v ∧
      PushBack tr v x = Except.ok w ∧
      PushBackAll tr ctor_default (xs ++ [x]) = Except.ok w ∧
      v.Size = xs.length ∧ w.Size = xs.length + 1 ∧
      (∃ k, w.Capacity = 2 ^ k ∧ xs.length + 1 ≤ 2 ^ k ∧
        ∀ j, xs.length + 1 ≤ 2 ^ j → 2 ^ k ≤ 2 ^ j) ∧
      v.Capacity ≤ w.Capacity ∧
      (w.Capacity ≠ v.Capacity ↔ v.Size = v.Capacity) ∧
      (v.Size = v.Capacity → w.Capacity = if v.Capacity = 0 then 1 else 2 * v.Capacity) := by
  have hgrow : (if xs.length = 0 then 1 else xs.length * 2) * ElemSize.sizeof α
      ≤ PTRDIFF_MAX :=
    fits_mono (by split <;> omega) hfit
  obtain ⟨c, h1, h2, _, _, _⟩ := PushBackAll_schedule tr xs (fits_mono (by omega) hfit)
  obtain ⟨c2, g1, g2, _, g4, _⟩ := PushBackAll_schedule tr (xs ++ [x])
    (by simpa only [List.length_append, List.length_singleton] using hfit)
  have hp := PushBack_canon tr xs c x h2 (fits_of_le _ hgrow)
  have hs := PushBackAll_snoc tr ctor_default xs x
  rw [h1] at hs
  simp only [Except.bind] at hs
  rw [hp] at hs
  have hc2 : c2 = (if c ≤ xs.length then (if xs.length = 0 then 1 else xs.length * 2) else c) := by
    rw [g1] at hs
    have := congrArg Vector.Capacity (Except.ok.inj hs)
    simpa only [Capacity_canon] using this
  obtain ⟨k, hk, hk2⟩ := g4 (by simp)
  simp only [List.length_append, List.length_singleton] at g2 hk2
  refine ⟨canon xs c, canon (xs ++ [x]) c2, h1, by rw [hp, hc2], g1, Size_canon _ _,
    by simp [Size_canon], ⟨k, by rw [Capacity_canon, hk], by omega, ?_⟩, ?_, ?_, ?_⟩
  · intro j hj
    rcases hk2 with hk2 | hk2
    · subst hk2
      exact Nat.one_le_two_pow
    · have hlt : 2 ^ (k - 1) < 2 ^ j := by omega
      have := (Nat.pow_lt_pow_iff_right (by decide : 1 < 2)).mp hlt
      exact Nat.pow_le_pow_right (by decide) (by omega)
  · simp only [Capacity_canon, hc2]
    split
    · split <;> omega
    · omega
  · simp only [Capacity_canon, Size_canon, hc2]
    split
    · split <;> omega
    · omega
  · simp only [Capacity_canon, Size_canon, hc2]
    intro h
    subst h
    simp only [Nat.le_refl, if_true]
    split <;> omega

/-- Witness of `PushBack_capacity`: the push number 3 on integers, which doubles the capacity
from 2 to 4. -/
theorem PushBack_capacity_witness :
    2 * ([(1 : Int), 2].length + 1) * ElemSize.sizeof Int ≤ PTRDIFF_MAX ∧
    ∃ v w : Vector Int,
      PushBackAll intTraits ctor_default [1, 2] = Except.ok v ∧
      PushBack intTraits v 3 = Except.ok w ∧
      PushBackAll intTraits ctor_default ([1, 2] ++ [3]) = Except.ok w ∧
      v.Size = [(1 : Int), 2].length ∧ w.Size = [(1 : Int), 2].length + 1 ∧
      (∃ k, w.Capacity = 2 ^ k ∧ [(1 : Int), 2].length + 1 ≤ 2 ^ k ∧
        ∀ j, [(1 : Int), 2].length + 1 ≤ 2 ^ j → 2 ^ k ≤ 2 ^ j) ∧
      v.Capacity ≤ w.Capacity ∧
      (w.Capacity ≠ v.Capacity ↔ v.Size = v.Capacity) ∧
      (v.Size = v.Capacity → w.Capacity = if v.Capacity = 0 then 1 else 2 * v.Capacity) :=
  ⟨by decide, PushBack_capacity intTraits [1, 2] 3 (by decide)⟩

/-! ## Positional insertion: `Emplace`, `Insert` -/

/-- In-place path of `Emplace` at a position before the last element or at it
(`p < Size() < Capacity()`): the value is inserted at `p`, the old elements from `p` on move
one slot toward the end, size grows by one and the capacity stays. -/
theorem Emplace_spare_inner [ElemSize α] (tr : Traits α) (v : Vector α) (p : Nat) (x : α) (h : v.WF)
    (hcap : v.Size < v.Capacity) (hp : p < v.Size) :
    ∃ w : Vector α, Emplace tr v (v.begin + p) x = Except.ok (w, w.begin + p) ∧ w.WF ∧
      w.Size = v.Size + 1 ∧ w.Capacity = v.Capacity ∧
      w.toList = v.toList.take p ++ x :: v.toList.drop p := by
  have hl := length_toList v h
  have hf := fits_of_WF v h
  have hv := eq_canon v h
  generalize v.toList = xs at hl hv
  generalize v.Capacity = c at hcap hv hf
  subst hv
  simp only [Size_canon] at hcap hp
  have hne : xs.drop p ≠ [] := by
    intro h0
    have := congrArg List.length h0
    simp at this
    omega
  have e1 := List.dropLast_append_getLast hne
  have e2 := List.take_append_drop p xs
  have hA : (xs.take p).length = p := by simp; omega
  have hM : ((xs.drop p).dropLast).length = xs.length - p - 1 := by simp
  obtain ⟨m, hm⟩ : ∃ m, c = (xs.take p).length + ((xs.drop p).dropLast).length + 2 + m :=
    ⟨c - xs.length - 1, by rw [hA, hM]; omega⟩
  have key := Emplace_canon_spare tr (xs.take p) (xs.drop p).dropLast
    ((xs.drop p).getLast hne) x m
  rw [← hm, List.append_assoc, e1, e2, hA] at key
  have e3 : xs.take p ++ x :: (xs.drop p).dropLast ++ [(xs.drop p).getLast hne]
      = xs.take p ++ x :: xs.drop p := by
    rw [List.append_assoc, List.cons_append, e1]
  rw [e3] at key
  refine ⟨canon (xs.take p ++ x :: xs.drop p) c, ?_, WF_canon _ _ ?_ hf, ?_, rfl,
    toList_canon _ _⟩
  · simpa only [begin, RawMemory.GetAddress, Nat.zero_add] using key
  · simp only [List.length_append, List.length_cons, List.length_take, List.length_drop]
    omega
  · simp only [Size_canon, List.length_append, List.length_cons, List.length_take,
      List.length_drop]
    omega

/-- Reallocating path of `Emplace` under move-based migration (`Size() == Capacity()`,
`0 ≤ p ≤ Size()`, the new block an object): capacity becomes `max(1, 2 * Size())`, size grows
by one and the contents are the old prefix, the value, the old suffix. -/
theorem Emplace_full_move [ElemSize α] (tr : Traits α) (v : Vector α) (p : Nat) (x : α) (h : v.WF)
    (hpol : tr.move_if_safe = true) (hcap : v.Size = v.Capacity) (hp : p ≤ v.Size)
    (hfit : max 1 (2 * v.Size) * ElemSize.sizeof α ≤ PTRDIFF_MAX) :
    ∃ w : Vector α, Emplace tr v (v.begin + p) x = Except.ok (w, w.begin + p) ∧ w.WF ∧
      w.Size = v.Size + 1 ∧ w.Capacity = max 1 (2 * v.Size) ∧
      w.toList = v.toList.take p ++ x :: v.toList.drop p := by
  have hl := length_toList v h
  have hv := eq_canon v h
  generalize v.toList = xs at hl hv
  generalize v.Capacity = c at hcap hv
  subst hv
  simp only [Size_canon] at hcap hp hfit
  subst hcap
  have e2 := List.take_append_drop p xs
  have hA : (xs.take p).length = p := by simp; omega
  have hc : (if xs.length = 0 then 1 else xs.length * 2) = max 1 (2 * xs.length) := by
    split <;> omega
  have key := Emplace_canon_full_move tr (xs.take p) (xs.drop p) x hpol
    (by rw [e2, hc]; exact fits_of_le _ hfit)
  rw [e2, hA] at key
  rw [hc] at key
  refine ⟨canon (xs.take p ++ x :: xs.drop p) (max 1 (2 * xs.length)), ?_, WF_canon _ _ ?_ hfit,
    ?_, rfl, toList_canon _ _⟩
  · simpa only [begin, RawMemory.GetAddress, Nat.zero_add] using key
  · simp only [List.length_append, List.length_cons, List.length_take, List.length_drop]
    omega
  · simp only [Size_canon, List.length_append, List.length_cons, List.length_take,
      List.length_drop]
    omega

/-- In-place path of `Emplace` on an empty `Vector` with reserved capacity: `size_ - 1` wraps
to `SIZE_MAX` and the `assert` in `RawMemory::operator[]` fails. -/
theorem Emplace_spare_empty [ElemSize α] (tr : Traits α) (c : Nat) (x : α) (h0 : 0 < c)
    (hc : c ≤ SIZE_MAX) :
    Emplace tr (canon [] c) 0 x = Except.error Fault.assertion := by
  have hne : ¬ (0 = c) := by omega
  have hsub : size_t_sub 0 1 = SIZE_MAX := by
    simp [size_t_sub]
  have hidx : ¬ (SIZE_MAX < c) := by omega
  simp only [Emplace, begin, end_, cbegin, Capacity, RawMemory.Capacity, RawMemory.GetAddress,
    RawMemory.index, canon, List.length_nil, Nat.zero_add, Nat.sub_zero, ge_iff_le,
    Nat.le_refl, and_self, not_true_eq_false, if_false, hne, hsub, hidx, bind, Except.bind,
    pure, Except.pure]

/-- In-place path of `Emplace` at `end()` of a non-empty `Vector` with spare capacity: the
range `[begin() + Size(), end() - 1)` handed to `std::move_backward` is invalid. -/
theorem Emplace_spare_end [ElemSize α] (tr : Traits α) (M : List α) (z x : α) (m : Nat) :
    Emplace tr (canon (M ++ [z]) (M.length + 2 + m)) (M.length + 1) x
      = Except.error Fault.undefined := by
  have hfull : ¬ (M.length + 1 = M.length + 2 + m) := by omega
  have hsub : size_t_sub (M.length + 1) 1 = M.length := size_t_sub_succ _
  have hidx : M.length < M.length + 2 + m := by omega
  have hrep : M.length + 2 + m - (M.length + 1) = m + 1 := by omega
  have hmc := move_construct_next tr (M.map Slot.obj) (List.replicate m Slot.raw) Slot.raw z
    (M.length + 1) M.length (by simp) (by simp)
  have hrange : M.length + 1 - 1 < M.length + 1 := by omega
  simp only [Emplace, begin, end_, cbegin, Capacity, RawMemory.Capacity, RawMemory.GetAddress,
    move_backward, RawMemory.index, canon, Nat.zero_add, Nat.sub_zero, List.length_append,
    List.length_cons, List.length_nil, List.map_append, List.map_cons, List.map_nil,
    List.append_assoc, List.cons_append, List.nil_append, ge_iff_le, Nat.zero_le, true_and,
    Nat.le_refl, not_true_eq_false, if_false, if_true, hfull, hsub, hidx, hrep, hrange,
    List.replicate_succ, hmc, bind, Except.bind, pure, Except.pure]

/-- C2 (defect of the source): the in-place path of `Emplace` does not handle an empty
`Vector` with reserved capacity, nor the position `end()`.  On the `Vector` obtained from
`Reserve(1)` (size 0, capacity 1) the call `Emplace(begin(), 5)` violates the assertion of
`RawMemory::operator[]`; on a `Vector` holding `[1, 2, 3]` with capacity 4 the call
`Emplace(end(), 9)` runs `std::move_backward` on an invalid range.  At an inner position of
the same `Vector` the call gives `[1, 9, 2, 3]` as the claim says. -/
theorem Emplace_spare_defect :
    Reserve intTraits ctor_default 1 = Except.ok (canon [] 1) ∧
    (canon [] 1 : Vector Int).WF ∧
    (canon [] 1 : Vector Int).Size = 0 ∧ (canon [] 1 : Vector Int).Capacity = 1 ∧
    Emplace intTraits (canon [] 1) 0 5 = Except.error Fault.assertion ∧
    (canon [1, 2, 3] 4 : Vector Int).WF ∧
    Emplace intTraits (canon [1, 2, 3] 4) 3 9 = Except.error Fault.undefined ∧
    Emplace intTraits (canon [1, 2, 3] 4) 1 9 = Except.ok (canon [1, 9, 2, 3] 4, 1) := by
  refine ⟨rfl, by decide, rfl, rfl, rfl, by decide, rfl, rfl⟩

/-- C3 (defect of the source): the reallocating path of `Emplace` migrates the old elements
only under move-based migration; the copy branch that `Reserve` and `EmplaceBack` have is
missing.  For a copyable element type whose move constructor may raise, `Emplace(begin(), 9)`
on the full `Vector` `[1]` returns a `Vector` of size 2 and capacity 2 whose slot 1 is
uninitialised: the old element is lost and the class invariant is broken.  `Reserve` and
`EmplaceBack` on the same `Vector` keep the element, and for `int` the same `Emplace` call
gives `[9, 1]`. -/
theorem Emplace_full_copy_defect :
    (canon [1] 1 : Vector Int).WF ∧
    throwingMoveTraits.move_if_safe = false ∧
    Emplace throwingMoveTraits (canon [1] 1) 0 9
      = Except.ok (Vector.mk (RawMemory.mk [Slot.obj 9, Slot.raw] 2) 2, 0) ∧
    ¬ (Vector.mk (RawMemory.mk [Slot.obj 9, Slot.raw] 2) 2 : Vector Int).WF ∧
    (Vector.mk (RawMemory.mk [Slot.obj 9, Slot.raw] 2) 2 : Vector Int).get 1
      = Except.error Fault.undefined ∧
    Reserve throwingMoveTraits (canon [1] 1) 2 = Except.ok (canon [1] 2) ∧
    EmplaceBack throwingMoveTraits (canon [1] 1) 9 = Except.ok (canon [1, 9] 2, 1) ∧
    Emplace intTraits (canon [1] 1) 0 9 = Except.ok (canon [9, 1] 2, 0) := by
  refine ⟨by decide, rfl, rfl, by decide, rfl, rfl, rfl, rfl⟩

/-! ## Removal: `Erase` -/

theorem get_of_WF [ElemSize α] (v : Vector α) (h : v.WF) (i : Nat) (hi : i < v.toList.length) :
    v.get i = Except.ok (v.toList.get ⟨i, hi⟩) := by
  have hl := length_toList v h
  have hv := eq_canon v h
  have hc : v.toList.length ≤ v.Capacity := by rw [hl]; exact h.2.1
  have e := get_canon v.toList v.Capacity i hi hc
  rw [← hv] at e
  exact e

/-- C4: for a non-empty `Vector` that satisfies the class invariant and a position `p` with
`0 ≤ p < Size()`, `Erase(begin() + p)` returns normally with the iterator `begin() + p`; the
result satisfies the class invariant, has size `Size() - 1` and the same capacity, and its
contents are the old elements `[0, p)` followed by the old elements `(p, Size())` in the same
order, each of the latter one slot nearer the beginning. -/
theorem Erase_spec [ElemSize α]
    (tr : Traits α) (v : Vector α) (p : Nat) (h : v.WF) (hp : p < v.Size) :
    ∃ w : Vector α, Erase tr v (v.begin + p) = Except.ok (w, w.begin + p) ∧ w.WF ∧
      w.Size = v.Size - 1 ∧ w.Capacity = v.Capacity ∧
      w.toList = v.toList.take p ++ v.toList.drop (p + 1) ∧
      (∀ i, i < p → w.get i = v.get i) ∧
      (∀ i, p ≤ i → i < v.Size - 1 → w.get i = v.get (i + 1)) := by
  have hl := length_toList v h
  have hcap : v.Size ≤ v.Capacity := h.2.1
  have hf := fits_of_WF v h
  have hv := eq_canon v h
  generalize v.toList = xs at hl hv
  generalize v.Capacity = c at hcap hv hf
  subst hv
  simp only [Size_canon] at hcap hp ⊢
  have hpl : p < xs.length := hp
  have e1 : xs.take p ++ xs.get ⟨p, hpl⟩ :: xs.drop (p + 1) = xs := by
    rw [List.get_eq_getElem, ← List.drop_eq_getElem_cons hpl, List.take_append_drop]
  have hA : (xs.take p).length = p := by simp; omega
  have key := Erase_canon tr (xs.take p) (xs.drop (p + 1)) (xs.get ⟨p, hpl⟩) c
    (by rw [e1]; exact hcap)
  rw [e1, hA] at key
  have hlen : (xs.take p ++ xs.drop (p + 1)).length = xs.length - 1 := by
    simp only [List.length_append, List.length_take, List.length_drop]
    omega
  have hwc : (xs.take p ++ xs.drop (p + 1)).length ≤ c := by omega
  refine ⟨canon (xs.take p ++ xs.drop (p + 1)) c, ?_, WF_canon _ _ hwc hf, ?_, rfl, ?_, ?_, ?_⟩
  · simpa only [begin, RawMemory.GetAddress, Nat.zero_add] using key
  · rw [Size_canon, hlen]
  · simp only [toList_canon]
  · intro i hi
    rw [get_canon _ c i (by omega) hwc, get_canon xs c i (by omega) hcap]
    simp only [List.get_eq_getElem]
    rw [List.getElem_append_left (by omega)]
    simp
  · intro i hi1 hi2
    rw [get_canon _ c i (by omega) hwc, get_canon xs c (i + 1) (by omega) hcap]
    simp only [List.get_eq_getElem]
    rw [List.getElem_append_right (by omega)]
    simp only [hA, List.getElem_drop]
    congr 2
    omega

/-- Witness of `Erase_spec`: erasing position 1 of `[1, 2, 3]`. -/
theorem Erase_spec_witness :
    (canon [1, 2, 3] 4 : Vector Int).WF ∧ 1 < (canon [1, 2, 3] 4 : Vector Int).Size ∧
    ∃ w : Vector Int,
      Erase intTraits (canon [1, 2, 3] 4) ((canon [1, 2, 3] 4 : Vector Int).begin + 1)
        = Except.ok (w, w.begin + 1) ∧ w.WF ∧
      w.Size = (canon [1, 2, 3] 4 : Vector Int).Size - 1 ∧
      w.Capacity = (canon [1, 2, 3] 4 : Vector Int).Capacity ∧
      w.toList = (canon [1, 2, 3] 4 : Vector Int).toList.take 1
        ++ (canon [1, 2, 3] 4 : Vector Int).toList.drop (1 + 1) ∧
      (∀ i, i < 1 → w.get i = (canon [1, 2, 3] 4 : Vector Int).get i) ∧
      (∀ i, 1 ≤ i → i < (canon [1, 2, 3] 4 : Vector Int).Size - 1 →
        w.get i = (canon [1, 2, 3] 4 : Vector Int).get (i + 1)) :=
  ⟨by decide, by decide, Erase_spec intTraits (canon [1, 2, 3] 4) 1 (by decide) (by decide)⟩

/-- Round trip: `Erase` followed by `Insert` of the erased value at the same position restores the
`Vector` when the position is not the last one (`p + 1 < Size()`). -/
theorem Erase_Insert_inner [ElemSize α] (tr : Traits α) (v : Vector α) (p : Nat) (h : v.WF)
    (hp : p + 1 < v.toList.length) :
    ∃ w : Vector α, Erase tr v (v.begin + p) = Except.ok (w, w.begin + p) ∧
      Insert tr w (w.begin + p) (v.toList.get ⟨p, by omega⟩) = Except.ok (v, v.begin + p) := by
  have hl := length_toList v h
  have hcap : v.Size ≤ v.Capacity := h.2.1
  have hv := eq_canon v h
  generalize v.toList = xs at hl hv hp
  generalize v.Capacity = c at hcap hv
  subst hv
  simp only [Size_canon] at hcap
  have hpl : p < xs.length := by omega
  have hne : xs.drop (p + 1) ≠ [] := by
    intro h0
    have := congrArg List.length h0
    simp at this
    omega
  have e0 := List.dropLast_append_getLast hne
  have e1 : xs.take p ++ xs.get ⟨p, hpl⟩ :: xs.drop (p + 1) = xs := by
    rw [List.get_eq_getElem, ← List.drop_eq_getElem_cons hpl, List.take_append_drop]
  have hA : (xs.take p).length = p := by simp; omega
  have hM : ((xs.drop (p + 1)).dropLast).length = xs.length - p - 2 := by
    simp only [List.length_dropLast, List.length_drop]
    omega
  obtain ⟨m, hm⟩ : ∃ m,
      c = (xs.take p).length + ((xs.drop (p + 1)).dropLast).length + 2 + m :=
    ⟨c - xs.length, by rw [hA, hM]; omega⟩
  have k1 := Erase_canon tr (xs.take p) (xs.drop (p + 1)) (xs.get ⟨p, hpl⟩) c
    (by rw [e1]; exact hcap)
  have k2 := Emplace_canon_spare tr (xs.take p) (xs.drop (p + 1)).dropLast
    ((xs.drop (p + 1)).getLast hne) (xs.get ⟨p, hpl⟩) m
  rw [e1, hA] at k1
  rw [← hm, List.append_assoc, e0, hA] at k2
  have e3 : xs.take p ++ xs.get ⟨p, hpl⟩ :: (xs.drop (p + 1)).dropLast
      ++ [(xs.drop (p + 1)).getLast hne] = xs := by
    rw [List.append_assoc, List.cons_append, e0, e1]
  rw [e3] at k2
  refine ⟨canon (xs.take p ++ xs.drop (p + 1)) c, ?_, ?_⟩
  · simpa only [begin, RawMemory.GetAddress, Nat.zero_add] using k1
  · simpa only [Insert, begin, RawMemory.GetAddress, Nat.zero_add] using k2

/-- C5 (defect of the source): `Erase(pos)` followed by `Insert(pos, original value)` does
not restore the sequence when `pos` addresses the last element, in particular for a `Vector`
with exactly one element.  For `[7]` (capacity 1), `Erase(begin())` leaves an empty `Vector`
of capacity 1 and `Insert(begin(), 7)` then violates the assertion of
`RawMemory::operator[]`.  For `[7, 8, 9]` (capacity 4), `Erase(begin() + 2)` leaves `[7, 8]`
and `Insert(begin() + 2, 9)` then runs `std::move_backward` on an invalid range.  At the
inner position 1 of the same `Vector` the round trip restores `[7, 8, 9]`.  The defect is the
one of the in-place path of `Emplace` (claim C2). -/
theorem Erase_Insert_defect :
    (canon [7] 1 : Vector Int).WF ∧
    Erase intTraits (canon [7] 1) 0 = Except.ok (canon [] 1, 0) ∧
    Insert intTraits (canon [] 1) 0 7 = Except.error Fault.assertion ∧
    (canon [7, 8, 9] 4 : Vector Int).WF ∧
    Erase intTraits (canon [7, 8, 9] 4) 2 = Except.ok (canon [7, 8] 4, 2) ∧
    Insert intTraits (canon [7, 8] 4) 2 9 = Except.error Fault.undefined ∧
    Erase intTraits (canon [7, 8, 9] 4) 1 = Except.ok (canon [7, 9] 4, 1) ∧
    Insert intTraits (canon [7, 9] 4) 1 8 = Except.ok (canon [7, 8, 9] 4, 1) := by
  refine ⟨by decide, rfl, rfl, by decide, rfl, rfl, rfl, rfl⟩

/-! ## Moving: `Swap`, move construction, move assignment -/

/-- C6 (as stated, refuted): move assignment onto a non-empty destination does not leave
the source in the empty state.  With destination `[1]` and source `[2, 3]`, after
`a = std::move(b)` the source has size 1 and capacity 1. -/
theorem assign_move_source_not_empty :
    (canon [1] 1 : Vector Int).WF ∧ (canon [2, 3] 2 : Vector Int).WF ∧
    (assign_move (canon [1] 1 : Vector Int) (canon [2, 3] 2)).2.Size = 1 ∧
    (assign_move (canon [1] 1 : Vector Int) (canon [2, 3] 2)).2.Capacity = 1 ∧
    ¬ ((assign_move (canon [1] 1 : Vector Int) (canon [2, 3] 2)).2.Size = 0 ∧
       (assign_move (canon [1] 1 : Vector Int) (canon [2, 3] 2)).2.Capacity = 0) := by
  refine ⟨by decide, by decide, rfl, rfl, by decide⟩

/-- C6 (amended): move assignment `a = std::move(b)` between two distinct `Vector`s
exchanges their states: the destination `a` ends with exactly the prior elements, size and
capacity of `b`, and the source `b` ends with exactly the prior elements, size and capacity
of `a`.  Hence `b` ends in the empty state (`Size() == 0` and `Capacity() == 0`) exactly when
`a` was in the empty state before the assignment. -/
theorem assign_move_spec (a b : Vector α) :
    (assign_move a b).1 = b ∧ (assign_move a b).2 = a ∧
    (assign_move a b).1.toList = b.toList ∧ (assign_move a b).1.Size = b.Size ∧
    (assign_move a b).1.Capacity = b.Capacity ∧
    (assign_move a b).2.toList = a.toList ∧ (assign_move a b).2.Size = a.Size ∧
    (assign_move a b).2.Capacity = a.Capacity ∧
    (((assign_move a b).2.Size = 0 ∧ (assign_move a b).2.Capacity = 0) ↔
      (a.Size = 0 ∧ a.Capacity = 0)) := by
  have e : assign_move a b = (b, a) := Swap_eq a b
  rw [e]
  exact ⟨rfl, rfl, rfl, rfl, rfl, rfl, rfl, rfl, Iff.rfl⟩

/-- C7: move construction of a new `Vector` `a` from `b` is a total operation (it cannot
fail); it leaves `b` equal to the default-constructed `Vector`, so with `Size() == 0` and
`Capacity() == 0`, and gives `a` exactly the prior state of `b`: the same elements in the
same order, the same size and the same capacity. -/
theorem ctor_move_spec (b : Vector α) :
    (ctor_move b).1 = b ∧ (ctor_move b).1.toList = b.toList ∧
    (ctor_move b).1.Size = b.Size ∧ (ctor_move b).1.Capacity = b.Capacity ∧
    (∀ i, (ctor_move b).1.get i = b.get i) ∧
    (ctor_move b).2 = ctor_default ∧
    (ctor_move b).2.Size = 0 ∧ (ctor_move b).2.Capacity = 0 ∧ (ctor_move b).2.toList = [] := by
  have e : ctor_move b = (b, ctor_default) := Swap_eq _ b
  rw [e]
  exact ⟨rfl, rfl, rfl, rfl, fun _ => rfl, rfl, rfl, rfl, rfl⟩

/-! ## Capacity: `Reserve` -/

/-- When the requested block is an object (`k * sizeof(T) ≤ PTRDIFF_MAX`), `Reserve(k)` on a
`Vector` that satisfies the class invariant returns normally under either migration
strategy; the result satisfies the class invariant and has the same size and the same
element values (as a sequence and through `operator[]`).  For `k ≤ Capacity()` the `Vector`
is unchanged altogether, capacity included; for `k > Capacity()` the capacity becomes
exactly `k`. -/
theorem Reserve_in_range [ElemSize α] (tr : Traits α) (v : Vector α) (k : Nat) (h : v.WF)
    (hfit : v.Capacity < k → k * ElemSize.sizeof α ≤ PTRDIFF_MAX) :
    ∃ w : Vector α, Reserve tr v k = Except.ok w ∧ w.WF ∧ w.Size = v.Size ∧
      w.toList = v.toList ∧ (∀ i, w.get i = v.get i) ∧
      (k ≤ v.Capacity → w = v ∧ w.Capacity = v.Capacity) ∧
      (v.Capacity < k → w.Capacity = k) := by
  by_cases hk : k ≤ v.Capacity
  · exact ⟨v, Reserve_noop tr v k hk, h, rfl, rfl, fun _ => rfl, fun _ => ⟨rfl, rfl⟩,
      fun h2 => absurd hk (by omega)⟩
  · have hl := length_toList v h
    have hcap : v.Size ≤ v.Capacity := h.2.1
    have hv := eq_canon v h
    have hf := hfit (by omega)
    generalize v.toList = xs at hl hv
    generalize v.Capacity = c at hcap hv hk
    subst hv
    simp only [Size_canon] at hcap
    refine ⟨canon xs k, Reserve_canon_grow tr xs c k hcap (by omega) (fits_of_le _ hf),
      WF_canon _ _ (by omega) hf, rfl, ?_, fun i => get_canon_eq xs c k i hcap (by omega),
      fun h2 => absurd h2 hk, fun _ => rfl⟩
    simp only [toList_canon]

/-- C8 (defect of the source): `RawMemory::Allocate` computes `n * sizeof(T)` in `size_t`
without a check (line 60), so `Reserve(k)` with a `k` whose product wraps asks `operator new`
for too few bytes while `capacity_` records `k`.  For `int` (4 bytes) and `k = 2 ^ 62` the
product is `2 ^ 64`, that is 0 bytes: the block has no slot.  On the `Vector` `[1]` the
migration of `Reserve(2 ^ 62)` then constructs outside the block, under either migration
strategy; with `k = 2 ^ 62 + 1` the block has one slot and the migration of `[1, 2]` leaves
it.  On an empty `Vector`, `Reserve(2 ^ 62)` returns with `Capacity() == 2 ^ 62` and a block
of no slot, which breaks the class invariant, and the next `PushBack` constructs outside the
block.  With `k = 5` the same call does what the claim says. -/
theorem Reserve_overflow_defect :
    (canon [1] 1 : Vector Int).WF ∧
    size_t_mul (2 ^ 62) (ElemSize.sizeof Int) = 0 ∧
    (RawMemory.ctor (2 ^ 62) : RawMemory Int) = RawMemory.mk [] (2 ^ 62) ∧
    Reserve intTraits (canon [1] 1) (2 ^ 62) = Except.error Fault.undefined ∧
    Reserve throwingMoveTraits (canon [1] 1) (2 ^ 62) = Except.error Fault.undefined ∧
    (RawMemory.ctor (2 ^ 62 + 1) : RawMemory Int) = RawMemory.mk [Slot.raw] (2 ^ 62 + 1) ∧
    Reserve intTraits (canon [1, 2] 2) (2 ^ 62 + 1) = Except.error Fault.undefined ∧
    Reserve intTraits ctor_default (2 ^ 62)
      = Except.ok (Vector.mk (RawMemory.mk [] (2 ^ 62)) 0) ∧
    (Vector.mk (RawMemory.mk [] (2 ^ 62)) 0 : Vector Int).Capacity = 2 ^ 62 ∧
    ¬ (Vector.mk (RawMemory.mk [] (2 ^ 62)) 0 : Vector Int).WF ∧
    PushBack intTraits (Vector.mk (RawMemory.mk [] (2 ^ 62)) 0) 7
      = Except.error Fault.undefined ∧
    Reserve intTraits (canon [1] 1) 5 = Except.ok (canon [1] 5) := by
  refine ⟨by decide, rfl, rfl, rfl, rfl, rfl, rfl, rfl, rfl, by decide, rfl, rfl⟩

/-! ## Copy assignment -/

/-- C10: for two distinct `Vector`s `a` and `rhs` that satisfy the class invariant, copy
assignment `a = rhs` returns normally; `rhs` is only read (it is an argument of the
function, not part of its result); the new `a` satisfies the class invariant, has size
`rhs.Size()` and the elements of `rhs` index by index.  Its capacity is exactly `rhs.Size()`
when `rhs.Size()` exceeded the prior capacity of `a`, and the prior capacity of `a`
otherwise, whether `rhs` is shorter or longer than `a`. -/
theorem assign_copy_spec [ElemSize α] (a rhs : Vector α) (ha : a.WF) (hr : rhs.WF) :
    ∃ w : Vector α, assign_copy a rhs = Except.ok w ∧ w.WF ∧ w.Size = rhs.Size ∧
      w.toList = rhs.toList ∧ (∀ i, w.get i = rhs.get i) ∧
      (rhs.Size > a.Capacity → w.Capacity = rhs.Size) ∧
      (rhs.Size ≤ a.Capacity → w.Capacity = a.Capacity) := by
  have hla := length_toList a ha
  have hca : a.Size ≤ a.Capacity := ha.2.1
  have hfa := fits_of_WF a ha
  have hva := eq_canon a ha
  have hlr := length_toList rhs hr
  have hcr : rhs.Size ≤ rhs.Capacity := hr.2.1
  have hfr := fits_of_WF rhs hr
  have hvr := eq_canon rhs hr
  generalize a.toList = xs at hla hva
  generalize a.Capacity = c at hca hva hfa
  generalize rhs.toList = ys at hlr hvr
  generalize rhs.Capacity = d at hcr hvr hfr
  subst hva
  subst hvr
  simp only [Size_canon] at hca hcr ⊢
  have hfy : ys.length * ElemSize.sizeof α ≤ PTRDIFF_MAX := fits_mono hcr hfr
  have key := assign_copy_canon xs ys c d hca (fits_of_le _ hfy)
  have hwc : ys.length ≤ (if ys.length > c then ys.length else c) := by
    split <;> omega
  have hwf : (if ys.length > c then ys.length else c) * ElemSize.sizeof α ≤ PTRDIFF_MAX := by
    split
    · exact hfy
    · exact hfa
  refine ⟨_, key, WF_canon _ _ hwc hwf, rfl, ?_, fun i => get_canon_eq ys d _ i hcr hwc, ?_,
    ?_⟩
  · simp only [toList_canon]
  · intro h
    simp only [Capacity_canon, h, if_true]
  · intro h
    have : ¬ (ys.length > c) := by omega
    simp only [Capacity_canon, this, if_false]

/-- Witness of `assign_copy_spec`: assigning `[4, 5, 6]` to `[1]` of capacity 2. -/
theorem assign_copy_spec_witness :
    (canon [1] 2 : Vector Int).WF ∧ (canon [4, 5, 6] 4 : Vector Int).WF ∧
    ∃ w : Vector Int, assign_copy (canon [1] 2) (canon [4, 5, 6] 4) = Except.ok w ∧ w.WF ∧
      w.Size = (canon [4, 5, 6] 4 : Vector Int).Size ∧
      w.toList = (canon [4, 5, 6] 4 : Vector Int).toList ∧
      (∀ i, w.get i = (canon [4, 5, 6] 4 : Vector Int).get i) ∧
      ((canon [4, 5, 6] 4 : Vector Int).Size > (canon [1] 2 : Vector Int).Capacity →
        w.Capacity = (canon [4, 5, 6] 4 : Vector Int).Size) ∧
      ((canon [4, 5, 6] 4 : Vector Int).Size ≤ (canon [1] 2 : Vector Int).Capacity →
        w.Capacity = (canon [1] 2 : Vector Int).Capacity) :=
  ⟨by decide, by decide,
    assign_copy_spec (canon [1] 2) (canon [4, 5, 6] 4) (by decide) (by decide)⟩

/-! ## Construction: `Vector()`, `Vector(size_t)` -/

theorem ctor_size_canon [ElemSize α] (tr : Traits α) (n : Nat)
    (hfit : n * ElemSize.sizeof α ≤ SIZE_MAX) :
    ctor_size tr n = Except.ok (canon (List.replicate n tr.value_init) n) := by
  have h := uninitialized_value_construct_n_mid tr (List.replicate n Slot.raw) [] [] 0 n rfl
    (by simp)
  simp only [List.nil_append, List.append_nil, List.length_replicate] at h
  simp only [ctor_size, RawMemory.ctor, RawMemory.GetAddress, Allocate_eq _ hfit, h, bind,
    Except.bind, pure, Except.pure, canon, List.map_replicate, List.length_replicate,
    Nat.sub_self, List.replicate_zero, List.append_nil]

/-- When a block of `N` slots is an object (`N * sizeof(T) ≤ PTRDIFF_MAX`), the constructor
`Vector(N)` returns normally with a `Vector` that satisfies the class invariant, has
`Size() == N` and `Capacity() == N`, and holds `N` elements, each equal to the
value-initialised element, whether read as a sequence or through `operator[]`. -/
theorem ctor_size_in_range [ElemSize α] (tr : Traits α) (n : Nat)
    (hfit : n * ElemSize.sizeof α ≤ PTRDIFF_MAX) :
    ∃ v : Vector α, ctor_size tr n = Except.ok v ∧ v.WF ∧ v.Size = n ∧ v.Capacity = n ∧
      v.toList = List.replicate n tr.value_init ∧
      ∀ i, i < n → v.get i = Except.ok tr.value_init := by
  refine ⟨canon (List.replicate n tr.value_init) n, ctor_size_canon tr n (fits_of_le _ hfit),
    WF_canon _ _ (by simp) hfit, by simp [Size_canon], rfl, toList_canon _ _, ?_⟩
  intro i hi
  rw [get_canon _ n i (by simpa using hi) (by simp)]
  simp

/-- C13 (defect of the source): `RawMemory::Allocate` computes `n * sizeof(T)` in `size_t`
without a check (line 60), so `Vector(N)` with an `N` whose product wraps gets a block that
is too small and value-initialises `N` elements through and past it.  For `int` (4 bytes) and
`N = 2 ^ 62` the product is `2 ^ 64`, that is 0 bytes: the block has no slot and the
construction of element 0 lies outside it; with `N = 2 ^ 62 + 1` the block has one slot and
the construction of element 1 lies outside it.  With `N = 3` the constructor gives
`[0, 0, 0]` with size 3 and capacity 3, and the default constructor gives size 0 and
capacity 0, as the claim says. -/
theorem ctor_size_overflow_defect :
    size_t_mul (2 ^ 62) (ElemSize.sizeof Int) = 0 ∧
    (RawMemory.ctor (2 ^ 62) : RawMemory Int) = RawMemory.mk [] (2 ^ 62) ∧
    ctor_size intTraits (2 ^ 62) = Except.error Fault.undefined ∧
    (RawMemory.ctor (2 ^ 62 + 1) : RawMemory Int) = RawMemory.mk [Slot.raw] (2 ^ 62 + 1) ∧
    ctor_size intTraits (2 ^ 62 + 1) = Except.error Fault.undefined ∧
    ctor_size intTraits 3 = Except.ok (canon [0, 0, 0] 3) ∧
    (canon [0, 0, 0] 3 : Vector Int).WF ∧
    (canon [0, 0, 0] 3 : Vector Int).Size = 3 ∧ (canon [0, 0, 0] 3 : Vector Int).Capacity = 3 ∧
    (ctor_default : Vector Int).Size = 0 ∧ (ctor_default : Vector Int).Capacity = 0 ∧
    (ctor_default : Vector Int).toList = [] := by
  refine ⟨rfl, rfl, rfl, rfl, rfl, rfl, by decide, rfl, rfl, rfl, rfl, rfl⟩

/-! ## Shrinking and growing: `PopBack`, `Resize` -/

theorem PopBack_canon_nil (c : Nat) : PopBack (canon ([] : List α) c) = Except.ok (canon [] c) := by
  simp [PopBack, canon, pure, Except.pure]

/-- C14: for a `Vector` that satisfies the class invariant `PopBack` returns normally (it
never fails) and keeps the class invariant and the capacity.  On a non-empty `Vector` it
removes exactly the last element: the size decreases by one and the elements `[0, Size()-1)`
are unchanged.  On an empty `Vector` it changes nothing, size 0 included. -/
theorem PopBack_spec [ElemSize α] (v : Vector α) (h : v.WF) :
    ∃ w : Vector α, PopBack v = Except.ok w ∧ w.WF ∧ w.Capacity = v.Capacity ∧
      (0 < v.Size → w.Size = v.Size - 1 ∧ w.toList = v.toList.dropLast ∧
        ∀ i, i < v.Size - 1 → w.get i = v.get i) ∧
      (v.Size = 0 → w = v ∧ w.Size = 0) := by
  have hl := length_toList v h
  have hcap : v.Size ≤ v.Capacity := h.2.1
  have hf := fits_of_WF v h
  have hv := eq_canon v h
  generalize v.toList = xs at hl hv
  generalize v.Capacity = c at hcap hv hf
  subst hv
  simp only [Size_canon] at hcap ⊢
  rcases List.eq_nil_or_concat xs with hx | ⟨ys, t, hx⟩
  · subst hx
    exact ⟨canon [] c, PopBack_canon_nil c, WF_canon _ _ (Nat.zero_le _) hf, rfl,
      fun h0 => absurd h0 (by simp), fun _ => ⟨rfl, rfl⟩⟩
  · rw [List.concat_eq_append] at hx
    subst hx
    have hle : ys.length ≤ c := by simp at hcap; omega
    refine ⟨canon ys c, PopBack_canon ys t c hcap, WF_canon _ _ hle hf, rfl,
      fun _ => ⟨?_, ?_, ?_⟩, fun h0 => absurd h0 (by simp)⟩
    · simp [Size_canon]
    · simp [toList_canon]
    · intro i hi
      simp only [List.length_append, List.length_singleton, Nat.add_sub_cancel] at hi
      rw [get_canon ys c i hi hle, get_canon (ys ++ [t]) c i (by simp; omega) hcap]
      simp only [List.get_eq_getElem]
      rw [List.getElem_append_left hi]

/-- Witness of `PopBack_spec`: removing the last element of `[1, 2, 3]`. -/
theorem PopBack_spec_witness :
    (canon [1, 2, 3] 4 : Vector Int).WF ∧
    ∃ w : Vector Int, PopBack (canon [1, 2, 3] 4) = Except.ok w ∧ w.WF ∧
      w.Capacity = (canon [1, 2, 3] 4 : Vector Int).Capacity ∧
      (0 < (canon [1, 2, 3] 4 : Vector Int).Size →
        w.Size = (canon [1, 2, 3] 4 : Vector Int).Size - 1 ∧
        w.toList = (canon [1, 2, 3] 4 : Vector Int).toList.dropLast ∧
        ∀ i, i < (canon [1, 2, 3] 4 : Vector Int).Size - 1 →
          w.get i = (canon [1, 2, 3] 4 : Vector Int).get i) ∧
      ((canon [1, 2, 3] 4 : Vector Int).Size = 0 → w = canon [1, 2, 3] 4 ∧ w.Size = 0) :=
  ⟨by decide, PopBack_spec (canon [1, 2, 3] 4) (by decide)⟩

theorem Reserve_canon [ElemSize α] (tr : Traits α) (xs : List α) (c k : Nat) (h : xs.length ≤ c)
    (hfit : c < k → k * ElemSize.sizeof α ≤ SIZE_MAX) :
    Reserve tr (canon xs c) k = Except.ok (canon xs (max c k)) := by
  by_cases hk : k ≤ c
  · rw [Nat.max_eq_left hk]
    exact Reserve_noop tr _ k hk
  · rw [Nat.max_eq_right (by omega)]
    exact Reserve_canon_grow tr xs c k h (by omega) (hfit (by omega))

theorem Resize_canon_grow [ElemSize α] (tr : Traits α) (xs : List α) (c n : Nat) (h : xs.length ≤ c)
    (hn : xs.length < n) (hfit : c < n → n * ElemSize.sizeof α ≤ SIZE_MAX) :
    Resize tr (canon xs c) n
      = Except.ok (canon (xs ++ List.replicate (n - xs.length) tr.value_init) (max c n)) := by
  have hgt : n > (canon xs c).size_ := hn
  have hsplit : List.replicate (max c n - xs.length) (Slot.raw : Slot α)
      = List.replicate (n - xs.length) Slot.raw ++ List.replicate (max c n - n) Slot.raw := by
    rw [← List.replicate_add]
    congr 1
    omega
  have hv := uninitialized_value_construct_n_mid tr (List.replicate (n - xs.length) Slot.raw)
    (xs.map Slot.obj) (List.replicate (max c n - n) Slot.raw) xs.length (n - xs.length)
    (by simp) (by simp)
  simp only [List.length_replicate, List.append_assoc] at hv
  have hlen : (xs ++ List.replicate (n - xs.length) tr.value_init).length = n := by
    simp only [List.length_append, List.length_replicate]
    omega
  simp only [Resize, hgt, if_true, Reserve_canon tr xs c n h hfit, bind, Except.bind]
  simp only [canon, RawMemory.GetAddress, Nat.zero_add, hsplit, hv, pure, Except.pure, hlen,
    List.map_append, List.map_replicate, List.append_assoc]

theorem Resize_canon_shrink [ElemSize α]
    (tr : Traits α) (xs : List α) (c n : Nat) (h : xs.length ≤ c)
    (hn : n ≤ xs.length) :
    Resize tr (canon xs c) n = Except.ok (canon (xs.take n) c) := by
  have hgt : ¬ (n > xs.length) := Nat.not_lt.mpr hn
  have hr : xs.length - n + (c - xs.length) = c - n := by omega
  have hd := destroy_n_mid (xs.drop n) ((xs.take n).map Slot.obj)
    (List.replicate (c - xs.length) Slot.raw) n (xs.length - n) (by simp; omega) (by simp)
  rw [← List.map_append, List.take_append_drop] at hd
  have hlen : (xs.take n).length = n := by simp; omega
  simp only [Resize, hgt, if_false, canon, RawMemory.GetAddress, Nat.zero_add, hd, bind,
    Except.bind, pure, Except.pure, hlen, List.length_drop, List.append_assoc,
    ← List.replicate_add, hr]

/-- When the block that `Resize(n)` requests is an object (`n * sizeof(T) ≤ PTRDIFF_MAX` for
`n > Capacity()`), `Resize(n)` on a `Vector` that satisfies the class invariant returns
normally with a `Vector` that satisfies the class invariant and has `Size() == n`; its first
`min(old size, n)` elements are the old ones.  When `n` exceeds the old size, the elements at
`[old size, n)` are value-initialised and the capacity is `max(old capacity, n)`; when `n` is
at most the old size, the contents are the first `n` old elements and the capacity is
unchanged. -/
theorem Resize_in_range [ElemSize α] (tr : Traits α) (v : Vector α) (n : Nat) (h : v.WF)
    (hfit : v.Capacity < n → n * ElemSize.sizeof α ≤ PTRDIFF_MAX) :
    ∃ w : Vector α, Resize tr v n = Except.ok w ∧ w.WF ∧ w.Size = n ∧
      w.toList.take (min v.Size n) = v.toList.take (min v.Size n) ∧
      (∀ i, i < min v.Size n → w.get i = v.get i) ∧
      (v.Size < n →
        w.toList = v.toList ++ List.replicate (n - v.Size) tr.value_init ∧
        (∀ i, v.Size ≤ i → i < n → w.get i = Except.ok tr.value_init) ∧
        w.Capacity = max v.Capacity n) ∧
      (n ≤ v.Size → w.toList = v.toList.take n ∧ w.Capacity = v.Capacity) := by
  have hl := length_toList v h
  have hcap : v.Size ≤ v.Capacity := h.2.1
  have hf := fits_of_WF v h
  have hv := eq_canon v h
  generalize v.toList = xs at hl hv
  generalize v.Capacity = c at hcap hv hf hfit
  subst hv
  simp only [Size_canon, Capacity_canon] at hcap ⊢
  have hwf : max c n * ElemSize.sizeof α ≤ PTRDIFF_MAX := by
    by_cases hcn : c < n
    · rw [Nat.max_eq_right (by omega)]
      exact hfit hcn
    · rw [Nat.max_eq_left (by omega)]
      exact hf
  by_cases hn : xs.length < n
  · have hlen : (xs ++ List.replicate (n - xs.length) tr.value_init).length = n := by
      simp only [List.length_append, List.length_replicate]
      omega
    have hwc : (xs ++ List.replicate (n - xs.length) tr.value_init).length ≤ max c n := by
      rw [hlen]; omega
    have hmin : min xs.length n = xs.length := by omega
    refine ⟨_, Resize_canon_grow tr xs c n hcap hn (fun hcn => fits_of_le _ (hfit hcn)),
      WF_canon _ _ hwc hwf, ?_, ?_, ?_, ?_, ?_⟩
    · rw [Size_canon, hlen]
    · rw [toList_canon, hmin, List.take_left' rfl, List.take_length]
    · intro i hi
      rw [hmin] at hi
      rw [get_canon _ _ i (by omega) hwc, get_canon xs c i hi hcap]
      simp only [List.get_eq_getElem]
      rw [List.getElem_append_left hi]
    · intro _
      refine ⟨by rw [toList_canon], ?_, rfl⟩
      intro i hi1 hi2
      rw [get_canon _ _ i (by omega) hwc]
      simp only [List.get_eq_getElem]
      rw [List.getElem_append_right hi1]
      simp
    · intro h2
      omega
  · have hle : n ≤ xs.length := by omega
    have hlen : (xs.take n).length = n := by simp; omega
    have hwc : (xs.take n).length ≤ c := by omega
    have hmin : min xs.length n = n := by omega
    refine ⟨_, Resize_canon_shrink tr xs c n hcap hle, WF_canon _ _ hwc hf, ?_, ?_, ?_, ?_, ?_⟩
    · rw [Size_canon, hlen]
    · rw [toList_canon, hmin, List.take_take, Nat.min_self]
    · intro i hi
      rw [hmin] at hi
      rw [get_canon _ _ i (by omega) hwc, get_canon xs c i (by omega) hcap]
      simp only [List.get_eq_getElem, List.getElem_take]
    · intro h2
      omega
    · intro _
      exact ⟨by rw [toList_canon], rfl⟩

/-- C12 (defect of the source): `Resize(n)` beyond the capacity goes through `Reserve(n)`, and
`RawMemory::Allocate` computes `n * sizeof(T)` in `size_t` without a check (line 60).  For
`int` (4 bytes) and `n = 2 ^ 62` the product is `2 ^ 64`, that is 0 bytes.  On the `Vector`
`[1]` the migration inside `Reserve` constructs outside the block; on an empty `Vector`,
`Reserve` returns with `capacity_ == 2 ^ 62` and a block of no slot, and `Resize` then
value-initialises element 0 outside it.  With `n = 4` the call on `[1, 2]` gives
`[1, 2, 0, 0]` with capacity 4, and shrinking `[1, 2, 3]` to `n = 1` gives `[1]` with the
capacity unchanged, as the claim says.  The defect is the one of `Reserve` (claim C8). -/
theorem Resize_overflow_defect :
    (canon [1] 1 : Vector Int).WF ∧
    size_t_mul (2 ^ 62) (ElemSize.sizeof Int) = 0 ∧
    Resize intTraits (canon [1] 1) (2 ^ 62) = Except.error Fault.undefined ∧
    Resize throwingMoveTraits (canon [1] 1) (2 ^ 62) = Except.error Fault.undefined ∧
    Reserve intTraits ctor_default (2 ^ 62)
      = Except.ok (Vector.mk (RawMemory.mk [] (2 ^ 62)) 0) ∧
    uninitialized_value_construct_n intTraits [] 0 (2 ^ 62) = Except.error Fault.undefined ∧
    Resize intTraits ctor_default (2 ^ 62) = Except.error Fault.undefined ∧
    Resize intTraits (canon [1, 2] 2) 4 = Except.ok (canon [1, 2, 0, 0] 4) ∧
    Resize intTraits (canon [1, 2, 3] 4) 1 = Except.ok (canon [1] 4) := by
  refine ⟨by decide, rfl, rfl, rfl, rfl, rfl, rfl, rfl, rfl⟩

/-! ## Scenario of the specification -/

/-- C15: the concrete scenario on integers.  Starting from an empty `Vector`, `PushBack(1)`,
`PushBack(2)`, `PushBack(3)` give size 3, capacity 4 (the capacity goes 1, 2, 4) and contents
`[1, 2, 3]`; then `Insert(begin() + 1, 9)` gives `[1, 9, 2, 3]`, size 4; then
`Erase(begin())` gives `[9, 2, 3]`, size 3; then `PopBack()` twice gives `[9]`, size 1. -/
theorem scenario :
    PushBack intTraits ctor_default 1 = Except.ok (canon [1] 1) ∧
    PushBack intTraits (canon [1] 1) 2 = Except.ok (canon [1, 2] 2) ∧
    PushBack intTraits (canon [1, 2] 2) 3 = Except.ok (canon [1, 2, 3] 4) ∧
    PushBackAll intTraits ctor_default [1, 2, 3] = Except.ok (canon [1, 2, 3] 4) ∧
    (canon [1, 2, 3] 4 : Vector Int).Size = 3 ∧ (canon [1, 2, 3] 4 : Vector Int).Capacity = 4 ∧
    (canon [1, 2, 3] 4 : Vector Int).toList = [1, 2, 3] ∧
    Insert intTraits (canon [1, 2, 3] 4) ((canon [1, 2, 3] 4 : Vector Int).begin + 1) 9
      = Except.ok (canon [1, 9, 2, 3] 4, (canon [1, 9, 2, 3] 4 : Vector Int).begin + 1) ∧
    (canon [1, 9, 2, 3] 4 : Vector Int).toList = [1, 9, 2, 3] ∧
    (canon [1, 9, 2, 3] 4 : Vector Int).Size = 4 ∧
    Erase intTraits (canon [1, 9, 2, 3] 4) (canon [1, 9, 2, 3] 4 : Vector Int).begin
      = Except.ok (canon [9, 2, 3] 4, (canon [9, 2, 3] 4 : Vector Int).begin) ∧
    (canon [9, 2, 3] 4 : Vector Int).toList = [9, 2, 3] ∧
    (canon [9, 2, 3] 4 : Vector Int).Size = 3 ∧
    PopBack (canon [9, 2, 3] 4 : Vector Int) = Except.ok (canon [9, 2] 4) ∧
    PopBack (canon [9, 2] 4 : Vector Int) = Except.ok (canon [9] 4) ∧
    (canon [9] 4 : Vector Int).toList = [9] ∧ (canon [9] 4 : Vector Int).Size = 1 := by
  refine ⟨rfl, rfl, rfl, rfl, rfl, rfl, rfl, rfl, rfl, rfl, rfl, rfl, rfl, rfl, rfl, rfl, rfl⟩

/-! ## Results of a sequence of steps -/

theorem bind_ok_inv {β δ : Type} {x : Except Fault β} {f : β → Except Fault δ} {d : δ}
    (h : (x >>= f) = Except.ok d) : ∃ b, x = Except.ok b ∧ f b = Except.ok d := by
  cases x with
  | error e => cases h
  | ok b => exact ⟨b, rfl, h⟩

theorem pure_ok_inv {β : Type} {b d : β} (h : (pure b : Except Fault β) = Except.ok d) :
    b = d := Except.ok.inj h

/-! ## Copy construction -/

theorem write_canon (xs : List α) (c i : Nat) (x : α) (hi : i < xs.length) (hc : xs.length ≤ c) :
    write (canon xs c) i x = Except.ok (canon (xs.set i x) c) := by
  have hic : i < c := by omega
  have e1 := List.take_append_drop i xs
  have e2 := List.drop_eq_getElem_cons hi
  have hA : i = ((xs.take i).map Slot.obj).length := by simp; omega
  have hb : xs.map Slot.obj ++ List.replicate (c - xs.length) Slot.raw
      = (xs.take i).map Slot.obj ++ Slot.obj xs[i] ::
          ((xs.drop (i + 1)).map Slot.obj ++ List.replicate (c - xs.length) Slot.raw) := by
    have hm : xs.map Slot.obj
        = (xs.take i).map Slot.obj ++ Slot.obj xs[i] :: (xs.drop (i + 1)).map Slot.obj := by
      rw [← List.map_cons, ← List.map_append, ← e2, e1]
    rw [hm]
    simp
  have hs : xs.set i x = xs.take i ++ x :: xs.drop (i + 1) := by
    rw [List.set_eq_take_append_cons_drop, if_pos hi]
  simp only [write, index, RawMemory.index, canon, hi, hic, if_true, bind, Except.bind, pure,
    Except.pure, hb, load_mid _ _ _ i hA, store_mid _ _ _ _ i hA, hs, List.length_set]
  simp
  constructor <;> omega

/-! ### Blocks of a heap -/

theorem block_some_iff (h : Heap α) (a : Nat) (b : List (Slot α)) :
    Heap.block h (some a) = Except.ok b ↔ h[a]? = some (some b) := by
  simp only [Heap.block]
  constructor
  · intro hb
    split at hb
    · rename_i b2 hq
      rw [hq, Except.ok.inj hb]
    · cases hb
  · intro hq
    simp only [hq]

theorem block_none (h : Heap α) : Heap.block h none = Except.ok [] := rfl

theorem block_lt (h : Heap α) (a : Nat) (b : List (Slot α))
    (hb : Heap.block h (some a) = Except.ok b) : a < h.length := by
  rw [block_some_iff] at hb
  obtain ⟨hlt, _⟩ := List.getElem?_eq_some_iff.mp hb
  exact hlt

theorem block_append (h l : Heap α) (q : Option Nat) (b : List (Slot α))
    (hb : Heap.block h q = Except.ok b) : Heap.block (h ++ l) q = Except.ok b := by
  cases q with
  | none => exact hb
  | some a =>
    have hlt := block_lt h a b hb
    rw [block_some_iff] at hb ⊢
    rw [List.getElem?_append_left hlt]
    exact hb

theorem block_append_new (h : Heap α) (x : List (Slot α)) :
    Heap.block (h ++ [some x]) (some h.length) = Except.ok x := by
  rw [block_some_iff, List.getElem?_append_right (Nat.le_refl _)]
  simp

theorem block_put_ne (h : Heap α) (p q : Option Nat) (b : List (Slot α)) (hne : q ≠ p) :
    Heap.block (Heap.put h p b) q = Heap.block h q := by
  cases p with
  | none => rfl
  | some a =>
    cases q with
    | none => rfl
    | some a2 =>
      have hn : a ≠ a2 := fun e => hne (by rw [e])
      simp only [Heap.block, Heap.put, List.getElem?_set_ne hn]

theorem block_put_self (h : Heap α) (a : Nat) (b : List (Slot α)) (hlt : a < h.length) :
    Heap.block (Heap.put h (some a) b) (some a) = Except.ok b := by
  rw [block_some_iff]
  simp only [Heap.put, List.getElem?_set_self hlt]

theorem block_Deallocate_ne (h : Heap α) (p q : Option Nat) (hne : q ≠ p) :
    Heap.block (RawMemory.Deallocate_at h p) q = Heap.block h q := by
  cases p with
  | none => rfl
  | some a =>
    cases q with
    | none => rfl
    | some a2 =>
      have hn : a ≠ a2 := fun e => hne (by rw [e])
      simp only [Heap.block, RawMemory.Deallocate_at, List.getElem?_set_ne hn]

theorem length_put (h : Heap α) (p : Option Nat) (b : List (Slot α)) :
    (Heap.put h p b).length = h.length := by
  cases p with
  | none => rfl
  | some a => simp only [Heap.put, List.length_set]

theorem state_at_inv (h : Heap α) (o : VectorObject) (v : Vector α)
    (hv : state_at h o = Except.ok v) :
    Heap.block h o.buffer_ = Except.ok v.data_.buffer_ ∧
      v = Vector.mk (RawMemory.mk v.data_.buffer_ o.capacity_) o.size_ := by
  simp only [state_at] at hv
  obtain ⟨b, hb, hv⟩ := bind_ok_inv hv
  have := pure_ok_inv hv
  subst this
  exact ⟨hb, rfl⟩

theorem state_at_of (h : Heap α) (o : VectorObject) (b : List (Slot α))
    (hb : Heap.block h o.buffer_ = Except.ok b) :
    state_at h o = Except.ok (Vector.mk (RawMemory.mk b o.capacity_) o.size_) := by
  simp only [state_at, hb, bind, Except.bind, pure, Except.pure]

/-- The state of an object depends on its own block only. -/
theorem state_at_frame (h h2 : Heap α) (o : VectorObject) (v : Vector α)
    (hf : ∀ b, Heap.block h o.buffer_ = Except.ok b → Heap.block h2 o.buffer_ = Except.ok b)
    (hv : state_at h o = Except.ok v) : state_at h2 o = Except.ok v := by
  obtain ⟨hb, e⟩ := state_at_inv h o v hv
  rw [e]
  exact state_at_of h2 o _ (hf _ hb)

theorem block_put_same (h : Heap α) (p : Option Nat) (b0 b : List (Slot α))
    (hb0 : Heap.block h p = Except.ok b0) (hne : b0 ≠ []) :
    Heap.block (Heap.put h p b) p = Except.ok b := by
  cases p with
  | none => exact absurd (Except.ok.inj hb0).symm hne
  | some a => exact block_put_self h a b (block_lt h a b0 hb0)

theorem ne_nil_of_load (b : List (Slot α)) (i : Nat) (y : α) (h : load b i = Except.ok y) :
    b ≠ [] := by
  intro e
  subst e
  simp [load] at h

theorem ne_nil_of_store (b b2 : List (Slot α)) (i : Nat) (s : Slot α)
    (h : store b i s = Except.ok b2) : b ≠ [] := by
  intro e
  subst e
  simp [store] at h

/-! ### The members in a heap agree with the members on states -/

theorem ctor_copy_at_spec [ElemSize α] (h : Heap α) (other : VectorObject) (v w : Vector α)
    (hv : state_at h other = Except.ok v) (hw : ctor_copy v = Except.ok w) :
    ∃ (h1 : Heap α) (o : VectorObject), ctor_copy_at h other = Except.ok (h1, o) ∧
      state_at h1 o = Except.ok w ∧
      (∀ q b, Heap.block h q = Except.ok b → Heap.block h1 q = Except.ok b) ∧
      (∀ a, o.buffer_ = some a → h.length ≤ a) := by
  obtain ⟨hb, e⟩ := state_at_inv h other v hv
  generalize v.data_.buffer_ = b at hb e
  subst e
  simp only [ctor_copy, RawMemory.ctor, RawMemory.GetAddress] at hw
  obtain ⟨dst, hdst, hw⟩ := bind_ok_inv hw
  have := pure_ok_inv hw
  subst this
  by_cases hs : other.size_ = 0
  · have hd : dst = [] := by
      rw [hs] at hdst
      simp only [RawMemory.Allocate, ne_eq, not_true_eq_false, if_false,
        uninitialized_copy_n] at hdst
      exact (Except.ok.inj hdst).symm
    subst hd
    refine ⟨h, { buffer_ := none, capacity_ := other.size_, size_ := other.size_ }, ?_, ?_,
      fun q b hq => hq, fun a ha => by cases ha⟩
    · simp only [ctor_copy_at, RawMemory.Allocate_at, hs, ne_eq, not_true_eq_false, if_false,
        hb, block_none, uninitialized_copy_n, Heap.put, bind, Except.bind, pure, Except.pure]
    · exact state_at_of h _ [] (block_none h)
  · refine ⟨h ++ [some dst],
      { buffer_ := some h.length, capacity_ := other.size_, size_ := other.size_ }, ?_, ?_,
      fun q b hq => block_append h _ q b hq, fun a ha => by cases ha; exact Nat.le_refl _⟩
    · have hput : Heap.put (h ++ [some (RawMemory.Allocate other.size_)]) (some h.length) dst
          = h ++ [some dst] := by
        simp only [Heap.put, List.set_append_right _ _ (Nat.le_refl _), Nat.sub_self,
          List.set_cons_zero]
      simp only [ctor_copy_at, RawMemory.Allocate_at, hs, ne_eq, not_false_eq_true, if_true,
        block_append h _ _ b hb, block_append_new, hdst, hput, bind, Except.bind, pure,
        Except.pure]
    · exact state_at_of _ _ dst (block_append_new h dst)

theorem write_at_spec (h : Heap α) (o : VectorObject) (v w : Vector α) (i : Nat) (x : α)
    (hv : state_at h o = Except.ok v) (hw : v.write i x = Except.ok w) :
    ∃ h2 : Heap α, write_at h o i x = Except.ok h2 ∧ state_at h2 o = Except.ok w ∧
      (∀ q b, (q = none ∨ q ≠ o.buffer_) → Heap.block h q = Except.ok b →
        Heap.block h2 q = Except.ok b) := by
  obtain ⟨hb, e⟩ := state_at_inv h o v hv
  generalize v.data_.buffer_ = b at hb e
  subst e
  simp only [write, index, RawMemory.index] at hw
  obtain ⟨r, hr, hw⟩ := bind_ok_inv hw
  obtain ⟨y, hy, hw⟩ := bind_ok_inv hw
  obtain ⟨b2, hb2, hw⟩ := bind_ok_inv hw
  have := pure_ok_inv hw
  subst this
  have hi : i < o.size_ ∧ i < o.capacity_ ∧ r = i := by
    split at hr
    · split at hr
      · exact ⟨‹_›, ‹_›, (Except.ok.inj hr).symm⟩
      · cases hr
    · cases hr
  obtain ⟨h1, h2, h3⟩ := hi
  subst h3
  refine ⟨Heap.put h o.buffer_ b2, ?_, ?_, ?_⟩
  · simp only [write_at, h1, h2, if_true, hb, hy, hb2, bind, Except.bind, pure, Except.pure]
  · exact state_at_of _ o b2 (block_put_same h _ b b2 hb (ne_nil_of_load b r y hy))
  · intro q b3 hq hb3
    rcases hq with hq | hq
    · subst hq
      exact hb3
    · rw [block_put_ne h o.buffer_ q b2 hq]
      exact hb3

theorem PopBack_at_spec (h : Heap α) (o : VectorObject) (v w : Vector α)
    (hv : state_at h o = Except.ok v) (hw : PopBack v = Except.ok w) :
    ∃ (h2 : Heap α) (o2 : VectorObject), PopBack_at h o = Except.ok (h2, o2) ∧
      state_at h2 o2 = Except.ok w ∧
      (∀ q b, (q = none ∨ q ≠ o.buffer_) → Heap.block h q = Except.ok b →
        Heap.block h2 q = Except.ok b) := by
  obtain ⟨hb, e⟩ := state_at_inv h o v hv
  generalize v.data_.buffer_ = b at hb e
  subst e
  simp only [PopBack, RawMemory.GetAddress] at hw
  split at hw
  · rename_i hpos
    obtain ⟨b2, hb2, hw⟩ := bind_ok_inv hw
    have := pure_ok_inv hw
    subst this
    refine ⟨Heap.put h o.buffer_ b2, { o with size_ := o.size_ - 1 }, ?_, ?_, ?_⟩
    · simp only [PopBack_at, hpos, if_true, hb, hb2, bind, Except.bind, pure, Except.pure]
    · simp only [destroy_at] at hb2
      obtain ⟨y, hy, _⟩ := bind_ok_inv hb2
      exact state_at_of _ { o with size_ := o.size_ - 1 } b2
        (block_put_same h _ b b2 hb (ne_nil_of_load b _ y hy))
    · intro q b3 hq hb3
      rcases hq with hq | hq
      · subst hq
        exact hb3
      · rw [block_put_ne h o.buffer_ q b2 hq]
        exact hb3
  · rename_i hpos
    have := pure_ok_inv hw
    subst this
    refine ⟨h, o, ?_, hv, fun q b3 _ hb3 => hb3⟩
    simp only [PopBack_at, hpos, if_false, pure, Except.pure]

/-- The heap after a reallocation: the new block has a new address, the old block is
released, every other block is as before. -/
theorem realloc_heap (h : Heap α) (p : Option Nat) (b A d nb : List (Slot α))
    (hb : Heap.block h p = Except.ok b) :
    Heap.block (RawMemory.Deallocate_at
        (Heap.put (Heap.put (h ++ [some A]) p d) (some h.length) nb) p) (some h.length)
      = Except.ok nb ∧
    ∀ q b2, (q = none ∨ q ≠ p) → Heap.block h q = Except.ok b2 →
      Heap.block (RawMemory.Deallocate_at
        (Heap.put (Heap.put (h ++ [some A]) p d) (some h.length) nb) p) q = Except.ok b2 := by
  have hnew : (some h.length : Option Nat) ≠ p := by
    intro e
    subst e
    exact absurd (block_lt h _ b hb) (Nat.lt_irrefl _)
  constructor
  · rw [block_Deallocate_ne _ p _ hnew]
    exact block_put_self _ _ nb (by rw [length_put]; simp)
  · intro q b2 hq hb2
    rcases hq with hq | hq
    · subst hq
      exact hb2
    · cases q with
      | none => exact hb2
      | some a2 =>
        have hlt := block_lt h a2 b2 hb2
        have hne2 : (some a2 : Option Nat) ≠ some h.length := by
          intro e
          cases e
          exact absurd hlt (Nat.lt_irrefl _)
        rw [block_Deallocate_ne _ p _ hq, block_put_ne _ _ _ nb hne2,
          block_put_ne _ p _ d hq]
        exact block_append h _ _ b2 hb2

theorem EmplaceBack_at_spec [ElemSize α]
    (tr : Traits α) (h : Heap α) (o : VectorObject) (v w : Vector α)
    (x : α) (r : Nat) (hv : state_at h o = Except.ok v)
    (hw : EmplaceBack tr v x = Except.ok (w, r)) :
    ∃ (h2 : Heap α) (o2 : VectorObject), EmplaceBack_at tr h o x = Except.ok (h2, o2, r) ∧
      state_at h2 o2 = Except.ok w ∧
      (∀ q b, (q = none ∨ q ≠ o.buffer_) → Heap.block h q = Except.ok b →
        Heap.block h2 q = Except.ok b) := by
  obtain ⟨hb, e⟩ := state_at_inv h o v hv
  generalize v.data_.buffer_ = b at hb e
  subst e
  have hn : (if o.size_ = 0 then 1 else o.size_ * 2) ≠ 0 := by split <;> omega
  simp only [EmplaceBack, RawMemory.Capacity, RawMemory.GetAddress, RawMemory.ctor,
    RawMemory.index] at hw
  split at hw
  · rename_i hc
    obtain ⟨nb, hnb, hw⟩ := bind_ok_inv hw
    split at hw
    · rename_i hpol
      obtain ⟨q, hq, hw⟩ := bind_ok_inv hw
      obtain ⟨d, hd, hw⟩ := bind_ok_inv hw
      obtain ⟨u, hu, hw⟩ := bind_ok_inv hw
      have := pure_ok_inv hu
      subst this
      obtain ⟨r2, hr2, hw⟩ := bind_ok_inv hw
      obtain ⟨e1, e2⟩ := Prod.mk.inj (pure_ok_inv hw)
      subst e1
      subst e2
      have hr : size_t_sub (o.size_ + 1) 1 < (if o.size_ = 0 then 1 else o.size_ * 2) ∧
          r2 = size_t_sub (o.size_ + 1) 1 := by
        have hr5 : (if size_t_sub (o.size_ + 1) 1 < (if o.size_ = 0 then 1 else o.size_ * 2)
            then Except.ok (size_t_sub (o.size_ + 1) 1) else Except.error Fault.assertion)
            = Except.ok r2 := hr2
        by_cases hcnd : size_t_sub (o.size_ + 1) 1 < (if o.size_ = 0 then 1 else o.size_ * 2)
        · rw [if_pos hcnd] at hr5
          exact ⟨hcnd, (Except.ok.inj hr5).symm⟩
        · rw [if_neg hcnd] at hr5
          cases hr5
      obtain ⟨hr3, hr4⟩ := hr
      subst hr4
      obtain ⟨g1, g2⟩ := realloc_heap h o.buffer_ b
        (RawMemory.Allocate (if o.size_ = 0 then 1 else o.size_ * 2)) d q.2 hb
      refine ⟨_, VectorObject.mk (some h.length) (if o.size_ = 0 then 1 else o.size_ * 2)
        (o.size_ + 1), ?_, state_at_of _ _ _ g1, g2⟩
      simp only [EmplaceBack_at, RawMemory.Allocate_at, hc, if_true, hn, ne_eq,
        not_false_eq_true, block_append_new, hnb, block_append h _ _ b hb, hpol, hq, hd, hr3,
        bind, Except.bind, pure, Except.pure]
    · rename_i hpol
      have hpol2 : tr.move_if_safe = false := by simpa using hpol
      obtain ⟨nb2, hnb2, hw⟩ := bind_ok_inv hw
      obtain ⟨q, hq, hw⟩ := bind_ok_inv hw
      have := pure_ok_inv hq
      subst this
      obtain ⟨d, hd, hw⟩ := bind_ok_inv hw
      obtain ⟨u, hu, hw⟩ := bind_ok_inv hw
      have := pure_ok_inv hu
      subst this
      obtain ⟨r2, hr2, hw⟩ := bind_ok_inv hw
      obtain ⟨e1, e2⟩ := Prod.mk.inj (pure_ok_inv hw)
      subst e1
      subst e2
      have hr : size_t_sub (o.size_ + 1) 1 < (if o.size_ = 0 then 1 else o.size_ * 2) ∧
          r2 = size_t_sub (o.size_ + 1) 1 := by
        have hr5 : (if size_t_sub (o.size_ + 1) 1 < (if o.size_ = 0 then 1 else o.size_ * 2)
            then Except.ok (size_t_sub (o.size_ + 1) 1) else Except.error Fault.assertion)
            = Except.ok r2 := hr2
        by_cases hcnd : size_t_sub (o.size_ + 1) 1 < (if o.size_ = 0 then 1 else o.size_ * 2)
        · rw [if_pos hcnd] at hr5
          exact ⟨hcnd, (Except.ok.inj hr5).symm⟩
        · rw [if_neg hcnd] at hr5
          cases hr5
      obtain ⟨hr3, hr4⟩ := hr
      subst hr4
      obtain ⟨g1, g2⟩ := realloc_heap h o.buffer_ b
        (RawMemory.Allocate (if o.size_ = 0 then 1 else o.size_ * 2)) d nb2 hb
      refine ⟨_, VectorObject.mk (some h.length) (if o.size_ = 0 then 1 else o.size_ * 2)
        (o.size_ + 1), ?_, state_at_of _ _ _ g1, g2⟩
      simp only [EmplaceBack_at, RawMemory.Allocate_at, hc, if_true, hn, ne_eq,
        not_false_eq_true, block_append_new, hnb, block_append h _ _ b hb, hpol2,
        Bool.false_eq_true, if_false, hnb2, hd, hr3, bind, Except.bind, pure, Except.pure]
  · rename_i hc
    obtain ⟨b2, hb2, hw⟩ := bind_ok_inv hw
    obtain ⟨u, hu, hw⟩ := bind_ok_inv hw
    have := pure_ok_inv hu
    subst this
    obtain ⟨r2, hr2, hw⟩ := bind_ok_inv hw
    obtain ⟨e1, e2⟩ := Prod.mk.inj (pure_ok_inv hw)
    subst e1
    subst e2
    have hr : size_t_sub (o.size_ + 1) 1 < o.capacity_ ∧ r2 = size_t_sub (o.size_ + 1) 1 := by
      split at hr2
      · rename_i hcnd
        exact ⟨hcnd, (Except.ok.inj hr2).symm⟩
      · cases hr2
    obtain ⟨hr3, hr4⟩ := hr
    subst hr4
    refine ⟨Heap.put h o.buffer_ b2, VectorObject.mk o.buffer_ o.capacity_ (o.size_ + 1), ?_,
      state_at_of _ _ _ (block_put_same h _ b b2 hb (ne_nil_of_store b b2 _ _ hb2)), ?_⟩
    · simp only [EmplaceBack_at, hc, if_false, hb, hb2, hr3, if_true, bind, Except.bind, pure,
        Except.pure]
    · intro q b3 hq hb3
      rcases hq with hq | hq
      · subst hq
        exact hb3
      · rw [block_put_ne h o.buffer_ q b2 hq]
        exact hb3

theorem PushBack_at_spec [ElemSize α]
    (tr : Traits α) (h : Heap α) (o : VectorObject) (v w : Vector α)
    (x : α) (hv : state_at h o = Except.ok v) (hw : PushBack tr v x = Except.ok w) :
    ∃ (h2 : Heap α) (o2 : VectorObject), PushBack_at tr h o x = Except.ok (h2, o2) ∧
      state_at h2 o2 = Except.ok w ∧
      (∀ q b, (q = none ∨ q ≠ o.buffer_) → Heap.block h q = Except.ok b →
        Heap.block h2 q = Except.ok b) := by
  simp only [PushBack] at hw
  obtain ⟨p, hp, hw⟩ := bind_ok_inv hw
  have := pure_ok_inv hw
  subst this
  obtain ⟨h2, o2, g1, g2, g3⟩ := EmplaceBack_at_spec tr h o v p.1 x p.2 hv hp
  exact ⟨h2, o2, by simp only [PushBack_at, g1, bind, Except.bind, pure, Except.pure], g2, g3⟩

/-- C11: for a `Vector` object `other` in a heap whose state `v` satisfies the class
invariant, copy construction returns normally with a new object `w`; its state `c` is the
result of the copy constructor on states, satisfies the class invariant, has size
`other.Size()`, capacity `other.Size()` (not `other.Capacity()`) and the elements of `other`
index by index; `other` has the state `v` afterwards as before.  The block of `w` is one that
`operator new` handed out for it, so `w` never holds the address that `other` holds, and a
later mutation of one of the two objects leaves the state of the other one (size, capacity
and the contents of its block) as it was: `PushBack`, `PopBack` and a write through
`operator[]` applied to the copy give the contents of `other` with that one change while
`other` keeps the state `v`, and the same mutations applied to `other` leave the copy with
the state `c`. -/
theorem ctor_copy_spec [ElemSize α]
    (tr : Traits α) (h : Heap α) (other : VectorObject) (v : Vector α)
    (hv : state_at h other = Except.ok v) (hwf : v.WF) :
    ∃ (h1 : Heap α) (w : VectorObject) (c : Vector α),
      ctor_copy_at h other = Except.ok (h1, w) ∧ state_at h1 w = Except.ok c ∧
      ctor_copy v = Except.ok c ∧ c.WF ∧ c.Size = v.Size ∧ c.Capacity = v.Size ∧
      c.toList = v.toList ∧ (∀ i, c.get i = v.get i) ∧
      state_at h1 other = Except.ok v ∧
      (∀ a, w.buffer_ = some a → other.buffer_ ≠ some a) ∧
      (∀ x, ∃ (h2 : Heap α) (w2 : VectorObject) (c2 : Vector α),
        PushBack_at tr h1 w x = Except.ok (h2, w2) ∧ state_at h2 w2 = Except.ok c2 ∧
        c2.toList = v.toList ++ [x] ∧ state_at h2 other = Except.ok v) ∧
      (∃ (h2 : Heap α) (w2 : VectorObject) (c2 : Vector α),
        PopBack_at h1 w = Except.ok (h2, w2) ∧ state_at h2 w2 = Except.ok c2 ∧
        c2.toList = v.toList.dropLast ∧ state_at h2 other = Except.ok v) ∧
      (∀ i x, i < v.Size → ∃ (h2 : Heap α) (c2 : Vector α),
        write_at h1 w i x = Except.ok h2 ∧ state_at h2 w = Except.ok c2 ∧
        c2.toList = v.toList.set i x ∧ state_at h2 other = Except.ok v) ∧
      (∀ x, ∃ (h2 : Heap α) (o2 : VectorObject) (v2 : Vector α),
        PushBack_at tr h1 other x = Except.ok (h2, o2) ∧ state_at h2 o2 = Except.ok v2 ∧
        v2.toList = v.toList ++ [x] ∧ state_at h2 w = Except.ok c) ∧
      (∃ (h2 : Heap α) (o2 : VectorObject) (v2 : Vector α),
        PopBack_at h1 other = Except.ok (h2, o2) ∧ state_at h2 o2 = Except.ok v2 ∧
        v2.toList = v.toList.dropLast ∧ state_at h2 w = Except.ok c) ∧
      (∀ i x, i < v.Size → ∃ (h2 : Heap α) (v2 : Vector α),
        write_at h1 other i x = Except.ok h2 ∧ state_at h2 other = Except.ok v2 ∧
        v2.toList = v.toList.set i x ∧ state_at h2 w = Except.ok c) := by
  have hl := length_toList v hwf
  have hcap : v.Size ≤ v.Capacity := hwf.2.1
  have hf := fits_of_WF v hwf
  have hveq := eq_canon v hwf
  generalize v.toList = xs at hl hveq
  generalize v.Capacity = cv at hcap hveq hf
  subst hveq
  simp only [Size_canon] at hcap ⊢
  have hfx : xs.length * ElemSize.sizeof α ≤ PTRDIFF_MAX := fits_mono hcap hf
  have hgrow := grow_fits xs.length hfx
  have hcc : ctor_copy (canon xs cv) = Except.ok (canon xs xs.length) :=
    ctor_copy_canon xs cv (fits_of_le _ hfx)
  obtain ⟨h1, w, k1, k2, k3, k4⟩ := ctor_copy_at_spec h other _ _ hv hcc
  have hvo : state_at h1 other = Except.ok (canon xs cv) :=
    state_at_frame h h1 other _ (fun b hb => k3 _ b hb) hv
  obtain ⟨hbo, _⟩ := state_at_inv h other _ hv
  have hdist : ∀ a, w.buffer_ = some a → other.buffer_ ≠ some a := by
    intro a ha ho
    rw [ho] at hbo
    exact absurd (block_lt h a _ hbo) (Nat.not_lt.mpr (k4 a ha))
  have hqo : other.buffer_ = none ∨ other.buffer_ ≠ w.buffer_ := by
    cases ho : other.buffer_ with
    | none => exact Or.inl rfl
    | some a =>
      right
      intro e
      exact hdist a e.symm ho
  have hqw : w.buffer_ = none ∨ w.buffer_ ≠ other.buffer_ := by
    cases hw : w.buffer_ with
    | none => exact Or.inl rfl
    | some a =>
      right
      intro e
      exact hdist a hw e.symm
  have pop : ∀ d, xs.length ≤ d →
      ∃ w2, PopBack (canon xs d) = Except.ok w2 ∧ w2.toList = xs.dropLast := by
    intro d hd
    rcases List.eq_nil_or_concat xs with hx | ⟨ys, t, hx⟩
    · subst hx
      exact ⟨_, PopBack_canon_nil d, by simp [toList_canon]⟩
    · rw [List.concat_eq_append] at hx
      subst hx
      exact ⟨_, PopBack_canon ys t d hd, by simp [toList_canon]⟩
  refine ⟨h1, w, canon xs xs.length, k1, k2, hcc, WF_canon _ _ (Nat.le_refl _) hfx, rfl, rfl,
    by simp only [toList_canon], fun i => get_canon_eq xs cv _ i hcap (Nat.le_refl _), hvo,
    hdist, ?_, ?_, ?_, ?_, ?_, ?_⟩
  · intro x
    obtain ⟨h2, w2, g1, g2, g3⟩ := PushBack_at_spec tr h1 w _ _ x k2
      (PushBack_canon tr xs _ x (Nat.le_refl _) hgrow)
    exact ⟨h2, w2, _, g1, g2, by simp only [toList_canon],
      state_at_frame h1 h2 other _ (fun b hb => g3 _ b hqo hb) hvo⟩
  · obtain ⟨c2, p1, p2⟩ := pop xs.length (Nat.le_refl _)
    obtain ⟨h2, w2, g1, g2, g3⟩ := PopBack_at_spec h1 w _ c2 k2 p1
    exact ⟨h2, w2, c2, g1, g2, by simpa only [toList_canon] using p2,
      state_at_frame h1 h2 other _ (fun b hb => g3 _ b hqo hb) hvo⟩
  · intro i x hi
    obtain ⟨h2, g1, g2, g3⟩ := write_at_spec h1 w _ _ i x k2
      (write_canon xs _ i x hi (Nat.le_refl _))
    exact ⟨h2, _, g1, g2, by simp only [toList_canon],
      state_at_frame h1 h2 other _ (fun b hb => g3 _ b hqo hb) hvo⟩
  · intro x
    obtain ⟨h2, o2, g1, g2, g3⟩ := PushBack_at_spec tr h1 other _ _ x hvo
      (PushBack_canon tr xs cv x hcap hgrow)
    exact ⟨h2, o2, _, g1, g2, by simp only [toList_canon],
      state_at_frame h1 h2 w _ (fun b hb => g3 _ b hqw hb) k2⟩
  · obtain ⟨v2, p1, p2⟩ := pop cv hcap
    obtain ⟨h2, o2, g1, g2, g3⟩ := PopBack_at_spec h1 other _ v2 hvo p1
    exact ⟨h2, o2, v2, g1, g2, by simpa only [toList_canon] using p2,
      state_at_frame h1 h2 w _ (fun b hb => g3 _ b hqw hb) k2⟩
  · intro i x hi
    obtain ⟨h2, g1, g2, g3⟩ := write_at_spec h1 other _ _ i x hvo
      (write_canon xs cv i x hi hcap)
    exact ⟨h2, _, g1, g2, by simp only [toList_canon],
      state_at_frame h1 h2 w _ (fun b hb => g3 _ b hqw hb) k2⟩

/-- Witness of `ctor_copy_spec`: copying the object with the elements `[1, 2, 3]` and
capacity 4 whose block is at address 0. -/
theorem ctor_copy_spec_witness :
    state_at [some [Slot.obj 1, Slot.obj 2, Slot.obj 3, Slot.raw]] (VectorObject.mk (some 0) 4 3)
      = Except.ok (canon [1, 2, 3] 4 : Vector Int) ∧
    (canon [1, 2, 3] 4 : Vector Int).WF ∧
    ∃ (h1 : Heap Int) (w : VectorObject) (c : Vector Int),
      ctor_copy_at [some [Slot.obj 1, Slot.obj 2, Slot.obj 3, Slot.raw]]
        (VectorObject.mk (some 0) 4 3) = Except.ok (h1, w) ∧
      state_at h1 w = Except.ok c ∧
      ctor_copy (canon [1, 2, 3] 4 : Vector Int) = Except.ok c ∧ c.WF ∧
      c.Size = (canon [1, 2, 3] 4 : Vector Int).Size ∧
      c.Capacity = (canon [1, 2, 3] 4 : Vector Int).Size ∧
      c.toList = (canon [1, 2, 3] 4 : Vector Int).toList ∧
      (∀ i, c.get i = (canon [1, 2, 3] 4 : Vector Int).get i) ∧
      state_at h1 (VectorObject.mk (some 0) 4 3) = Except.ok (canon [1, 2, 3] 4 : Vector Int) ∧
      (∀ a, w.buffer_ = some a → (VectorObject.mk (some 0) 4 3).buffer_ ≠ some a) ∧
      (∀ x, ∃ (h2 : Heap Int) (w2 : VectorObject) (c2 : Vector Int),
        PushBack_at intTraits h1 w x = Except.ok (h2, w2) ∧ state_at h2 w2 = Except.ok c2 ∧
        c2.toList = (canon [1, 2, 3] 4 : Vector Int).toList ++ [x] ∧
        state_at h2 (VectorObject.mk (some 0) 4 3)
          = Except.ok (canon [1, 2, 3] 4 : Vector Int)) ∧
      (∃ (h2 : Heap Int) (w2 : VectorObject) (c2 : Vector Int),
        PopBack_at h1 w = Except.ok (h2, w2) ∧ state_at h2 w2 = Except.ok c2 ∧
        c2.toList = (canon [1, 2, 3] 4 : Vector Int).toList.dropLast ∧
        state_at h2 (VectorObject.mk (some 0) 4 3)
          = Except.ok (canon [1, 2, 3] 4 : Vector Int)) ∧
      (∀ i x, i < (canon [1, 2, 3] 4 : Vector Int).Size → ∃ (h2 : Heap Int) (c2 : Vector Int),
        write_at h1 w i x = Except.ok h2 ∧ state_at h2 w = Except.ok c2 ∧
        c2.toList = (canon [1, 2, 3] 4 : Vector Int).toList.set i x ∧
        state_at h2 (VectorObject.mk (some 0) 4 3)
          = Except.ok (canon [1, 2, 3] 4 : Vector Int)) ∧
      (∀ x, ∃ (h2 : Heap Int) (o2 : VectorObject) (v2 : Vector Int),
        PushBack_at intTraits h1 (VectorObject.mk (some 0) 4 3) x = Except.ok (h2, o2) ∧
        state_at h2 o2 = Except.ok v2 ∧
        v2.toList = (canon [1, 2, 3] 4 : Vector Int).toList ++ [x] ∧
        state_at h2 w = Except.ok c) ∧
      (∃ (h2 : Heap Int) (o2 : VectorObject) (v2 : Vector Int),
        PopBack_at h1 (VectorObject.mk (some 0) 4 3) = Except.ok (h2, o2) ∧
        state_at h2 o2 = Except.ok v2 ∧
        v2.toList = (canon [1, 2, 3] 4 : Vector Int).toList.dropLast ∧
        state_at h2 w = Except.ok c) ∧
      (∀ i x, i < (canon [1, 2, 3] 4 : Vector Int).Size → ∃ (h2 : Heap Int) (v2 : Vector Int),
        write_at h1 (VectorObject.mk (some 0) 4 3) i x = Except.ok h2 ∧
        state_at h2 (VectorObject.mk (some 0) 4 3) = Except.ok v2 ∧
        v2.toList = (canon [1, 2, 3] 4 : Vector Int).toList.set i x ∧
        state_at h2 w = Except.ok c) :=
  ⟨rfl, by decide,
    ctor_copy_spec intTraits [some [Slot.obj 1, Slot.obj 2, Slot.obj 3, Slot.raw]]
      (VectorObject.mk (some 0) 4 3) (canon [1, 2, 3] 4) rfl (by decide)⟩

/-- The copy of `[1, 2, 3]` (capacity 4, block at address 0) evaluated: the copy has its block
at address 1, and a write through the copy, a `PushBack` on the copy and a `PopBack` on the
original each change the block of that object only.  By contrast an object that holds the
pointer of `other`, as a member-wise copy of the three fields would, is not independent:
a write through it changes the state of `other`. -/
theorem ctor_copy_at_example :
    ctor_copy_at [some [Slot.obj (1 : Int), Slot.obj 2, Slot.obj 3, Slot.raw]]
        (VectorObject.mk (some 0) 4 3)
      = Except.ok ([some [Slot.obj 1, Slot.obj 2, Slot.obj 3, Slot.raw],
          some [Slot.obj 1, Slot.obj 2, Slot.obj 3]], VectorObject.mk (some 1) 3 3) ∧
    write_at [some [Slot.obj (1 : Int), Slot.obj 2, Slot.obj 3, Slot.raw],
        some [Slot.obj 1, Slot.obj 2, Slot.obj 3]] (VectorObject.mk (some 1) 3 3) 0 9
      = Except.ok [some [Slot.obj 1, Slot.obj 2, Slot.obj 3, Slot.raw],
          some [Slot.obj 9, Slot.obj 2, Slot.obj 3]] ∧
    PushBack_at intTraits [some [Slot.obj (1 : Int), Slot.obj 2, Slot.obj 3, Slot.raw],
        some [Slot.obj 1, Slot.obj 2, Slot.obj 3]] (VectorObject.mk (some 1) 3 3) 7
      = Except.ok ([some [Slot.obj 1, Slot.obj 2, Slot.obj 3, Slot.raw], none,
          some [Slot.obj 1, Slot.obj 2, Slot.obj 3, Slot.obj 7, Slot.raw, Slot.raw]],
          VectorObject.mk (some 2) 6 4) ∧
    PopBack_at [some [Slot.obj (1 : Int), Slot.obj 2, Slot.obj 3, Slot.raw],
        some [Slot.obj 1, Slot.obj 2, Slot.obj 3]] (VectorObject.mk (some 0) 4 3)
      = Except.ok ([some [Slot.obj 1, Slot.obj 2, Slot.raw, Slot.raw],
          some [Slot.obj 1, Slot.obj 2, Slot.obj 3]], VectorObject.mk (some 0) 4 2) ∧
    write_at [some [Slot.obj (1 : Int), Slot.obj 2, Slot.obj 3, Slot.raw]]
        (VectorObject.mk (some 0) 4 3) 0 9
      = Except.ok [some [Slot.obj 9, Slot.obj 2, Slot.obj 3, Slot.raw]] ∧
    state_at [some [Slot.obj (9 : Int), Slot.obj 2, Slot.obj 3, Slot.raw]]
        (VectorObject.mk (some 0) 4 3)
      = Except.ok (canon [9, 2, 3] 4) ∧
    (canon [9, 2, 3] 4 : Vector Int) ≠ canon [1, 2, 3] 4 := by
  refine ⟨rfl, rfl, rfl, rfl, rfl, rfl, by decide⟩

/-! ## The invariant `Size() <= Capacity()` -/

theorem Reserve_counts [ElemSize α] (tr : Traits α) (v w : Vector α) (k : Nat)
    (h : Reserve tr v k = Except.ok w) :
    w.size_ = v.size_ ∧ w.data_.capacity_ = max v.data_.capacity_ k := by
  simp only [Reserve, RawMemory.Capacity] at h
  split at h
  · rename_i hk
    have := pure_ok_inv h
    subst this
    exact ⟨rfl, by omega⟩
  · rename_i hk
    split at h
    · obtain ⟨_, _, h⟩ := bind_ok_inv h
      obtain ⟨_, _, h⟩ := bind_ok_inv h
      have := pure_ok_inv h
      subst this
      exact ⟨rfl, by simp only [RawMemory.ctor]; omega⟩
    · obtain ⟨_, _, h⟩ := bind_ok_inv h
      obtain ⟨_, _, h⟩ := bind_ok_inv h
      obtain ⟨_, _, h⟩ := bind_ok_inv h
      have := pure_ok_inv h
      subst this
      exact ⟨rfl, by simp only [RawMemory.ctor]; omega⟩

theorem Resize_counts [ElemSize α] (tr : Traits α) (v w : Vector α) (n : Nat)
    (h : Resize tr v n = Except.ok w) :
    w.size_ = n ∧ w.data_.capacity_ = (if n > v.size_ then max v.data_.capacity_ n
      else v.data_.capacity_) := by
  simp only [Resize] at h
  split at h
  · rename_i hn
    obtain ⟨u, hu, h⟩ := bind_ok_inv h
    obtain ⟨_, _, h⟩ := bind_ok_inv h
    have := pure_ok_inv h
    subst this
    exact ⟨rfl, by simp only [hn, if_true]; exact (Reserve_counts tr v u n hu).2⟩
  · rename_i hn
    obtain ⟨_, _, h⟩ := bind_ok_inv h
    have := pure_ok_inv h
    subst this
    exact ⟨rfl, by simp only [hn, if_false]⟩

theorem EmplaceBack_counts [ElemSize α] (tr : Traits α) (v w : Vector α) (x : α) (r : Nat)
    (h : EmplaceBack tr v x = Except.ok (w, r)) :
    w.size_ = v.size_ + 1 ∧ w.data_.capacity_ = (if v.data_.capacity_ ≤ v.size_
      then (if v.size_ = 0 then 1 else v.size_ * 2) else v.data_.capacity_) := by
  simp only [EmplaceBack, RawMemory.Capacity] at h
  split at h
  · rename_i hc
    obtain ⟨_, _, h⟩ := bind_ok_inv h
    split at h
    · obtain ⟨_, _, h⟩ := bind_ok_inv h
      obtain ⟨_, _, h⟩ := bind_ok_inv h
      obtain ⟨_, hy, h⟩ := bind_ok_inv h
      have := pure_ok_inv hy
      subst this
      obtain ⟨_, _, h⟩ := bind_ok_inv h
      have := (Prod.mk.inj (pure_ok_inv h)).1
      subst this
      exact ⟨rfl, by simp only [hc, if_true, RawMemory.ctor]⟩
    · obtain ⟨_, _, h⟩ := bind_ok_inv h
      obtain ⟨_, _, h⟩ := bind_ok_inv h
      obtain ⟨_, _, h⟩ := bind_ok_inv h
      obtain ⟨_, hy, h⟩ := bind_ok_inv h
      have := pure_ok_inv hy
      subst this
      obtain ⟨_, _, h⟩ := bind_ok_inv h
      have := (Prod.mk.inj (pure_ok_inv h)).1
      subst this
      exact ⟨rfl, by simp only [hc, if_true, RawMemory.ctor]⟩
  · rename_i hc
    obtain ⟨_, _, h⟩ := bind_ok_inv h
    obtain ⟨_, hy, h⟩ := bind_ok_inv h
    have := pure_ok_inv hy
    subst this
    obtain ⟨_, _, h⟩ := bind_ok_inv h
    have := (Prod.mk.inj (pure_ok_inv h)).1
    subst this
    exact ⟨rfl, by simp only [hc, if_false]⟩

theorem PopBack_counts (v w : Vector α) (h : PopBack v = Except.ok w) :
    w.size_ = v.size_ - 1 ∧ w.data_.capacity_ = v.data_.capacity_ := by
  simp only [PopBack] at h
  split at h
  · obtain ⟨_, _, h⟩ := bind_ok_inv h
    have := pure_ok_inv h
    subst this
    exact ⟨rfl, rfl⟩
  · rename_i hs
    have := pure_ok_inv h
    subst this
    exact ⟨by omega, rfl⟩

theorem throw_ok_inv {β δ : Type} {f : Fault} {g : β → Except Fault δ} {d : δ}
    (h : ((throw f : Except Fault β) >>= g) = Except.ok d) : False := by
  cases h

theorem Emplace_counts [ElemSize α] (tr : Traits α) (v w : Vector α) (pos : Nat) (x : α) (r : Nat)
    (h : Emplace tr v pos x = Except.ok (w, r)) :
    pos ≤ v.size_ ∧ w.size_ = v.size_ + 1 ∧ w.data_.capacity_ = (if v.size_ = v.data_.capacity_
      then (if v.size_ = 0 then 1 else v.size_ * 2) else v.data_.capacity_) := by
  simp only [Emplace, Capacity, RawMemory.Capacity, begin, end_, cbegin, RawMemory.GetAddress,
    Nat.zero_add, Nat.sub_zero, ge_iff_le, Nat.zero_le, true_and] at h
  split at h
  · exact (throw_ok_inv h).elim
  · rename_i hpos
    have hp : pos ≤ v.size_ := by omega
    obtain ⟨_, _, h⟩ := bind_ok_inv h
    split at h
    · rename_i hc
      obtain ⟨_, _, h⟩ := bind_ok_inv h
      split at h
      · obtain ⟨_, _, h⟩ := bind_ok_inv h
        obtain ⟨_, _, h⟩ := bind_ok_inv h
        obtain ⟨_, _, h⟩ := bind_ok_inv h
        obtain ⟨_, hy, h⟩ := bind_ok_inv h
        have := pure_ok_inv hy
        subst this
        have := (Prod.mk.inj (pure_ok_inv h)).1
        subst this
        exact ⟨hp, rfl, by simp only [hc, if_true, RawMemory.ctor]⟩
      · obtain ⟨_, hy, h⟩ := bind_ok_inv h
        have := pure_ok_inv hy
        subst this
        obtain ⟨_, _, h⟩ := bind_ok_inv h
        obtain ⟨_, hy, h⟩ := bind_ok_inv h
        have := pure_ok_inv hy
        subst this
        have := (Prod.mk.inj (pure_ok_inv h)).1
        subst this
        exact ⟨hp, rfl, by simp only [hc, if_true, RawMemory.ctor]⟩
    · rename_i hc
      obtain ⟨_, _, h⟩ := bind_ok_inv h
      obtain ⟨_, _, h⟩ := bind_ok_inv h
      obtain ⟨_, _, h⟩ := bind_ok_inv h
      obtain ⟨_, _, h⟩ := bind_ok_inv h
      obtain ⟨_, _, h⟩ := bind_ok_inv h
      obtain ⟨_, _, h⟩ := bind_ok_inv h
      obtain ⟨_, hy, h⟩ := bind_ok_inv h
      have := pure_ok_inv hy
      subst this
      have := (Prod.mk.inj (pure_ok_inv h)).1
      subst this
      exact ⟨hp, rfl, by simp only [hc, if_false]⟩

theorem Erase_counts (tr : Traits α) (v w : Vector α) (pos : Nat) (r : Nat)
    (h : Erase tr v pos = Except.ok (w, r)) :
    pos < v.size_ ∧ w.size_ = v.size_ - 1 ∧ w.data_.capacity_ = v.data_.capacity_ := by
  simp only [Erase, begin, end_, cbegin, RawMemory.GetAddress,
    Nat.zero_add, Nat.sub_zero, ge_iff_le, Nat.zero_le, true_and] at h
  split at h
  · exact (throw_ok_inv h).elim
  · rename_i hpos
    have hp : pos < v.size_ := by omega
    obtain ⟨_, _, h⟩ := bind_ok_inv h
    obtain ⟨_, _, h⟩ := bind_ok_inv h
    obtain ⟨u, hu, h⟩ := bind_ok_inv h
    have := (Prod.mk.inj (pure_ok_inv h)).1
    subst this
    have hc := PopBack_counts _ _ hu
    exact ⟨hp, hc.1, hc.2⟩

theorem ctor_size_counts [ElemSize α] (tr : Traits α) (n : Nat) (w : Vector α)
    (h : ctor_size tr n = Except.ok w) : w.size_ = n ∧ w.data_.capacity_ = n := by
  simp only [ctor_size] at h
  obtain ⟨_, _, h⟩ := bind_ok_inv h
  have := pure_ok_inv h
  subst this
  exact ⟨rfl, rfl⟩

theorem ctor_copy_counts [ElemSize α] (o w : Vector α) (h : ctor_copy o = Except.ok w) :
    w.size_ = o.size_ ∧ w.data_.capacity_ = o.size_ := by
  simp only [ctor_copy] at h
  obtain ⟨_, _, h⟩ := bind_ok_inv h
  have := pure_ok_inv h
  subst this
  exact ⟨rfl, rfl⟩

theorem Assign_counts (a rhs w : Vector α) (h : Assign a rhs = Except.ok w) :
    w.size_ = rhs.size_ ∧ w.data_.capacity_ = a.data_.capacity_ := by
  simp only [Assign] at h
  obtain ⟨_, _, h⟩ := bind_ok_inv h
  split at h
  · obtain ⟨_, _, h⟩ := bind_ok_inv h
    have := pure_ok_inv h
    subst this
    exact ⟨rfl, rfl⟩
  · obtain ⟨_, _, h⟩ := bind_ok_inv h
    have := pure_ok_inv h
    subst this
    exact ⟨rfl, rfl⟩

theorem assign_copy_counts [ElemSize α] (a rhs w : Vector α) (h : assign_copy a rhs = Except.ok w) :
    w.size_ = rhs.size_ ∧ w.data_.capacity_ = (if rhs.size_ > a.data_.capacity_ then rhs.size_
      else a.data_.capacity_) := by
  simp only [assign_copy, RawMemory.Capacity] at h
  split at h
  · rename_i hc
    obtain ⟨u, hu, h⟩ := bind_ok_inv h
    obtain ⟨_, _, h⟩ := bind_ok_inv h
    have := pure_ok_inv h
    subst this
    have hcc := ctor_copy_counts _ _ hu
    exact ⟨hcc.1, by simp only [hc, if_true]; exact hcc.2⟩
  · rename_i hc
    have hcc := Assign_counts _ _ _ h
    exact ⟨hcc.1, by simp only [hc, if_false]; exact hcc.2⟩

/-- C18: `Size() <= Capacity()` is an invariant of `Vector`, with sizes as natural numbers.
It holds for the result of every constructor (default, sized, copy, move), and every public
mutating operation that starts from a `Vector` with `Size() <= Capacity()` and returns
normally (so within its asserted precondition and without failure) ends in a `Vector` with
`Size() <= Capacity()`: copy and move assignment, `Swap`, `Reserve`, `Resize`, `EmplaceBack`,
`PushBack`, `PopBack`, `Emplace`, `Insert` and `Erase`.  No assumption is made on the contents
of the slots. -/
theorem Size_le_Capacity [ElemSize α] (tr : Traits α) :
    (ctor_default : Vector α).Size ≤ (ctor_default : Vector α).Capacity ∧
    (∀ (n : Nat) (w : Vector α), ctor_size tr n = Except.ok w → w.Size ≤ w.Capacity) ∧
    (∀ o w : Vector α, ctor_copy o = Except.ok w → w.Size ≤ w.Capacity) ∧
    (∀ o : Vector α, o.Size ≤ o.Capacity →
      (ctor_move o).1.Size ≤ (ctor_move o).1.Capacity ∧
      (ctor_move o).2.Size ≤ (ctor_move o).2.Capacity) ∧
    (∀ a rhs w : Vector α, a.Size ≤ a.Capacity → assign_copy a rhs = Except.ok w →
      w.Size ≤ w.Capacity) ∧
    (∀ a b : Vector α, a.Size ≤ a.Capacity → b.Size ≤ b.Capacity →
      (assign_move a b).1.Size ≤ (assign_move a b).1.Capacity ∧
      (assign_move a b).2.Size ≤ (assign_move a b).2.Capacity) ∧
    (∀ a b : Vector α, a.Size ≤ a.Capacity → b.Size ≤ b.Capacity →
      (Swap a b).1.Size ≤ (Swap a b).1.Capacity ∧ (Swap a b).2.Size ≤ (Swap a b).2.Capacity) ∧
    (∀ (v : Vector α) (k : Nat) (w : Vector α), v.Size ≤ v.Capacity →
      Reserve tr v k = Except.ok w → w.Size ≤ w.Capacity) ∧
    (∀ (v : Vector α) (n : Nat) (w : Vector α), v.Size ≤ v.Capacity →
      Resize tr v n = Except.ok w → w.Size ≤ w.Capacity) ∧
    (∀ (v : Vector α) (x : α) (w : Vector α) (r : Nat), v.Size ≤ v.Capacity →
      EmplaceBack tr v x = Except.ok (w, r) → w.Size ≤ w.Capacity) ∧
    (∀ (v : Vector α) (x : α) (w : Vector α), v.Size ≤ v.Capacity →
      PushBack tr v x = Except.ok w → w.Size ≤ w.Capacity) ∧
    (∀ v w : Vector α, v.Size ≤ v.Capacity → PopBack v = Except.ok w → w.Size ≤ w.Capacity) ∧
    (∀ (v : Vector α) (pos : Nat) (x : α) (w : Vector α) (r : Nat), v.Size ≤ v.Capacity →
      Emplace tr v pos x = Except.ok (w, r) → w.Size ≤ w.Capacity) ∧
    (∀ (v : Vector α) (pos : Nat) (x : α) (w : Vector α) (r : Nat), v.Size ≤ v.Capacity →
      Insert tr v pos x = Except.ok (w, r) → w.Size ≤ w.Capacity) ∧
    (∀ (v : Vector α) (pos : Nat) (w : Vector α) (r : Nat), v.Size ≤ v.Capacity →
      Erase tr v pos = Except.ok (w, r) → w.Size ≤ w.Capacity) := by
  have eb : ∀ (v : Vector α) (x : α) (w : Vector α) (r : Nat), v.Size ≤ v.Capacity →
      EmplaceBack tr v x = Except.ok (w, r) → w.Size ≤ w.Capacity := by
    intro v x w r hv h
    obtain ⟨h1, h2⟩ := EmplaceBack_counts tr v w x r h
    simp only [Size, Capacity, RawMemory.Capacity] at hv ⊢
    rw [h1, h2]
    split
    · split <;> omega
    · omega
  have em : ∀ (v : Vector α) (pos : Nat) (x : α) (w : Vector α) (r : Nat),
      v.Size ≤ v.Capacity → Emplace tr v pos x = Except.ok (w, r) → w.Size ≤ w.Capacity := by
    intro v pos x w r hv h
    obtain ⟨_, h1, h2⟩ := Emplace_counts tr v w pos x r h
    simp only [Size, Capacity, RawMemory.Capacity] at hv ⊢
    rw [h1, h2]
    split
    · split <;> omega
    · omega
  refine ⟨Nat.le_refl _, ?_, ?_, ?_, ?_, ?_, ?_, ?_, ?_, eb, ?_, ?_, em, em, ?_⟩
  · intro n w h
    obtain ⟨h1, h2⟩ := ctor_size_counts tr n w h
    simp only [Size, Capacity, RawMemory.Capacity, h1, h2, Nat.le_refl]
  · intro o w h
    obtain ⟨h1, h2⟩ := ctor_copy_counts o w h
    simp only [Size, Capacity, RawMemory.Capacity, h1, h2, Nat.le_refl]
  · intro o ho
    exact ⟨ho, Nat.le_refl _⟩
  · intro a rhs w ha h
    obtain ⟨h1, h2⟩ := assign_copy_counts a rhs w h
    simp only [Size, Capacity, RawMemory.Capacity] at ha ⊢
    rw [h1, h2]
    split <;> omega
  · intro a b ha hb
    exact ⟨hb, ha⟩
  · intro a b ha hb
    exact ⟨hb, ha⟩
  · intro v k w hv h
    obtain ⟨h1, h2⟩ := Reserve_counts tr v w k h
    simp only [Size, Capacity, RawMemory.Capacity] at hv ⊢
    rw [h1, h2]
    omega
  · intro v n w hv h
    obtain ⟨h1, h2⟩ := Resize_counts tr v w n h
    simp only [Size, Capacity, RawMemory.Capacity] at hv ⊢
    rw [h1, h2]
    split <;> omega
  · intro v x w hv h
    simp only [PushBack] at h
    obtain ⟨p, hp, h⟩ := bind_ok_inv h
    have := pure_ok_inv h
    subst this
    exact eb v x p.1 p.2 hv hp
  · intro v w hv h
    obtain ⟨h1, h2⟩ := PopBack_counts v w h
    simp only [Size, Capacity, RawMemory.Capacity] at hv ⊢
    rw [h1, h2]
    omega
  · intro v pos w r hv h
    obtain ⟨_, h1, h2⟩ := Erase_counts tr v w pos r h
    simp only [Size, Capacity, RawMemory.Capacity] at hv ⊢
    rw [h1, h2]
    omega

/-- Witness of `Size_le_Capacity` on integers: one instance of every part that has a
hypothesis. -/
theorem Size_le_Capacity_witness :
    (canon [0, 0, 0] 3 : Vector Int).Size ≤ (canon [0, 0, 0] 3 : Vector Int).Capacity ∧
    (canon [1, 2] 2 : Vector Int).Size ≤ (canon [1, 2] 2 : Vector Int).Capacity ∧
    ((ctor_move (canon [1, 2] 4 : Vector Int)).1.Size
        ≤ (ctor_move (canon [1, 2] 4 : Vector Int)).1.Capacity ∧
      (ctor_move (canon [1, 2] 4 : Vector Int)).2.Size
        ≤ (ctor_move (canon [1, 2] 4 : Vector Int)).2.Capacity) ∧
    (canon [4, 5, 6] 3 : Vector Int).Size ≤ (canon [4, 5, 6] 3 : Vector Int).Capacity ∧
    ((assign_move (canon [1] 1 : Vector Int) (canon [2, 3] 2)).1.Size
        ≤ (assign_move (canon [1] 1 : Vector Int) (canon [2, 3] 2)).1.Capacity ∧
      (assign_move (canon [1] 1 : Vector Int) (canon [2, 3] 2)).2.Size
        ≤ (assign_move (canon [1] 1 : Vector Int) (canon [2, 3] 2)).2.Capacity) ∧
    ((Swap (canon [1] 1 : Vector Int) (canon [2, 3] 2)).1.Size
        ≤ (Swap (canon [1] 1 : Vector Int) (canon [2, 3] 2)).1.Capacity ∧
      (Swap (canon [1] 1 : Vector Int) (canon [2, 3] 2)).2.Size
        ≤ (Swap (canon [1] 1 : Vector Int) (canon [2, 3] 2)).2.Capacity) ∧
    (canon [1, 2] 5 : Vector Int).Size ≤ (canon [1, 2] 5 : Vector Int).Capacity ∧
    (canon [1, 2, 0, 0] 4 : Vector Int).Size ≤ (canon [1, 2, 0, 0] 4 : Vector Int).Capacity ∧
    (canon [1, 5] 2 : Vector Int).Size ≤ (canon [1, 5] 2 : Vector Int).Capacity ∧
    (canon [1, 6] 2 : Vector Int).Size ≤ (canon [1, 6] 2 : Vector Int).Capacity ∧
    (canon [1, 2] 4 : Vector Int).Size ≤ (canon [1, 2] 4 : Vector Int).Capacity ∧
    (canon [1, 9, 2, 3] 4 : Vector Int).Size ≤ (canon [1, 9, 2, 3] 4 : Vector Int).Capacity ∧
    (canon [9, 1] 2 : Vector Int).Size ≤ (canon [9, 1] 2 : Vector Int).Capacity ∧
    (canon [1, 3] 4 : Vector Int).Size ≤ (canon [1, 3] 4 : Vector Int).Capacity :=
  ⟨(Size_le_Capacity intTraits).2.1 3 (canon [0, 0, 0] 3) rfl,
   (Size_le_Capacity intTraits).2.2.1 (canon [1, 2] 4) (canon [1, 2] 2) rfl,
   (Size_le_Capacity intTraits).2.2.2.1 (canon [1, 2] 4) (by decide),
   (Size_le_Capacity intTraits).2.2.2.2.1 (canon [1] 2) (canon [4, 5, 6] 4) (canon [4, 5, 6] 3)
     (by decide) rfl,
   (Size_le_Capacity intTraits).2.2.2.2.2.1 (canon [1] 1) (canon [2, 3] 2) (by decide)
     (by decide),
   (Size_le_Capacity intTraits).2.2.2.2.2.2.1 (canon [1] 1) (canon [2, 3] 2) (by decide)
     (by decide),
   (Size_le_Capacity intTraits).2.2.2.2.2.2.2.1 (canon [1, 2] 2) 5 (canon [1, 2] 5)
     (by decide) rfl,
   (Size_le_Capacity intTraits).2.2.2.2.2.2.2.2.1 (canon [1, 2] 2) 4 (canon [1, 2, 0, 0] 4)
     (by decide) rfl,
   (Size_le_Capacity intTraits).2.2.2.2.2.2.2.2.2.1 (canon [1] 1) 5 (canon [1, 5] 2) 1
     (by decide) rfl,
   (Size_le_Capacity intTraits).2.2.2.2.2.2.2.2.2.2.1 (canon [1] 1) 6 (canon [1, 6] 2)
     (by decide) rfl,
   (Size_le_Capacity intTraits).2.2.2.2.2.2.2.2.2.2.2.1 (canon [1, 2, 3] 4) (canon [1, 2] 4)
     (by decide) rfl,
   (Size_le_Capacity intTraits).2.2.2.2.2.2.2.2.2.2.2.2.1 (canon [1, 2, 3] 4) 1 9
     (canon [1, 9, 2, 3] 4) 1 (by decide) rfl,
   (Size_le_Capacity intTraits).2.2.2.2.2.2.2.2.2.2.2.2.2.1 (canon [1] 1) 0 9
     (canon [9, 1] 2) 0 (by decide) rfl,
   (Size_le_Capacity intTraits).2.2.2.2.2.2.2.2.2.2.2.2.2.2 (canon [1, 2, 3] 4) 1
     (canon [1, 3] 4) 1 (by decide) rfl⟩

end Vector

/-! ## Agreement of the two descriptions when nothing raises -/

theorem lift_bind {γ β δ : Type} (x : Except Fault β) (f : β → Except Fault δ) :
    (Outcome.lift (x >>= f) : Outcome γ δ)
      = (Outcome.lift x : Outcome γ β) >>= fun b => Outcome.lift (f b) := by
  cases x <;> rfl

theorem lift_pure {γ β : Type} (b : β) :
    (Outcome.lift (pure b : Except Fault β) : Outcome γ β) = pure b := rfl

theorem lift_ite {γ β : Type} (c : Prop) [Decidable c] (x y : Except Fault β) :
    (Outcome.lift (if c then x else y) : Outcome γ β)
      = if c then Outcome.lift x else Outcome.lift y := by
  split <;> rfl

theorem unwind_lift {γ γ2 β : Type} (x : Except Fault β) (h : γ → γ2) :
    (Outcome.lift x : Outcome γ β).unwind h = Outcome.lift x := by
  cases x <;> rfl

theorem unwind_returned {γ γ2 β : Type} (b : β) (h : γ → γ2) :
    (Outcome.returned b : Outcome γ β).unwind h = pure b := rfl

theorem returned_bind {γ β δ : Type} (b : β) (f : β → Outcome γ δ) :
    ((pure b : Outcome γ β) >>= f) = f b := rfl

theorem outcome_bind_assoc {γ β δ ε : Type} (x : Outcome γ β) (f : β → Outcome γ δ)
    (g : δ → Outcome γ ε) : ((x >>= f) >>= g) = x >>= fun b => f b >>= g := by
  cases x <;> rfl

theorem fault_bind {γ β δ : Type} (e : Fault) (f : β → Outcome γ δ) :
    ((Outcome.fault e : Outcome γ β) >>= f) = Outcome.fault e := rfl

theorem lift_throw_bind {γ β δ : Type} (e : Fault) (f : β → Except Fault δ) :
    (Outcome.lift ((throw e : Except Fault β) >>= f) : Outcome γ δ) = Outcome.fault e := rfl

theorem lift_throw {γ β : Type} (e : Fault) :
    (Outcome.lift (throw e : Except Fault β) : Outcome γ β) = Outcome.fault e := rfl

theorem never_ctor : Raises.never.ctor = false := rfl

theorem ctor_try_never [ElemSize α] (n : Nat) :
    (RawMemory.ctor_try Raises.never n : Outcome Unit (RawMemory α))
      = Outcome.returned (RawMemory.ctor n) := by
  simp only [RawMemory.ctor_try, RawMemory.Allocate_try, Raises.never, RawMemory.ctor,
    RawMemory.Allocate, bind, pure, Bool.false_eq_true, if_false]
  split <;> rfl

theorem construct_at_try_never (buf : List (Slot α)) (i : Nat) (x : α) :
    construct_at_try Raises.never buf i x = Outcome.lift (construct_at buf i x) := by
  simp only [construct_at_try, Raises.never, construct_at, store, Bool.false_eq_true, if_false]
  split <;> rfl

theorem uninitialized_copy_n_try_never (src : List (Slot α)) (d_first : Nat) :
    ∀ (n first : Nat) (dst : List (Slot α)) (current : Nat),
    uninitialized_copy_n_try Raises.never src d_first first n dst current
      = Outcome.lift (uninitialized_copy_n src first n dst current) := by
  intro n
  induction n with
  | zero => intro first dst current; rfl
  | succ n ih =>
    intro first dst current
    simp only [uninitialized_copy_n_try, uninitialized_copy_n, Raises.never, Bool.false_eq_true,
      if_false, bind, Except.bind]
    cases load src first with
    | error f => rfl
    | ok x =>
      simp only []
      cases construct_at dst current x with
      | error f => rfl
      | ok dst2 => exact ih (first + 1) dst2 (current + 1)

namespace Vector

/-- When nothing raises, `EmplaceBack_try` is `EmplaceBack`. -/
theorem EmplaceBack_try_never [ElemSize α] (tr : Traits α) (v : Vector α) (x : α) :
    EmplaceBack_try Raises.never tr v x = Outcome.lift (EmplaceBack tr v x) := by
  simp only [EmplaceBack_try, EmplaceBack, ctor_try_never, construct_at_try_never,
    uninitialized_copy_n_try_never, unwind_lift, unwind_returned, lift_bind, lift_pure, lift_ite,
    returned_bind]

/-- When nothing raises, `PushBack_try` is `PushBack`. -/
theorem PushBack_try_never [ElemSize α] (tr : Traits α) (v : Vector α) (x : α) :
    PushBack_try Raises.never tr v x = Outcome.lift (PushBack tr v x) := by
  simp only [PushBack_try, PushBack, EmplaceBack_try_never, lift_bind, lift_pure]

/-- When nothing raises, `Reserve_try` is `Reserve`. -/
theorem Reserve_try_never [ElemSize α] (tr : Traits α) (v : Vector α) (k : Nat) :
    Reserve_try Raises.never tr v k = Outcome.lift (Reserve tr v k) := by
  simp only [Reserve_try, Reserve, ctor_try_never, uninitialized_copy_n_try_never, unwind_lift,
    unwind_returned, lift_bind, lift_pure, lift_ite, returned_bind]

/-- When nothing raises, `Resize_try` is `Resize`. -/
theorem Resize_try_never [ElemSize α] (tr : Traits α) (v : Vector α) (n : Nat) :
    Resize_try Raises.never tr v n = Outcome.lift (Resize tr v n) := by
  simp only [Resize_try, Resize, Reserve_try_never, lift_bind, lift_pure, lift_ite]

/-- When nothing raises, `ctor_copy_try` is `ctor_copy`. -/
theorem ctor_copy_try_never [ElemSize α] (o : Vector α) :
    ctor_copy_try Raises.never o = Outcome.lift (ctor_copy o) := by
  simp only [ctor_copy_try, ctor_copy, ctor_try_never, uninitialized_copy_n_try_never,
    unwind_lift, unwind_returned, lift_bind, lift_pure, returned_bind]

/-- When nothing raises, `assign_copy_try` is `assign_copy`. -/
theorem assign_copy_try_never [ElemSize α] (a rhs : Vector α) :
    assign_copy_try Raises.never a rhs = Outcome.lift (assign_copy a rhs) := by
  simp only [assign_copy_try, assign_copy, Assign_try, Assign, ctor_copy_try_never,
    uninitialized_copy_n_try_never, unwind_lift, unwind_returned, lift_bind, lift_pure, lift_ite,
    returned_bind]

/-- When nothing raises, `Emplace_try` is `Emplace`. -/
theorem Emplace_try_never [ElemSize α] (tr : Traits α) (v : Vector α) (pos : Nat) (x : α) :
    Emplace_try Raises.never tr v pos x = Outcome.lift (Emplace tr v pos x) := by
  simp only [Emplace_try, Emplace, ctor_try_never, construct_at_try_never, unwind_lift,
    unwind_returned, lift_bind, lift_pure, lift_ite, returned_bind, outcome_bind_assoc,
    fault_bind, lift_throw_bind, lift_throw, never_ctor, Bool.false_eq_true, if_false]

/-! ## Exceptions: what a raising operation leaves behind -/

theorem dtor_replicate_raw (n c : Nat) :
    RawMemory.dtor ({ buffer_ := List.replicate n Slot.raw, capacity_ := c } : RawMemory α)
      = [] := by
  simp only [RawMemory.dtor]
  induction n with
  | zero => rfl
  | succ n ih => simp [List.replicate_succ, Slot.val?]

/-- When `n * sizeof(T)` does not wrap, the block that `operator new` hands out has `n`
slots. -/
theorem slots_eq [ElemSize α] (n : Nat) (h : n * ElemSize.sizeof α ≤ SIZE_MAX) :
    size_t_mul n (ElemSize.sizeof α) / ElemSize.sizeof α = n := by
  rw [size_t_mul_eq n _ h, Nat.mul_div_cancel _ ElemSize.sizeof_pos]

theorem EmplaceBack_try_ctor_canon [ElemSize α]
    (cp : Nat → Bool) (tr : Traits α) (xs : List α) (c : Nat)
    (x : α) (h : xs.length ≤ c)
    (hfit : (if xs.length = 0 then 1 else xs.length * 2) * ElemSize.sizeof α ≤ SIZE_MAX) :
    EmplaceBack_try { alloc := false, ctor := true, copy := cp } tr (canon xs c) x
      = Outcome.raised Exn.element { self := canon xs c, leaked := [] } := by
  by_cases hc : c ≤ xs.length
  · have hn : (if xs.length = 0 then 1 else xs.length * 2) ≠ 0 := by split <;> omega
    have hlt : xs.length < (if xs.length = 0 then 1 else xs.length * 2) := by split <;> omega
    simp only [EmplaceBack_try, canon, RawMemory.Capacity, hc, if_true, RawMemory.ctor_try,
      RawMemory.Allocate_try, hn, ne_eq, not_false_eq_true, Bool.false_eq_true, if_false, bind,
      Outcome.bind, pure, Outcome.unwind, construct_at_try, RawMemory.GetAddress, Nat.zero_add,
      List.length_replicate, slots_eq _ hfit, hlt, dtor_replicate_raw]
  · have hlt : xs.length < (xs.map Slot.obj ++ List.replicate (c - xs.length) Slot.raw).length := by
      simp only [List.length_append, List.length_map, List.length_replicate]
      omega
    simp only [EmplaceBack_try, canon, RawMemory.Capacity, hc, if_false, bind,
      Outcome.bind, Outcome.unwind, construct_at_try, RawMemory.GetAddress, Nat.zero_add,
      hlt, if_true]

/-- C16: for a `Vector` that satisfies the class invariant, if the constructor of the new
element raises during `EmplaceBack` (and the allocation, where one is made, succeeds), the
exception leaves the call with the `Vector` exactly as it was before the call: the same size,
the same capacity and the same element values, and nothing leaked.  This holds for every
element type, so in particular at `Size() == Capacity()` for an element type whose move
constructor cannot raise, and when spare capacity is available. -/
theorem EmplaceBack_try_ctor_raises [ElemSize α]
    (cp : Nat → Bool) (tr : Traits α) (v : Vector α) (x : α)
    (h : v.WF) :
    EmplaceBack_try { alloc := false, ctor := true, copy := cp } tr v x
      = Outcome.raised Exn.element { self := v, leaked := [] } := by
  have hcap : v.Size ≤ v.Capacity := h.2.1
  have hl := length_toList v h
  have hv := eq_canon v h
  have hf : v.toList.length * ElemSize.sizeof α ≤ PTRDIFF_MAX :=
    fits_mono (by rw [hl]; exact hcap) (fits_of_WF v h)
  rw [hv]
  exact EmplaceBack_try_ctor_canon cp tr _ _ x (by rw [hl]; exact hcap) (grow_fits _ hf)

/-- Witness of `EmplaceBack_try_ctor_raises`: the full `Vector` `[1, 2]`. -/
theorem EmplaceBack_try_ctor_raises_witness :
    (canon [1, 2] 2 : Vector Int).WF ∧
    EmplaceBack_try { alloc := false, ctor := true, copy := fun _ => false } intTraits
        (canon [1, 2] 2) 7
      = Outcome.raised Exn.element { self := canon [1, 2] 2, leaked := [] } :=
  ⟨by decide, EmplaceBack_try_ctor_raises (fun _ => false) intTraits (canon [1, 2] 2) 7
    (by decide)⟩

/-- C17: when the allocation raises, every operation that requests new storage lets
`std::bad_alloc` leave the call with the `Vector` exactly as it was before the call (the same
size, capacity and block) and nothing leaked: `Reserve(k)` with `k > Capacity()`, a `Resize`
beyond the size and the capacity, `EmplaceBack` and `PushBack` at full capacity, `Emplace` and
`Insert` at full capacity with a position in `[begin(), end()]`, and copy assignment from a
right-hand side whose size exceeds the capacity. -/
theorem bad_alloc_unchanged [ElemSize α]
    (ct : Bool) (cp : Nat → Bool) (tr : Traits α) (v : Vector α) :
    (∀ k, v.Capacity < k →
      Reserve_try { alloc := true, ctor := ct, copy := cp } tr v k
        = Outcome.raised Exn.bad_alloc { self := v, leaked := [] }) ∧
    (∀ n, v.Size < n → v.Capacity < n →
      Resize_try { alloc := true, ctor := ct, copy := cp } tr v n
        = Outcome.raised Exn.bad_alloc { self := v, leaked := [] }) ∧
    (∀ x, v.Capacity ≤ v.Size →
      EmplaceBack_try { alloc := true, ctor := ct, copy := cp } tr v x
        = Outcome.raised Exn.bad_alloc { self := v, leaked := [] }) ∧
    (∀ x, v.Capacity ≤ v.Size →
      PushBack_try { alloc := true, ctor := ct, copy := cp } tr v x
        = Outcome.raised Exn.bad_alloc { self := v, leaked := [] }) ∧
    (∀ pos x, v.Size = v.Capacity → pos ≤ v.Size →
      Emplace_try { alloc := true, ctor := ct, copy := cp } tr v (v.begin + pos) x
        = Outcome.raised Exn.bad_alloc { self := v, leaked := [] }) ∧
    (∀ pos x, v.Size = v.Capacity → pos ≤ v.Size →
      Insert_try { alloc := true, ctor := ct, copy := cp } tr v (v.begin + pos) x
        = Outcome.raised Exn.bad_alloc { self := v, leaked := [] }) ∧
    (∀ rhs : Vector α, rhs.Size > v.Capacity →
      assign_copy_try { alloc := true, ctor := ct, copy := cp } v rhs
        = Outcome.raised Exn.bad_alloc { self := v, leaked := [] }) := by
  have hres : ∀ k, v.Capacity < k →
      Reserve_try { alloc := true, ctor := ct, copy := cp } tr v k
        = Outcome.raised Exn.bad_alloc { self := v, leaked := [] } := by
    intro k hk
    simp only [Capacity, RawMemory.Capacity] at hk
    have h1 : ¬ (k ≤ v.data_.capacity_) := by omega
    have h2 : k ≠ 0 := by omega
    simp only [Reserve_try, RawMemory.Capacity, h1, if_false, RawMemory.ctor_try,
      RawMemory.Allocate_try, h2, ne_eq, not_false_eq_true, if_true, bind, Outcome.bind,
      Outcome.unwind]
  have heb : ∀ x, v.Capacity ≤ v.Size →
      EmplaceBack_try { alloc := true, ctor := ct, copy := cp } tr v x
        = Outcome.raised Exn.bad_alloc { self := v, leaked := [] } := by
    intro x hc
    simp only [Capacity, RawMemory.Capacity, Size] at hc
    have hn : (if v.size_ = 0 then 1 else v.size_ * 2) ≠ 0 := by split <;> omega
    simp only [EmplaceBack_try, RawMemory.Capacity, hc, if_true, RawMemory.ctor_try,
      RawMemory.Allocate_try, hn, ne_eq, not_false_eq_true, bind, Outcome.bind, Outcome.unwind]
  have hem : ∀ pos x, v.Size = v.Capacity → pos ≤ v.Size →
      Emplace_try { alloc := true, ctor := ct, copy := cp } tr v (v.begin + pos) x
        = Outcome.raised Exn.bad_alloc { self := v, leaked := [] } := by
    intro pos x hc hp
    simp only [Capacity, RawMemory.Capacity, Size] at hc hp
    have hn : (if v.data_.capacity_ = 0 then 1 else v.data_.capacity_ * 2) ≠ 0 := by
      split <;> omega
    have hp2 : pos ≤ v.data_.capacity_ := by omega
    simp only [Emplace_try, begin, end_, cbegin, Capacity, RawMemory.Capacity,
      RawMemory.GetAddress, Nat.zero_add, ge_iff_le, Nat.zero_le, true_and, hc, hp2,
      not_true_eq_false, if_false, if_true, RawMemory.ctor_try, RawMemory.Allocate_try, hn,
      ne_eq, not_false_eq_true, bind, Outcome.bind, pure, Outcome.unwind]
  refine ⟨hres, ?_, heb, ?_, hem, hem, ?_⟩
  · intro n hs hc
    have hgt : n > v.size_ := hs
    simp only [Resize_try, hgt, if_true, hres n hc, bind, Outcome.bind]
  · intro x hc
    simp only [PushBack_try, heb x hc, bind, Outcome.bind]
  · intro rhs hc
    simp only [Capacity, RawMemory.Capacity, Size] at hc
    have h2 : rhs.size_ ≠ 0 := by omega
    simp only [assign_copy_try, RawMemory.Capacity, hc, if_true, ctor_copy_try,
      RawMemory.ctor_try, RawMemory.Allocate_try, h2, ne_eq, not_false_eq_true, bind,
      Outcome.bind, Outcome.unwind]

end Vector

/-! ## A raising copy during migration -/

theorem uninitialized_copy_n_try_raises (r : Raises) (ys : List α) :
    ∀ (A B C D : List (Slot α)) (done : List α) (first d_first current n : Nat),
    first = A.length → d_first = C.length → current = C.length + done.length →
    n = ys.length → (∃ j, j < ys.length ∧ r.copy (A.length + j) = true) →
    uninitialized_copy_n_try r (A ++ ys.map Slot.obj ++ B) d_first first n
        (C ++ done.map Slot.obj ++ List.replicate ys.length Slot.raw ++ D) current
      = Outcome.raised Exn.element
          (C ++ List.replicate (done.length + ys.length) Slot.raw ++ D) := by
  induction ys with
  | nil =>
    intro A B C D done first d_first current n _ _ _ _ hj
    obtain ⟨j, hj, _⟩ := hj
    simp at hj
  | cons y ys ih =>
    intro A B C D done first d_first current n hf hd hc hn hj
    subst hn
    have h1 : A ++ List.map Slot.obj (y :: ys) ++ B
        = A ++ Slot.obj y :: (ys.map Slot.obj ++ B) := by simp
    simp only [List.length_cons, uninitialized_copy_n_try]
    rw [h1, load_mid A _ y first hf]
    simp only []
    by_cases hr : r.copy first = true
    · have hd2 := destroy_n_mid done C (List.replicate (ys.length + 1) Slot.raw ++ D) d_first
        (current - d_first) hd (by omega)
      simp only [List.append_assoc] at hd2 ⊢
      simp only [hr, if_true, hd2]
      rw [← List.append_assoc (List.replicate done.length Slot.raw), ← List.replicate_add]
    · simp only [hr, Bool.false_eq_true, if_false]
      have h2 : C ++ done.map Slot.obj ++ List.replicate (ys.length + 1) Slot.raw ++ D
          = (C ++ done.map Slot.obj) ++ Slot.raw :: (List.replicate ys.length Slot.raw ++ D) := by
        simp [List.replicate_succ]
      rw [h2, construct_at_mid (C ++ done.map Slot.obj) _ Slot.raw y current (by simp [hc])]
      simp only []
      have h3 : A ++ Slot.obj y :: (ys.map Slot.obj ++ B)
          = (A ++ [Slot.obj y]) ++ ys.map Slot.obj ++ B := by simp
      have h4 : (C ++ done.map Slot.obj) ++ Slot.obj y :: (List.replicate ys.length Slot.raw ++ D)
          = C ++ (done ++ [y]).map Slot.obj ++ List.replicate ys.length Slot.raw ++ D := by
        simp
      have hj2 : ∃ j, j < ys.length ∧ r.copy ((A ++ [Slot.obj y]).length + j) = true := by
        obtain ⟨j, hj1, hj2⟩ := hj
        cases j with
        | zero =>
          rw [Nat.add_zero, ← hf] at hj2
          exact absurd hj2 hr
        | succ j =>
          refine ⟨j, by simpa using hj1, ?_⟩
          rw [List.length_append, List.length_singleton, Nat.add_assoc, Nat.add_comm 1 j]
          exact hj2
      rw [h3, h4, ih (A ++ [Slot.obj y]) B C D (done ++ [y]) (first + 1) d_first (current + 1)
        ys.length (by simp [hf]) hd (by simp [hc]; omega) rfl hj2]
      have e : (done ++ [y]).length + ys.length = done.length + (ys.length + 1) := by
        simp only [List.length_append, List.length_singleton]
        omega
      rw [e]

theorem dtor_raw_obj_raw (n m c : Nat) (x : α) :
    RawMemory.dtor (RawMemory.mk
      (List.replicate n Slot.raw ++ Slot.obj x :: List.replicate m Slot.raw) c) = [x] := by
  have h : ∀ k, (List.replicate k (Slot.raw : Slot α)).filterMap Slot.val? = [] := by
    intro k
    induction k with
    | zero => rfl
    | succ k ih => simp [List.replicate_succ, Slot.val?]
  simp only [RawMemory.dtor, List.filterMap_append, List.filterMap_cons, Slot.val?, h,
    List.nil_append]

namespace Vector

/-- At full capacity under copy-based migration, if the constructor of the new element and
the allocation succeed and the copy of some old element raises, `EmplaceBack` leaves the
`Vector` as it was and leaks exactly the new element. -/
theorem EmplaceBack_try_copy_raises [ElemSize α]
    (r : Raises) (tr : Traits α) (xs : List α) (x : α) (k : Nat)
    (hpol : tr.move_if_safe = false) (ha : r.alloc = false) (hc : r.ctor = false)
    (hk : k < xs.length) (hr : r.copy k = true)
    (hfit : (if xs.length = 0 then 1 else xs.length * 2) * ElemSize.sizeof α ≤ SIZE_MAX) :
    EmplaceBack_try r tr (canon xs xs.length) x
      = Outcome.raised Exn.element { self := canon xs xs.length, leaked := [x] } := by
  obtain ⟨m, hm⟩ : ∃ m, (if xs.length = 0 then 1 else xs.length * 2) = xs.length + 1 + m := by
    refine ⟨(if xs.length = 0 then 1 else xs.length * 2) - xs.length - 1, ?_⟩
    split <;> omega
  rw [hm] at hfit
  have hn : xs.length + 1 + m ≠ 0 := by omega
  have hlt : xs.length < (List.replicate xs.length (Slot.raw : Slot α) ++
      Slot.raw :: List.replicate m Slot.raw).length := by
    simp
  have hset : (List.replicate xs.length (Slot.raw : Slot α) ++
      Slot.raw :: List.replicate m Slot.raw).set xs.length (Slot.obj x)
      = List.replicate xs.length Slot.raw ++ Slot.obj x :: List.replicate m Slot.raw := by
    have := store_mid (List.replicate xs.length (Slot.raw : Slot α)) (List.replicate m Slot.raw)
      Slot.raw (Slot.obj x) xs.length (by simp)
    simp only [store, hlt, if_true] at this
    exact Except.ok.inj this
  have hcp := uninitialized_copy_n_try_raises r xs [] [] []
    (Slot.obj x :: List.replicate m Slot.raw) [] 0 0 0 xs.length rfl rfl rfl rfl
    ⟨k, hk, by simpa using hr⟩
  simp only [List.nil_append, List.append_nil, List.map_nil, List.length_nil, Nat.zero_add]
    at hcp
  have hsplit : List.replicate (xs.length + 1 + m) (Slot.raw : Slot α)
      = List.replicate xs.length Slot.raw ++ Slot.raw :: List.replicate m Slot.raw := by
    rw [Nat.add_assoc, List.replicate_add, Nat.add_comm 1 m, List.replicate_succ]
  simp only [EmplaceBack_try, canon, RawMemory.Capacity, Nat.le_refl, if_true, hm,
    RawMemory.ctor_try, RawMemory.Allocate_try, hn, ne_eq, not_false_eq_true, ha, hc,
    Bool.false_eq_true, if_false, bind, Outcome.bind, pure, Outcome.unwind, construct_at_try,
    RawMemory.GetAddress, Nat.zero_add, slots_eq _ hfit, hsplit, hlt, hset, hpol, Nat.sub_self,
    List.replicate_zero, List.append_nil, hcp, dtor_raw_obj_raw]

/-- Witness of `bad_alloc_unchanged`: the full `Vector` `[1, 2]` on integers, one instance of
every part. -/
theorem bad_alloc_unchanged_witness :
    Reserve_try { alloc := true, ctor := false, copy := fun _ => false } intTraits
        (canon [1, 2] 2) 5
      = Outcome.raised Exn.bad_alloc { self := canon [1, 2] 2, leaked := [] } ∧
    Resize_try { alloc := true, ctor := false, copy := fun _ => false } intTraits
        (canon [1, 2] 2) 5
      = Outcome.raised Exn.bad_alloc { self := canon [1, 2] 2, leaked := [] } ∧
    EmplaceBack_try { alloc := true, ctor := false, copy := fun _ => false } intTraits
        (canon [1, 2] 2) 7
      = Outcome.raised Exn.bad_alloc { self := canon [1, 2] 2, leaked := [] } ∧
    PushBack_try { alloc := true, ctor := false, copy := fun _ => false } intTraits
        (canon [1, 2] 2) 7
      = Outcome.raised Exn.bad_alloc { self := canon [1, 2] 2, leaked := [] } ∧
    Emplace_try { alloc := true, ctor := false, copy := fun _ => false } intTraits
        (canon [1, 2] 2) ((canon [1, 2] 2 : Vector Int).begin + 1) 7
      = Outcome.raised Exn.bad_alloc { self := canon [1, 2] 2, leaked := [] } ∧
    Insert_try { alloc := true, ctor := false, copy := fun _ => false } intTraits
        (canon [1, 2] 2) ((canon [1, 2] 2 : Vector Int).begin + 1) 7
      = Outcome.raised Exn.bad_alloc { self := canon [1, 2] 2, leaked := [] } ∧
    assign_copy_try { alloc := true, ctor := false, copy := fun _ => false }
        (canon [1, 2] 2 : Vector Int) (canon [4, 5, 6] 4)
      = Outcome.raised Exn.bad_alloc { self := canon [1, 2] 2, leaked := [] } :=
  ⟨(bad_alloc_unchanged false (fun _ => false) intTraits (canon [1, 2] 2)).1 5 (by decide),
   (bad_alloc_unchanged false (fun _ => false) intTraits (canon [1, 2] 2)).2.1 5 (by decide)
     (by decide),
   (bad_alloc_unchanged false (fun _ => false) intTraits (canon [1, 2] 2)).2.2.1 7 (by decide),
   (bad_alloc_unchanged false (fun _ => false) intTraits (canon [1, 2] 2)).2.2.2.1 7
     (by decide),
   (bad_alloc_unchanged false (fun _ => false) intTraits (canon [1, 2] 2)).2.2.2.2.1 1 7
     (by decide) (by decide),
   (bad_alloc_unchanged false (fun _ => false) intTraits (canon [1, 2] 2)).2.2.2.2.2.1 1 7
     (by decide) (by decide),
   (bad_alloc_unchanged false (fun _ => false) intTraits (canon [1, 2] 2)).2.2.2.2.2.2
     (canon [4, 5, 6] 4) (by decide)⟩

/-- C19 (defect of the source): `EmplaceBack` has no handler around the migration.  When the
copy of an old element raises, `std::uninitialized_copy_n` destroys the copies it has made,
but the element that `EmplaceBack` constructed in the new storage before the migration is
never destroyed: the storage is released with that object alive.  On the full `Vector`
`[1, 2, 3]` of a copy-migrated element type, with the copy of the element at index 1 raising,
`EmplaceBack(9)` leaves the `Vector` as it was and leaks the object `9`; the same on `[1]` with
the copy at index 0 raising.  `Reserve` under the same failure leaks nothing. -/
theorem EmplaceBack_try_copy_raises_leak :
    (canon [1, 2, 3] 3 : Vector Int).WF ∧ throwingMoveTraits.move_if_safe = false ∧
    EmplaceBack_try { alloc := false, ctor := false, copy := fun i => i == 1 }
        throwingMoveTraits (canon [1, 2, 3] 3) 9
      = Outcome.raised Exn.element { self := canon [1, 2, 3] 3, leaked := [9] } ∧
    EmplaceBack_try { alloc := false, ctor := false, copy := fun i => i == 0 }
        throwingMoveTraits (canon [1] 1) 9
      = Outcome.raised Exn.element { self := canon [1] 1, leaked := [9] } ∧
    Reserve_try { alloc := false, ctor := false, copy := fun i => i == 1 }
        throwingMoveTraits (canon [1, 2, 3] 3) 6
      = Outcome.raised Exn.element { self := canon [1, 2, 3] 3, leaked := [] } := by
  refine ⟨by decide, rfl, rfl, rfl, rfl⟩

/-- C20 (defect of the source): `Insert(end(), v)` on a non-empty `Vector` with spare
capacity does not do what `PushBack(v)` does.  On `["a"]` with capacity 2, `PushBack("b")`
gives `["a", "b"]`, while `Insert(end(), "b")` first move-constructs the slot at `end()` from
the last element, which leaves that element moved-from (empty), and then calls
`std::move_backward` on a range whose first is past its last.  Were that call to do nothing,
the assignment to slot 1 would end in `["", "b"]`.  The same call on integers runs into the
same invalid range. -/
theorem Insert_end_defect :
    (canon ["a"] 2 : Vector String).WF ∧
    (canon ["a"] 2 : Vector String).Size < (canon ["a"] 2 : Vector String).Capacity ∧
    PushBack stringTraits (canon ["a"] 2) "b" = Except.ok (canon ["a", "b"] 2) ∧
    Insert stringTraits (canon ["a"] 2) (canon ["a"] 2 : Vector String).end_ "b"
      = Except.error Fault.undefined ∧
    move_construct stringTraits (canon ["a"] 2 : Vector String).data_.buffer_ 1 0
      = Except.ok [Slot.obj "", Slot.obj "a"] ∧
    move_backward stringTraits [Slot.obj "", Slot.obj "a"] 1 0 1
      = Except.error Fault.undefined ∧
    store [Slot.obj "", Slot.obj "a"] 1 (Slot.obj "b") = Except.ok [Slot.obj "", Slot.obj "b"] ∧
    PushBack intTraits (canon [1] 2) 2 = Except.ok (canon [1, 2] 2) ∧
    Insert intTraits (canon [1] 2) (canon [1] 2 : Vector Int).end_ 2
      = Except.error Fault.undefined := by
  refine ⟨by decide, by decide, rfl, rfl, rfl, rfl, rfl, rfl, rfl⟩

end Vector

end AdvancedVector
